import Mathlib

/-!
Shallow embedding of the grid-search pathfinding crate (stevebob/grid-search)
and proofs about the claims of its specification.

The embedding models the crate's current-generation search engine:
the generation-stamped `SearchContext` with its `BinaryHeap` open set
(`src/search.rs`, `src/dijkstra.rs`, `src/astar.rs`), the cardinal jump point
search (`src/cardinal_jump_point_search.rs`), breadth-first search and the
multi-source distance map (`src/bfs.rs`, `src/distance_map.rs`), path
reconstruction (`src/path.rs`) and the weighted search
(`src/weighted_search.rs`).

Modelling conventions:
* machine integers (`u32`, `u64`, `usize`) are modelled as `Nat`; the cost
  type parameter `Cost` is modelled as a linearly ordered additive type,
  instantiated at `Nat` (the `u32` instantiation used throughout the crate's
  tests); overflow is unreachable on all inputs considered here;
* Rust's `BinaryHeap` is modelled faithfully (`sift_up` /
  `sift_down_to_bottom` exactly as in the standard library, with the
  reversed `PriorityEntry` ordering that turns the max-heap into a min-heap);
* `panic!`/`expect` paths and fuel exhaustion of the unbounded `while` loops
  are modelled as `Option.none`: a returned `some r` is the value the Rust
  code returns;
* the node stores (`Grid<SearchNode>` etc.) are modelled as total functions
  from flat indices, with the same row-major index layout as `grid_2d`.
-/

set_option maxHeartbeats 1000000

namespace GridSearch

/-- Two dimensional grid coordinate (`grid_2d::Coord` with `i32` fields,
modelled as `Int`). -/
structure Coord where
  x : Int
  y : Int
deriving DecidableEq, Repr

instance : Add Coord := ⟨fun a b => ⟨a.x + b.x, a.y + b.y⟩⟩

theorem Coord.add_def (a b : Coord) : a + b = ⟨a.x + b.x, a.y + b.y⟩ := rfl

/-- The eight compass directions of the `direction` crate, in declaration
order (`North, NorthEast, East, SouthEast, South, SouthWest, West,
NorthWest`). -/
inductive Direction where
  | north
  | northEast
  | east
  | southEast
  | south
  | southWest
  | west
  | northWest
deriving DecidableEq, Repr

/-- The four cardinal directions (`direction::CardinalDirection`). -/
inductive CardinalDirection where
  | north
  | east
  | south
  | west
deriving DecidableEq, Repr

/-- Unit coordinate of a compass direction (`Direction::coord`); north is
negative `y`, as in `grid_2d` screen coordinates. -/
def Direction.coord : Direction → Coord
  | .north => ⟨0, -1⟩
  | .northEast => ⟨1, -1⟩
  | .east => ⟨1, 0⟩
  | .southEast => ⟨1, 1⟩
  | .south => ⟨0, 1⟩
  | .southWest => ⟨-1, 1⟩
  | .west => ⟨-1, 0⟩
  | .northWest => ⟨-1, -1⟩

/-- Opposite compass direction (`Direction::opposite`). -/
def Direction.opposite : Direction → Direction
  | .north => .south
  | .northEast => .southWest
  | .east => .west
  | .southEast => .northWest
  | .south => .north
  | .southWest => .northEast
  | .west => .east
  | .northWest => .southEast

/-- View a direction as a cardinal direction (`Direction::cardinal`). -/
def Direction.cardinal : Direction → Option CardinalDirection
  | .north => some .north
  | .east => some .east
  | .south => some .south
  | .west => some .west
  | _ => none

/-- Embed a cardinal direction into the eight compass directions
(`CardinalDirection::direction`). -/
def CardinalDirection.direction : CardinalDirection → Direction
  | .north => .north
  | .east => .east
  | .south => .south
  | .west => .west

/-- Unit coordinate of a cardinal direction (`CardinalDirection::coord`). -/
def CardinalDirection.coord (d : CardinalDirection) : Coord :=
  d.direction.coord

/-- Rotate a cardinal direction counterclockwise by 90 degrees
(`CardinalDirection::left90`). -/
def CardinalDirection.left90 : CardinalDirection → CardinalDirection
  | .north => .west
  | .east => .north
  | .south => .east
  | .west => .south

/-- Rotate a cardinal direction clockwise by 90 degrees
(`CardinalDirection::right90`). -/
def CardinalDirection.right90 : CardinalDirection → CardinalDirection
  | .north => .east
  | .east => .south
  | .south => .west
  | .west => .north

/-- Rotate a cardinal direction counterclockwise by 135 degrees
(`CardinalDirection::left135`), yielding an ordinal direction. -/
def CardinalDirection.left135 : CardinalDirection → Direction
  | .north => .southWest
  | .east => .northWest
  | .south => .northEast
  | .west => .southEast

/-- Rotate a cardinal direction clockwise by 135 degrees
(`CardinalDirection::right135`), yielding an ordinal direction. -/
def CardinalDirection.right135 : CardinalDirection → Direction
  | .north => .southEast
  | .east => .southWest
  | .south => .northWest
  | .west => .northEast

/-- Iteration order of `DirectionsCardinal` (the cardinal subset of the
direction iterator), as a list of compass directions. -/
def directionsCardinalList : List Direction :=
  [.north, .east, .south, .west]

/-- Iteration order of `CardinalDirections`. -/
def cardinalDirectionsList : List CardinalDirection :=
  [.north, .east, .south, .west]

/-- Row major flat index of an in-bounds coordinate
(`grid_2d` `index_of_coord` / `coord_to_index`): `none` when the coordinate
lies outside the `width × height` footprint. -/
def indexOfCoord (width height : Nat) (c : Coord) : Option Nat :=
  if 0 ≤ c.x ∧ c.x < (width : Int) ∧ 0 ≤ c.y ∧ c.y < (height : Int) then
    some (c.y.toNat * width + c.x.toNat)
  else
    none

/-- Coordinate of a flat row major index (inverse of `indexOfCoord` on
in-bounds indices). -/
def indexToCoord (width : Nat) (i : Nat) : Coord :=
  ⟨(i % width : Nat), (i / width : Nat)⟩

/-- `grid::CostCell`: either a solid cell or a traversable cell with an
entry cost. -/
inductive CostCell (C : Type) where
  | solid
  | cost (c : C)
deriving DecidableEq, Repr

/-- The read-only grid oracle consumed by the weighted searches
(the `SolidGrid` + `CostGrid` traits): `is_solid c = none` means the
coordinate is outside the grid; `cost` may depend on the entered cell and
the direction of entry. -/
structure CostGrid (C : Type) where
  is_solid : Coord → Option Bool
  cost : Coord → Direction → Option (CostCell C)

/-- A grid oracle exposing only solidity (the `SolidGrid` trait alone), as
consumed by jump point search and BFS. -/
abbrev SolidGrid : Type := Coord → Option Bool

/-- `SolidGrid::is_solid_or_outside`. -/
def isSolidOrOutside (g : SolidGrid) (c : Coord) : Bool :=
  (g c).getD true

/-- Per-cell search state (`search.rs` `SearchNode`): two generation stamps,
the cell's coordinate, the direction back toward the predecessor and the
accumulated cost. -/
structure SearchNode (C : Type) where
  seen : Nat
  visited : Nat
  coord : Coord
  from_parent : Option Direction
  cost : C
deriving DecidableEq, Repr

/-- Initial node for a cell, as built by `Grid::new_from_coord`
(`From<Coord> for SearchNode`). -/
def SearchNode.ofCoord {C : Type} [Zero C] (c : Coord) : SearchNode C :=
  ⟨0, 0, c, none, 0⟩

/-- Open-set entry (`search.rs` `PriorityEntry`): node index and priority
key. -/
structure PriorityEntry (C : Type) where
  node_index : Nat
  cost : C
deriving DecidableEq, Repr

instance {C : Type} [Inhabited C] : Inhabited (PriorityEntry C) :=
  ⟨⟨0, default⟩⟩

/-- Heap order on priority entries. `PriorityEntry`'s `Ord` compares the
costs the other way round (`other.cost.partial_cmp(&self.cost)`), turning
Rust's max-heap into a min-heap: `a ≤ b` in heap order exactly when
`b.cost ≤ a.cost`. -/
def heapLe {C : Type} [LinearOrder C] (a b : PriorityEntry C) : Bool :=
  b.cost ≤ a.cost

/-- Hole-based `sift_up` of Rust's `BinaryHeap`: the hole at `pos` holds
`elem`; while the element is greater (in heap order) than the parent, the
parent slides down; finally the element is written at the hole. The first
argument bounds the number of up-steps so the recursion is structural;
every up-step at least halves the position, so a bound of `pos + 1` is
never reached and the bounded walk equals Rust's. -/
def siftUp {C : Type} [LinearOrder C] [Inhabited C] (elem : PriorityEntry C) :
    Nat → List (PriorityEntry C) → Nat → List (PriorityEntry C)
  | 0, l, pos => l.set pos elem
  | steps + 1, l, pos =>
    if pos = 0 then l.set 0 elem
    else
      let parent := (pos - 1) / 2
      let p := l.getD parent default
      if heapLe elem p then l.set pos elem
      else siftUp elem steps (l.set pos p) parent

/-- `BinaryHeap::push`: append the element and sift it up from the end. -/
def heapPush {C : Type} [LinearOrder C] [Inhabited C]
    (l : List (PriorityEntry C)) (x : PriorityEntry C) :
    List (PriorityEntry C) :=
  siftUp x l.length (l ++ [x]) l.length

/-- Hole walk of `BinaryHeap::sift_down_to_bottom`: the hole moves to the
greater child all the way to the bottom of the tree; returns the array with
the hole's final position. The first argument bounds the number of
down-steps; every step moves the child index strictly toward `stop`, so a
bound of `stop + 1` is never reached and the bounded walk equals Rust's. -/
def siftDownGo {C : Type} [LinearOrder C] [Inhabited C] :
    Nat → List (PriorityEntry C) → Nat → Nat → Nat →
    List (PriorityEntry C) × Nat
  | 0, l, pos, _, _ => (l, pos)
  | steps + 1, l, pos, child, stop =>
    if child + 2 ≤ stop then
      let child2 :=
        if heapLe (l.getD child default) (l.getD (child + 1) default) then
          child + 1
        else child
      let l2 := l.set pos (l.getD child2 default)
      siftDownGo steps l2 child2 (2 * child2 + 1) stop
    else if child + 1 = stop then (l.set pos (l.getD child default), child)
    else (l, pos)

/-- `BinaryHeap::sift_down_to_bottom(0)` with hole element `elem`: walk the
hole to the bottom, then sift the element up from there. -/
def siftDownToBottom {C : Type} [LinearOrder C] [Inhabited C]
    (elem : PriorityEntry C) (l : List (PriorityEntry C)) :
    List (PriorityEntry C) :=
  let r := siftDownGo (l.length + 1) l 0 1 l.length
  siftUp elem r.2 r.1 r.2

/-- `BinaryHeap::pop`: remove the last element; if the heap is still
non-empty, swap it with the root and sift the hole down; returns the popped
minimum (by cost) and the remaining heap. -/
def heapPop {C : Type} [LinearOrder C] [Inhabited C]
    (l : List (PriorityEntry C)) :
    Option (PriorityEntry C) × List (PriorityEntry C) :=
  match l.getLast? with
  | none => (none, l)
  | some item =>
    let rest := l.dropLast
    if rest.isEmpty then (some item, rest)
    else (some (rest.getD 0 default), siftDownToBottom item rest)

/-- The crate's error type (`error.rs` plus the two store-mismatch variants
used by `bfs.rs`/`dijkstra.rs` and listed in the specification's error
catalogue). All errors are ordinary return values. -/
inductive Error where
  | startOutsideGrid
  | goalOutsideGrid
  | startSolid
  | noPath
  | visitOutsideContext
  | visitOutsideDistanceMap
deriving DecidableEq, Repr

/-- `config.rs` `SearchConfig`; the default allows starting on a solid
cell. -/
structure SearchConfig where
  allow_solid_start : Bool
deriving DecidableEq, Repr

instance : Inhabited SearchConfig := ⟨⟨true⟩⟩

/-- `metadata.rs` `SearchMetadata`. -/
structure SearchMetadata (C : Type) where
  num_nodes_visited : Nat
  cost : C
  length : Nat
deriving DecidableEq, Repr

/-- Result of a search query: the metadata together with the produced path
(the Rust functions write the path through a `&mut Vec<Direction>`
argument). -/
abbrev SearchResult (C : Type) : Type :=
  Except Error (SearchMetadata C × List Direction)

deriving instance DecidableEq for Except

instance {C : Type} [DecidableEq C] : DecidableEq (SearchResult C) :=
  inferInstanceAs (DecidableEq (Except Error (SearchMetadata C × List Direction)))

/-- The reusable search context (`search.rs` `SearchContext`): generation
counter, open set and node store sized to a fixed footprint. -/
structure SearchContext (C : Type) where
  width : Nat
  height : Nat
  seq : Nat
  priority_queue : List (PriorityEntry C)
  node_grid : Nat → SearchNode C

/-- `SearchContext::new`: fresh context for a `width × height` footprint. -/
def SearchContext.new (C : Type) [Zero C] (width height : Nat) :
    SearchContext C :=
  ⟨width, height, 0, [], fun i => SearchNode.ofCoord (indexToCoord width i)⟩

/-- Point update of a node store. -/
def setNode {C : Type} (g : Nat → SearchNode C) (i : Nat)
    (n : SearchNode C) : Nat → SearchNode C :=
  fun j => if j = i then n else g j

/-- `search.rs` `update_node_and_priority_queue` (the relax step): if the
successor is unseen this generation or the tentative cost strictly improves
on its recorded cost, rewrite `from_parent`, stamp it fresh, record the
cost and push an entry with priority `cost + heuristic(successor, goal)`;
otherwise leave node and open set unchanged. -/
def update_node_and_priority_queue {C : Type} [LinearOrder C] [Add C]
    [Inhabited C] (index : Nat) (cost : C) (neighbour_coord : Coord)
    (direction : Direction) (seq : Nat) (heuristic_fn : Coord → Coord → C)
    (goal : Coord) (neighbour_node : SearchNode C)
    (priority_queue : List (PriorityEntry C)) :
    SearchNode C × List (PriorityEntry C) :=
  if neighbour_node.seen ≠ seq ∨ neighbour_node.cost > cost then
    let node : SearchNode C :=
      { neighbour_node with
        from_parent := some direction
        seen := seq
        cost := cost }
    let heuristic := cost + heuristic_fn neighbour_coord goal
    (node, heapPush priority_queue ⟨index, heuristic⟩)
  else
    (neighbour_node, priority_queue)

/-- `path.rs` `make_path_all_adjacent`, generic over the `PathNode` trait
(`from_parent` and `coord` accessors): walk `from_parent` backwards from
the goal index, one grid cell per link, collecting directions (the source
pushes then reverses; prepending yields the reversed order directly).
Fuel-indexed: `none` models the `expect("Invalid search state")` panic and
non-termination on malformed stores. -/
def make_path_all_adjacent (width height : Nat)
    (from_parent : Nat → Option Direction) (coord : Nat → Coord) :
    Nat → Nat → List Direction → Option (List Direction)
  | 0, _, _ => none
  | fuel + 1, index, acc =>
    match from_parent index with
    | none => some acc
    | some d =>
      match indexOfCoord width height (coord index + d.opposite.coord) with
      | none => none
      | some j =>
        make_path_all_adjacent width height from_parent coord fuel j
          (d :: acc)

/-- Outcome of `init`: either the initial priority entry or an early result
(`init` returns `Result<PriorityEntry, Result<SearchMetadata, Error>>`). -/
inductive InitOutcome (C : Type) where
  | proceed (entry : PriorityEntry C)
  | finished (result : SearchResult C)

/-- Modelled from the spec: the configuration-aware `init` of the
current-generation engine is not under `src/` (the `search.rs` in the tree
is an older vintage whose `init` predates `SearchConfig`); its callers
(`dijkstra.rs`, `astar.rs`, `cardinal_jump_point_search.rs`) and the
structurally identical in-tree `bfs.rs::bfs_predicate` fix its shape:
validate the start is in bounds (else `StartOutsideGrid`), reject a solid
start only when the configuration forbids it (else `StartSolid`), succeed
immediately with an empty path and zero-valued metadata when the start
already satisfies the goal predicate, and otherwise advance the
generation, clear the open set, stamp the start node fresh with zero cost
and hand back the initial entry. -/
def SearchContext.init {C : Type} [LinearOrder C] [Zero C]
    (ctx : SearchContext C) (is_solid : Coord → Option Bool) (start : Coord)
    (predicate : Coord → Bool) (config : SearchConfig) :
    SearchContext C × InitOutcome C :=
  match is_solid start with
  | none => (ctx, .finished (.error .startOutsideGrid))
  | some solid =>
    if solid ∧ ¬config.allow_solid_start then
      (ctx, .finished (.error .startSolid))
    else
      match indexOfCoord ctx.width ctx.height start with
      | none => (ctx, .finished (.error .visitOutsideContext))
      | some index =>
        if predicate start then
          (ctx, .finished (.ok (⟨0, 0, 0⟩, [])))
        else
          let node := ctx.node_grid index
          let ctx2 : SearchContext C :=
            { ctx with
              seq := ctx.seq + 1
              priority_queue := []
              node_grid := setNode ctx.node_grid index
                { node with
                  from_parent := none
                  seen := ctx.seq + 1
                  cost := 0 } }
          (ctx2, .proceed ⟨index, 0⟩)

/-- One relaxation of a settled node's neighbour in direction `d`
(the successor loop body of `search_general`): skip blocked or outside
cells, fail with `VisitOutsideContext` when the successor misses the node
store, otherwise apply `update_node_and_priority_queue` with tentative
cost `current_cost + step cost`. -/
def relaxOne {C : Type} [LinearOrder C] [Add C] [Inhabited C]
    (grid : CostGrid C) (goal : Coord) (heuristic_fn : Coord → Coord → C)
    (width height seq : Nat) (current_coord : Coord) (current_cost : C)
    (st : (Nat → SearchNode C) × List (PriorityEntry C)) (d : Direction) :
    Except Error ((Nat → SearchNode C) × List (PriorityEntry C)) :=
  let neighbour_coord := current_coord + d.coord
  match grid.cost neighbour_coord d with
  | some (.cost c) =>
    match indexOfCoord width height neighbour_coord with
    | none => .error .visitOutsideContext
    | some index =>
      let r := update_node_and_priority_queue index (current_cost + c)
        neighbour_coord d seq heuristic_fn goal (st.1 index) st.2
      .ok (setNode st.1 index r.1, r.2)
  | _ => .ok st

/-- Relax all directions of the caller-supplied direction set in order. -/
def relaxAll {C : Type} [LinearOrder C] [Add C] [Inhabited C]
    (grid : CostGrid C) (goal : Coord) (heuristic_fn : Coord → Coord → C)
    (width height seq : Nat) (current_coord : Coord) (current_cost : C) :
    List Direction → (Nat → SearchNode C) × List (PriorityEntry C) →
    Except Error ((Nat → SearchNode C) × List (PriorityEntry C))
  | [], st => .ok st
  | d :: ds, st =>
    match relaxOne grid goal heuristic_fn width height seq current_coord
        current_cost st d with
    | .error e => .error e
    | .ok st2 =>
      relaxAll grid goal heuristic_fn width height seq current_coord
        current_cost ds st2

/-- The main pop/settle/relax loop of `search_general` (shape of the
in-tree `dijkstra.rs::dijkstra_predicate`, with the heuristic added to the
pushed priority as in `update_node_and_priority_queue`): pop the minimum
entry, discard it if its node is already settled this generation,
otherwise settle it, finish when it satisfies the goal predicate, else
relax its neighbours. Fuel-indexed; `none` means the fuel ran out. -/
def searchLoop {C : Type} [LinearOrder C] [Add C] [Inhabited C]
    (grid : CostGrid C) (predicate : Coord → Bool)
    (directions : List Direction) (heuristic_fn : Coord → Coord → C)
    (goal : Coord) :
    Nat → SearchContext C → Nat → Option (SearchResult C) × SearchContext C
  | 0, ctx, _ => (none, ctx)
  | fuel + 1, ctx, num_nodes_visited =>
    match h : heapPop ctx.priority_queue with
    | (none, pq2) => (some (.error .noPath), { ctx with priority_queue := pq2 })
    | (some current_entry, pq2) =>
      let ctx2 := { ctx with priority_queue := pq2 }
      let num2 := num_nodes_visited + 1
      let node := ctx2.node_grid current_entry.node_index
      if node.visited = ctx2.seq then
        searchLoop grid predicate directions heuristic_fn goal fuel ctx2 num2
      else
        let ctx3 := { ctx2 with
          node_grid := setNode ctx2.node_grid current_entry.node_index
            { node with visited := ctx2.seq } }
        let current_coord := node.coord
        let current_cost := node.cost
        if predicate current_coord then
          match make_path_all_adjacent ctx3.width ctx3.height
              (fun i => (ctx3.node_grid i).from_parent)
              (fun i => (ctx3.node_grid i).coord)
              (ctx3.width * ctx3.height + 1) current_entry.node_index [] with
          | none => (none, ctx3)
          | some path =>
            (some (.ok (⟨num2, current_cost, path.length⟩, path)), ctx3)
        else
          match relaxAll grid goal heuristic_fn ctx3.width ctx3.height
              ctx3.seq current_coord current_cost directions
              (ctx3.node_grid, ctx3.priority_queue) with
          | .error e => (some (.error e), ctx3)
          | .ok st =>
            searchLoop grid predicate directions heuristic_fn goal fuel
              { ctx3 with node_grid := st.1, priority_queue := st.2 } num2

/-- The generalized search (`search_general` of the current-generation
engine, the common body of `dijkstra` and the A* entry points): `init`,
push the initial entry, then run the relax loop against the goal
coordinate. -/
def SearchContext.search_general {C : Type} [LinearOrder C] [Add C]
    [Zero C] [Inhabited C] (ctx : SearchContext C) (grid : CostGrid C)
    (start goal : Coord) (directions : List Direction)
    (heuristic_fn : Coord → Coord → C) (config : SearchConfig)
    (fuel : Nat) : Option (SearchResult C) × SearchContext C :=
  match ctx.init grid.is_solid start (fun c => c = goal) config with
  | (ctx2, .finished r) => (some r, ctx2)
  | (ctx2, .proceed initial_entry) =>
    let ctx3 := { ctx2 with
      priority_queue := heapPush ctx2.priority_queue initial_entry }
    searchLoop grid (fun c => c = goal) directions heuristic_fn goal fuel
      ctx3 0

/-- `dijkstra.rs` `dijkstra`: `search_general` with the zero heuristic. -/
def SearchContext.dijkstra {C : Type} [LinearOrder C] [Add C] [Zero C]
    [Inhabited C] (ctx : SearchContext C) (grid : CostGrid C)
    (start goal : Coord) (directions : List Direction)
    (config : SearchConfig) (fuel : Nat) :
    Option (SearchResult C) × SearchContext C :=
  ctx.search_general grid start goal directions (fun _ _ => 0) config fuel

/-- `astar.rs` `manhatten_distance` (spelling as in the source). -/
def manhatten_distance (a b : Coord) : Int :=
  (a.x - b.x).natAbs + (a.y - b.y).natAbs

/-- `astar.rs` `astar_cardinal_manhatten_distance_heuristic` at the `u32`
cost type of the crate's tests (`NumCast` of the nonnegative `i32`
Manhattan distance into `u32` is `Int.toNat` here): `search_general` over
the cardinal directions with the Manhattan heuristic. -/
def SearchContext.astar_cardinal_manhatten_distance_heuristic
    (ctx : SearchContext Nat) (grid : CostGrid Nat) (start goal : Coord)
    (config : SearchConfig) (fuel : Nat) :
    Option (SearchResult Nat) × SearchContext Nat :=
  ctx.search_general grid start goal directionsCardinalList
    (fun a b => (manhatten_distance a b).toNat) config fuel

/-- `cardinal_jump_point_search.rs` `manhatten_distance` with the `NumCast`
into the `u32` cost type. -/
def manhatten_distance_nat (a b : Coord) : Nat :=
  (manhatten_distance a b).toNat

/-- `cardinal_jump_point_search.rs` `has_forced_neighbour`. Note the early
return: when the `left135` cell is solid or outside, the function answers
from the left side alone and never examines the right side. -/
def has_forced_neighbour (grid : SolidGrid) (coord : Coord)
    (direction : CardinalDirection) : Bool :=
  if isSolidOrOutside grid (coord + direction.left135.coord) then
    ! isSolidOrOutside grid (coord + direction.left90.coord)
  else if isSolidOrOutside grid (coord + direction.right135.coord) then
    ! isSolidOrOutside grid (coord + direction.right90.coord)
  else false

/-- `cardinal_jump_point_search.rs` `jump_to_jump_point`: walk straight in
`direction` until blocked (`false`), or until the goal or a forced
neighbour is found (`true`). Fuel-indexed (`none` = fuel ran out; the Rust
recursion always terminates on finite grids because the walk exits the
grid). -/
def jump_to_jump_point (grid : SolidGrid) (goal : Coord) :
    Nat → Coord → CardinalDirection → Option Bool
  | 0, _, _ => none
  | fuel + 1, coord, direction =>
    let neighbour_coord := coord + direction.coord
    if isSolidOrOutside grid neighbour_coord then some false
    else if neighbour_coord = goal then some true
    else if has_forced_neighbour grid neighbour_coord direction then
      some true
    else jump_to_jump_point grid goal fuel neighbour_coord direction

/-- `cardinal_jump_point_search.rs` `jump` (at the `u32` cost type): walk
straight in `direction`; stop with a successor at the goal, at a forced
neighbour, or where a perpendicular probe finds a jump point; the cost is
the number of unit steps walked. `some none` is Rust's `None` (dead end);
the outer `none` means the fuel ran out. The perpendicular probes
short-circuit like Rust's `||`. -/
def jump (grid : SolidGrid) (goal : Coord) :
    Nat → Coord → CardinalDirection → Option (Option (Coord × Nat))
  | 0, _, _ => none
  | fuel + 1, coord, direction =>
    let neighbour_coord := coord + direction.coord
    if isSolidOrOutside grid neighbour_coord then some none
    else if neighbour_coord = goal then some (some (neighbour_coord, 1))
    else if has_forced_neighbour grid neighbour_coord direction then
      some (some (neighbour_coord, 1))
    else
      match jump_to_jump_point grid goal fuel neighbour_coord
          direction.left90 with
      | none => none
      | some true => some (some (neighbour_coord, 1))
      | some false =>
        match jump_to_jump_point grid goal fuel neighbour_coord
            direction.right90 with
        | none => none
        | some true => some (some (neighbour_coord, 1))
        | some false =>
          match jump grid goal fuel neighbour_coord direction with
          | none => none
          | some none => some none
          | some (some (c, k)) => some (some (c, k + 1))

/-- Modelled from the spec: `see_successor` of the current-generation
engine is not under `src/` (only its callers are). Its shape is fixed by
`cardinal_jump_point_search.rs` (which calls it with `?`, so it returns a
`Result`) and by the older in-tree expansion path
(`search.rs::expand_common`), which looks the successor up in the node
store and applies `update_node_and_priority_queue` with priority
`cost + heuristic(successor, goal)`; a successor outside the store is the
`VisitOutsideContext` error. -/
def SearchContext.see_successor {C : Type} [LinearOrder C] [Add C]
    [Inhabited C] (ctx : SearchContext C) (cost : C)
    (successor_coord : Coord) (direction : Direction)
    (heuristic_fn : Coord → Coord → C) (goal : Coord) :
    Except Error (SearchContext C) :=
  match indexOfCoord ctx.width ctx.height successor_coord with
  | none => .error .visitOutsideContext
  | some index =>
    let r := update_node_and_priority_queue index cost successor_coord
      direction ctx.seq heuristic_fn goal (ctx.node_grid index)
      ctx.priority_queue
    .ok { ctx with node_grid := setNode ctx.node_grid index r.1,
                   priority_queue := r.2 }

/-- `cardinal_jump_point_search.rs` `expand`: jump from the settled node in
`direction`; on a successor, `see_successor` it with the accumulated cost
and the Manhattan heuristic. The outer `none` means the jump's fuel ran
out. -/
def SearchContext.expand (ctx : SearchContext Nat) (grid : SolidGrid)
    (current_coord : Coord) (current_cost : Nat)
    (direction : CardinalDirection) (goal : Coord) (jump_fuel : Nat) :
    Option (Except Error (SearchContext Nat)) :=
  match jump grid goal jump_fuel current_coord direction with
  | none => none
  | some none => some (.ok ctx)
  | some (some (successor_coord, successor_cost)) =>
    some (ctx.see_successor (current_cost + successor_cost) successor_coord
      direction.direction manhatten_distance_nat goal)

/-- Sequential `expand` over a list of directions, propagating errors and
fuel exhaustion. -/
def SearchContext.expandList (ctx : SearchContext Nat) (grid : SolidGrid)
    (current_coord : Coord) (current_cost : Nat) (goal : Coord)
    (jump_fuel : Nat) :
    List CardinalDirection → Option (Except Error (SearchContext Nat))
  | [] => some (.ok ctx)
  | d :: ds =>
    match ctx.expand grid current_coord current_cost d goal jump_fuel with
    | none => none
    | some (.error e) => some (.error e)
    | some (.ok ctx2) =>
      ctx2.expandList grid current_coord current_cost goal jump_fuel ds

/-- Inner re-walk of `path.rs` `make_path_jump_points`: step from the
child cell in the parent direction, re-emitting `from_parent` once per
cell, until the first cell whose `seen` stamp equals the current
generation; returns that node and the extended accumulator. `none` models
the `expect("Invalid search state")` panic / non-termination. -/
def makePathJumpWalk (width height : Nat)
    (node_grid : Nat → SearchNode Nat) (seq : Nat) (step : Coord)
    (from_parent : Direction) :
    Nat → Coord → List Direction →
    Option (SearchNode Nat × List Direction)
  | 0, _, _ => none
  | fuel + 1, coord, acc =>
    let coord2 := coord + step
    match indexOfCoord width height coord2 with
    | none => none
    | some j =>
      if (node_grid j).seen = seq then some (node_grid j, acc)
      else
        makePathJumpWalk width height node_grid seq step from_parent fuel
          coord2 (from_parent :: acc)

/-- Outer loop of `path.rs` `make_path_jump_points`: follow the current
node's parent link, pushing its direction once and then once more per grid
cell re-walked toward the parent, consulting the parent's own link next;
stop when `from_parent` is `None`. -/
def make_path_jump_points_go (width height : Nat)
    (node_grid : Nat → SearchNode Nat) (seq : Nat) :
    Nat → SearchNode Nat → List Direction → Option (List Direction)
  | 0, _, _ => none
  | fuel + 1, node, acc =>
    match node.from_parent with
    | none => some acc
    | some from_parent =>
      match makePathJumpWalk width height node_grid seq
          from_parent.opposite.coord from_parent fuel node.coord
          (from_parent :: acc) with
      | none => none
      | some (node2, acc2) =>
        make_path_jump_points_go width height node_grid seq fuel node2 acc2

/-- `path.rs` `make_path_jump_points`: reconstruct the unit-step path of a
jump point search by walking parent links from the goal cell (the source
pushes then reverses; the prepending accumulator yields the reversed order
directly). -/
def make_path_jump_points (width height : Nat)
    (node_grid : Nat → SearchNode Nat) (goal_coord : Coord) (seq : Nat)
    (fuel : Nat) : Option (List Direction) :=
  match indexOfCoord width height goal_coord with
  | none => none
  | some i =>
    make_path_jump_points_go width height node_grid seq fuel
      (node_grid i) []

/-- Pop/expand loop of
`cardinal_jump_point_search.rs::jump_point_search_cardinal_manhatten_distance_heuristic`:
pop the minimum entry; the goal index returns immediately with the goal
node's recorded cost and the reconstructed jump-point path; otherwise
settle the node (skipping if already settled) and expand straight ahead,
left and right of its parent direction. -/
def jpsCardinalLoop (grid : SolidGrid) (goal : Coord) (goal_index : Nat) :
    Nat → SearchContext Nat → Nat →
    Option (SearchResult Nat) × SearchContext Nat
  | 0, ctx, _ => (none, ctx)
  | fuel + 1, ctx, num_nodes_visited =>
    match heapPop ctx.priority_queue with
    | (none, pq2) =>
      (some (.error .noPath), { ctx with priority_queue := pq2 })
    | (some current_entry, pq2) =>
      let ctx2 := { ctx with priority_queue := pq2 }
      let num2 := num_nodes_visited + 1
      if current_entry.node_index = goal_index then
        match make_path_jump_points ctx2.width ctx2.height ctx2.node_grid
            goal ctx2.seq (ctx2.width * ctx2.height + 1) with
        | none => (none, ctx2)
        | some path =>
          (some (.ok (⟨num2, (ctx2.node_grid goal_index).cost, path.length⟩,
            path)), ctx2)
      else
        let node := ctx2.node_grid current_entry.node_index
        if node.visited = ctx2.seq then
          jpsCardinalLoop grid goal goal_index fuel ctx2 num2
        else
          let ctx3 := { ctx2 with
            node_grid := setNode ctx2.node_grid current_entry.node_index
              { node with visited := ctx2.seq } }
          match node.from_parent with
          | none => (none, ctx3)
          | some d8 =>
            match d8.cardinal with
            | none => (none, ctx3)
            | some direction =>
              match ctx3.expandList grid node.coord node.cost goal
                  (ctx3.width * ctx3.height + 1)
                  [direction, direction.left90, direction.right90] with
              | none => (none, ctx3)
              | some (.error e) => (some (.error e), ctx3)
              | some (.ok ctx4) =>
                jpsCardinalLoop grid goal goal_index fuel ctx4 num2

/-- `cardinal_jump_point_search.rs`
`jump_point_search_cardinal_manhatten_distance_heuristic`: `init` (without
pushing the initial entry), look up the goal index
(`VisitOutsideContext` when the goal misses the node store), expand the
start in all four cardinal directions, then run the pop/expand loop. -/
def SearchContext.jump_point_search_cardinal_manhatten_distance_heuristic
    (ctx : SearchContext Nat) (grid : SolidGrid) (start goal : Coord)
    (config : SearchConfig) (fuel : Nat) :
    Option (SearchResult Nat) × SearchContext Nat :=
  match ctx.init grid start (fun c => c = goal) config with
  | (ctx2, .finished r) => (some r, ctx2)
  | (ctx2, .proceed initial_entry) =>
    match indexOfCoord ctx2.width ctx2.height goal with
    | none => (some (.error .visitOutsideContext), ctx2)
    | some goal_index =>
      match ctx2.expandList grid start initial_entry.cost goal
          (ctx2.width * ctx2.height + 1) cardinalDirectionsList with
      | none => (none, ctx2)
      | some (.error e) => (some (.error e), ctx2)
      | some (.ok ctx3) =>
        jpsCardinalLoop grid goal goal_index fuel ctx3 0

/-- Per-cell BFS state (`bfs.rs` `BfsNode`). -/
structure BfsNode where
  seen : Nat
  coord : Coord
  from_parent : Option Direction
deriving DecidableEq, Repr

/-- Initial BFS node for a cell (`BfsNode::new`). -/
def BfsNode.ofCoord (c : Coord) : BfsNode :=
  ⟨0, c, none⟩

/-- FIFO queue entry (`bfs.rs` `Entry`): node index and depth. -/
structure BfsEntry where
  index : Nat
  depth : Nat
deriving DecidableEq, Repr

/-- The reusable BFS context (`bfs.rs` `BfsContext`). -/
structure BfsContext where
  width : Nat
  height : Nat
  seq : Nat
  queue : List BfsEntry
  node_grid : Nat → BfsNode

/-- `BfsContext::new`. -/
def BfsContext.new (width height : Nat) : BfsContext :=
  ⟨width, height, 0, [], fun i => BfsNode.ofCoord (indexToCoord width i)⟩

/-- Point update of a BFS node store. -/
def setBfsNode (g : Nat → BfsNode) (i : Nat) (n : BfsNode) :
    Nat → BfsNode :=
  fun j => if j = i then n else g j

/-- Outcome of scanning one settled BFS cell's neighbours. -/
inductive BfsScan where
  | finished (r : Option (SearchResult Nat)) (ctx : BfsContext)
      (trace : List Nat)
  | next (ctx : BfsContext) (trace : List Nat)

/-- Neighbour scan of `bfs.rs::bfs_predicate`: for each direction, skip
solid or outside neighbours; stamp, record `from_parent` and enqueue a
neighbour unseen this generation (appending its index to the ghost push
`trace`); then — whether or not it was just stamped — finish successfully
if it satisfies the predicate, reconstructing the path from its index. -/
def bfsScan (grid : SolidGrid) (predicate : Coord → Bool)
    (current_coord : Coord) (num2 next_depth : Nat) :
    List Direction → BfsContext → List Nat → BfsScan
  | [], ctx, trace => .next ctx trace
  | d :: ds, ctx, trace =>
    let neighbour_coord := current_coord + d.coord
    if grid neighbour_coord = some false then
      match indexOfCoord ctx.width ctx.height neighbour_coord with
      | none => .finished (some (.error .visitOutsideContext)) ctx trace
      | some index =>
        let node := ctx.node_grid index
        let st :=
          if node.seen ≠ ctx.seq then
            ({ ctx with
               node_grid := setBfsNode ctx.node_grid index
                 { node with seen := ctx.seq, from_parent := some d }
               queue := ctx.queue ++ [⟨index, next_depth⟩] },
             trace ++ [index])
          else (ctx, trace)
        if predicate neighbour_coord then
          match make_path_all_adjacent st.1.width st.1.height
              (fun i => (st.1.node_grid i).from_parent)
              (fun i => (st.1.node_grid i).coord)
              (st.1.width * st.1.height + 1) index [] with
          | none => .finished none st.1 st.2
          | some path =>
            .finished
              (some (.ok (⟨num2, path.length, path.length⟩, path)))
              st.1 st.2
        else bfsScan grid predicate current_coord num2 next_depth ds st.1
          st.2
    else bfsScan grid predicate current_coord num2 next_depth ds ctx trace

/-- Pop/scan loop of `bfs.rs::bfs_predicate`. The `trace` ghost list
records every index pushed onto the FIFO queue. -/
def bfsLoop (grid : SolidGrid) (predicate : Coord → Bool)
    (directions : List Direction) :
    Nat → BfsContext → Nat → List Nat →
    Option (SearchResult Nat) × BfsContext × List Nat
  | 0, ctx, _, trace => (none, ctx, trace)
  | fuel + 1, ctx, num_nodes_visited, trace =>
    match ctx.queue with
    | [] => (some (.error .noPath), ctx, trace)
    | current_entry :: rest =>
      let ctx2 := { ctx with queue := rest }
      let num2 := num_nodes_visited + 1
      let current_coord := (ctx2.node_grid current_entry.index).coord
      match bfsScan grid predicate current_coord num2
          (current_entry.depth + 1) directions ctx2 trace with
      | .finished r ctx3 trace2 => (r, ctx3, trace2)
      | .next ctx3 trace2 =>
        bfsLoop grid predicate directions fuel ctx3 num2 trace2

/-- `bfs.rs` `bfs_predicate`: validate the start as in `init`, succeed
immediately when the start satisfies the predicate, otherwise stamp and
enqueue the start and run the flood, finishing when a discovered neighbour
satisfies the predicate (`cost` of the metadata is the path length). The
third component is the ghost trace of pushed indices. -/
def BfsContext.bfs_predicate (ctx : BfsContext) (grid : SolidGrid)
    (start : Coord) (predicate : Coord → Bool) (directions : List Direction)
    (config : SearchConfig) (fuel : Nat) :
    Option (SearchResult Nat) × BfsContext × List Nat :=
  match grid start with
  | none => (some (.error .startOutsideGrid), ctx, [])
  | some solid =>
    if solid ∧ ¬config.allow_solid_start then
      (some (.error .startSolid), ctx, [])
    else
      match indexOfCoord ctx.width ctx.height start with
      | none => (some (.error .visitOutsideContext), ctx, [])
      | some index =>
        if predicate start then (some (.ok (⟨0, 0, 0⟩, [])), ctx, [])
        else
          let node := ctx.node_grid index
          let ctx2 : BfsContext :=
            { ctx with
              seq := ctx.seq + 1
              queue := [⟨index, 0⟩]
              node_grid := setBfsNode ctx.node_grid index
                { node with seen := ctx.seq + 1, from_parent := none } }
          bfsLoop grid predicate directions fuel ctx2 0 [index]

/-- `bfs.rs` `bfs`: `bfs_predicate` against coordinate equality with the
goal. -/
def BfsContext.bfs (ctx : BfsContext) (grid : SolidGrid)
    (start goal : Coord) (directions : List Direction)
    (config : SearchConfig) (fuel : Nat) :
    Option (SearchResult Nat) × BfsContext × List Nat :=
  ctx.bfs_predicate grid start (fun c => c = goal) directions config fuel

/-- The `best` crate's `BestMap` at an `Int` score: keeps the value with
the strictly greatest score seen so far (ties keep the first). -/
abbrev BestMap : Type := Option (Int × Nat)

/-- `BestMap::insert_gt`. -/
def bestInsertGt (bm : BestMap) (score : Int) (value : Nat) : BestMap :=
  match bm with
  | none => some (score, value)
  | some (s, v) => if score > s then some (score, value) else some (s, v)

/-- Neighbour scan of `bfs.rs::bfs_best`: stamp/enqueue unseen neighbours
(recording pushes in the ghost trace) and offer every scored neighbour to
the best map; no early return. `none` models the
`VisitOutsideContext` error through `sum`-free nesting below. -/
def bfsBestScan (grid : SolidGrid) (score : Coord → Option Int)
    (current_coord : Coord) (next_depth : Nat) :
    List Direction → BfsContext → BestMap → List Nat →
    Except Error (BfsContext × BestMap × List Nat)
  | [], ctx, bm, trace => .ok (ctx, bm, trace)
  | d :: ds, ctx, bm, trace =>
    let neighbour_coord := current_coord + d.coord
    if grid neighbour_coord = some false then
      match indexOfCoord ctx.width ctx.height neighbour_coord with
      | none => .error .visitOutsideContext
      | some index =>
        let node := ctx.node_grid index
        let st :=
          if node.seen ≠ ctx.seq then
            ({ ctx with
               node_grid := setBfsNode ctx.node_grid index
                 { node with seen := ctx.seq, from_parent := some d }
               queue := ctx.queue ++ [⟨index, next_depth⟩] },
             trace ++ [index])
          else (ctx, trace)
        let bm2 :=
          match score neighbour_coord with
          | some s => bestInsertGt bm s index
          | none => bm
        bfsBestScan grid score current_coord next_depth ds st.1 bm2 st.2
    else bfsBestScan grid score current_coord next_depth ds ctx bm trace

/-- Pop/scan loop of `bfs.rs::bfs_best`: entries at or beyond `max_depth`
are popped and counted but not expanded; the flood runs until the queue is
exhausted. -/
def bfsBestLoop (grid : SolidGrid) (score : Coord → Option Int)
    (directions : List Direction) (max_depth : Nat) :
    Nat → BfsContext → BestMap → Nat → List Nat →
    Option ((Except Error (Nat × BestMap)) × BfsContext × List Nat)
  | 0, _, _, _, _ => none
  | fuel + 1, ctx, bm, num_nodes_visited, trace =>
    match ctx.queue with
    | [] => some (.ok (num_nodes_visited, bm), ctx, trace)
    | current_entry :: rest =>
      let ctx2 := { ctx with queue := rest }
      let num2 := num_nodes_visited + 1
      if current_entry.depth ≥ max_depth then
        bfsBestLoop grid score directions max_depth fuel ctx2 bm num2 trace
      else
        let current_coord := (ctx2.node_grid current_entry.index).coord
        match bfsBestScan grid score current_coord
            (current_entry.depth + 1) directions ctx2 bm trace with
        | .error e => some (.error e, ctx2, trace)
        | .ok (ctx3, bm2, trace2) =>
          bfsBestLoop grid score directions max_depth fuel ctx3 bm2 num2
            trace2

/-- `bfs.rs` `bfs_best`: flood from the start up to `max_depth`, tracking
the best-scoring visited index; on exhaustion reconstruct the path to the
best index, or fail with `NoPath` when nothing scored. The third component
is the ghost trace of pushed indices. -/
def BfsContext.bfs_best (ctx : BfsContext) (grid : SolidGrid)
    (start : Coord) (score : Coord → Option Int)
    (directions : List Direction) (config : SearchConfig)
    (max_depth : Nat) (fuel : Nat) :
    Option (SearchResult Nat) × BfsContext × List Nat :=
  match grid start with
  | none => (some (.error .startOutsideGrid), ctx, [])
  | some solid =>
    if solid ∧ ¬config.allow_solid_start then
      (some (.error .startSolid), ctx, [])
    else
      match indexOfCoord ctx.width ctx.height start with
      | none => (some (.error .visitOutsideContext), ctx, [])
      | some index =>
        let bm0 : BestMap :=
          match score start with
          | some s => bestInsertGt none s index
          | none => none
        let node := ctx.node_grid index
        let ctx2 : BfsContext :=
          { ctx with
            seq := ctx.seq + 1
            queue := [⟨index, 0⟩]
            node_grid := setBfsNode ctx.node_grid index
              { node with seen := ctx.seq + 1, from_parent := none } }
        match bfsBestLoop grid score directions max_depth fuel ctx2 bm0 0
            [index] with
        | none => (none, ctx2, [index])
        | some (.error e, ctx3, trace) => (some (.error e), ctx3, trace)
        | some (.ok (num, bm), ctx3, trace) =>
          match bm with
          | none => (some (.error .noPath), ctx3, trace)
          | some (_, best_index) =>
            match make_path_all_adjacent ctx3.width ctx3.height
                (fun i => (ctx3.node_grid i).from_parent)
                (fun i => (ctx3.node_grid i).coord)
                (ctx3.width * ctx3.height + 1) best_index [] with
            | none => (none, ctx3, trace)
            | some path =>
              (some (.ok (⟨num, path.length, path.length⟩, path)), ctx3,
                trace)

/-- `metadata.rs` `DistanceMapMetadata`. -/
structure DistanceMapMetadata where
  num_nodes_visited : Nat
deriving DecidableEq, Repr

/-- Per-cell field state (`distance_map.rs` `DistanceMapCell`). -/
structure DistanceMapCell (C : Type) where
  seen : Nat
  visited : Nat
  cost : C
  direction : Direction
  coord : Coord
deriving DecidableEq, Repr

/-- `DistanceMapCell::new`. -/
def DistanceMapCell.ofCoord {C : Type} [Zero C] (c : Coord) :
    DistanceMapCell C :=
  ⟨0, 0, 0, .north, c⟩

/-- The distance field (`distance_map.rs` `DistanceMap`): its own
generation counter, cell grid and single `origin` marker coordinate. -/
structure DistanceMap (C : Type) where
  width : Nat
  height : Nat
  seq : Nat
  grid : Nat → DistanceMapCell C
  origin : Coord

/-- `DistanceMap::new` (the counter starts at 1). -/
def DistanceMap.mk0 (C : Type) [Zero C] (width height : Nat) :
    DistanceMap C :=
  ⟨width, height, 1, fun i => DistanceMapCell.ofCoord (indexToCoord width i),
    ⟨0, 0⟩⟩

/-- Point update of a distance-map cell store. -/
def setCell {C : Type} (g : Nat → DistanceMapCell C) (i : Nat)
    (n : DistanceMapCell C) : Nat → DistanceMapCell C :=
  fun j => if j = i then n else g j

/-- Observable state of a distance-map coordinate
(`distance_map.rs` `DistanceMapEntry`); `cell` carries the payload read
from the referenced cell. -/
inductive DistanceMapEntry (C : Type) where
  | origin
  | unvisited
  | outside
  | cell (cost : C) (direction : Direction)
deriving DecidableEq, Repr

/-- `DistanceMap::get`: outside coordinates are `Outside`; cells whose
stamp misses the map's generation are `Unvisited`; a fresh cell at the
recorded origin coordinate is `Origin`, any other fresh cell reports its
cost and back-direction. -/
def DistanceMap.get {C : Type} (dm : DistanceMap C) (c : Coord) :
    DistanceMapEntry C :=
  match indexOfCoord dm.width dm.height c with
  | none => .outside
  | some i =>
    if (dm.grid i).seen = dm.seq then
      if c = dm.origin then .origin
      else .cell (dm.grid i).cost (dm.grid i).direction
    else .unvisited

/-- Origin enqueueing loop of `bfs.rs::populate_distance_map_multi`: for
each zero point, validate it like a start, enqueue it, and — exactly as in
the source — advance the map's generation, overwrite the single `origin`
marker and stamp the cell with the advanced generation (so with several
origins, earlier origins end up stamped with a stale generation). -/
def enqueueZeroPoints (grid : SolidGrid) (config : SearchConfig) :
    List Coord → List BfsEntry → DistanceMap Nat →
    Except Error (List BfsEntry × DistanceMap Nat)
  | [], queue, dm => .ok (queue, dm)
  | start :: rest, queue, dm =>
    match grid start with
    | none => .error .startOutsideGrid
    | some solid =>
      if solid ∧ ¬config.allow_solid_start then .error .startSolid
      else
        match indexOfCoord dm.width dm.height start with
        | none => .error .visitOutsideDistanceMap
        | some index =>
          let queue2 := queue ++ [⟨index, 0⟩]
          let cell := dm.grid index
          let dm2 : DistanceMap Nat :=
            { dm with
              seq := dm.seq + 1
              origin := start
              grid := setCell dm.grid index
                { cell with seen := dm.seq + 1, cost := 0 } }
          enqueueZeroPoints grid config rest queue2 dm2

/-- Neighbour scan of the distance-map flood: stamp each unseen traversable
neighbour with the current generation, the direction back toward the
popped cell and cost one more than it, and enqueue it. -/
def dmScan (grid : SolidGrid) (current_coord : Coord) (current_cost : Nat)
    (next_depth : Nat) :
    List Direction → List BfsEntry → DistanceMap Nat →
    Except Error (List BfsEntry × DistanceMap Nat)
  | [], queue, dm => .ok (queue, dm)
  | d :: ds, queue, dm =>
    let neighbour_coord := current_coord + d.coord
    if grid neighbour_coord = some false then
      match indexOfCoord dm.width dm.height neighbour_coord with
      | none => .error .visitOutsideDistanceMap
      | some index =>
        let cell := dm.grid index
        if cell.seen ≠ dm.seq then
          let dm2 : DistanceMap Nat :=
            { dm with
              grid := setCell dm.grid index
                { cell with
                  seen := dm.seq
                  direction := d.opposite
                  cost := current_cost + 1 } }
          dmScan grid current_coord current_cost next_depth ds
            (queue ++ [⟨index, next_depth⟩]) dm2
        else dmScan grid current_coord current_cost next_depth ds queue dm
    else dmScan grid current_coord current_cost next_depth ds queue dm

/-- FIFO flood loop of `populate_distance_map_multi`. -/
def dmLoop (grid : SolidGrid) (directions : List Direction) :
    Nat → List BfsEntry → DistanceMap Nat → Nat →
    Option (Except Error (DistanceMapMetadata × DistanceMap Nat))
  | 0, _, _, _ => none
  | fuel + 1, queue, dm, num_nodes_visited =>
    match queue with
    | [] => some (.ok (⟨num_nodes_visited⟩, dm))
    | current_entry :: rest =>
      let num2 := num_nodes_visited + 1
      let cell := dm.grid current_entry.index
      match dmScan grid cell.coord cell.cost (current_entry.depth + 1)
          directions rest dm with
      | .error e => some (.error e)
      | .ok (queue2, dm2) => dmLoop grid directions fuel queue2 dm2 num2

/-- `bfs.rs` `populate_distance_map_multi`: clear the scratch queue,
enqueue and stamp every zero point (bumping the map's generation once per
origin, as the source does), then flood breadth-first, recording per
reached cell its cost from the popped predecessor plus one and the
direction back toward it. The `BfsContext` is used only as the scratch
queue, cleared on entry, so it is not a parameter here. -/
def populate_distance_map_multi (grid : SolidGrid)
    (zero_points : List Coord) (directions : List Direction)
    (config : SearchConfig) (dm : DistanceMap Nat) (fuel : Nat) :
    Option (Except Error (DistanceMapMetadata × DistanceMap Nat)) :=
  match enqueueZeroPoints grid config zero_points [] dm with
  | .error e => some (.error e)
  | .ok (queue, dm2) => dmLoop grid directions fuel queue dm2 0

/-- `bfs.rs` `populate_distance_map`: the single-origin wrapper. -/
def populate_distance_map (grid : SolidGrid) (start : Coord)
    (directions : List Direction) (config : SearchConfig)
    (dm : DistanceMap Nat) (fuel : Nat) :
    Option (Except Error (DistanceMapMetadata × DistanceMap Nat)) :=
  populate_distance_map_multi grid [start] directions config dm fuel

/-- Search metadata of the older-generation engine
(`weighted_search.rs` still returns the old `SearchMetadata` carrying only
the visited count). -/
structure OldSearchMetadata where
  num_nodes_visited : Nat
deriving DecidableEq, Repr

/-- Result type of the older weighted search. -/
abbrev WeightedResult : Type :=
  Except Error (OldSearchMetadata × List Direction)

instance : DecidableEq WeightedResult :=
  inferInstanceAs (DecidableEq (Except Error (OldSearchMetadata × List Direction)))

/-- Grid oracle of the older weighted search
(`weighted_search.rs` consumes the older trait vintage: `is_solid` returns
a plain `bool` and `cost` an `Option<u32>` where `None` is blocked or
outside). -/
structure WeightedCostGrid where
  is_solid : Coord → Bool
  cost : Coord → Direction → Option Nat

/-- The older `WeightedSearchContext` (`weighted_search.rs`); its node
shape coincides with `SearchNode` at the `u32` cost type. -/
structure WeightedSearchContext where
  width : Nat
  height : Nat
  seq : Nat
  priority_queue : List (PriorityEntry Nat)
  node_grid : Nat → SearchNode Nat

/-- `WeightedSearchContext::new`. -/
def WeightedSearchContext.new (width height : Nat) :
    WeightedSearchContext :=
  ⟨width, height, 0, [], fun i => SearchNode.ofCoord (indexToCoord width i)⟩

/-- Relax step of `weighted_search.rs::search_general`: index lookup first
(skipping the neighbour entirely when it is outside the node grid), then
the cost lookup, then the in-place seen/cost update and push with priority
`cost + heuristic(neighbour, goal)`. -/
def weightedRelaxAll (grid : WeightedCostGrid) (goal : Coord)
    (heuristic_fn : Coord → Coord → Nat) (width height seq : Nat)
    (current_coord : Coord) (current_cost : Nat) :
    List Direction → (Nat → SearchNode Nat) × List (PriorityEntry Nat) →
    (Nat → SearchNode Nat) × List (PriorityEntry Nat)
  | [], st => st
  | d :: ds, st =>
    let neighbour_coord := current_coord + d.coord
    match indexOfCoord width height neighbour_coord with
    | none =>
      weightedRelaxAll grid goal heuristic_fn width height seq
        current_coord current_cost ds st
    | some index =>
      match grid.cost neighbour_coord d with
      | none =>
        weightedRelaxAll grid goal heuristic_fn width height seq
          current_coord current_cost ds st
      | some neighbour_cost =>
        let node := st.1 index
        let cost := current_cost + neighbour_cost
        let st2 :=
          if node.seen ≠ seq ∨ node.cost > cost then
            (setNode st.1 index
              { node with
                from_parent := some d
                seen := seq
                cost := cost },
             heapPush st.2 ⟨index, cost + heuristic_fn neighbour_coord goal⟩)
          else st
        weightedRelaxAll grid goal heuristic_fn width height seq
          current_coord current_cost ds st2

/-- Pop/settle/relax loop of `weighted_search.rs::search_general`: the
goal test compares the popped index against the goal index before the
settled check. -/
def weightedLoop (grid : WeightedCostGrid) (goal : Coord)
    (goal_index : Nat) (directions : List Direction)
    (heuristic_fn : Coord → Coord → Nat) :
    Nat → WeightedSearchContext → Nat →
    Option WeightedResult × WeightedSearchContext
  | 0, ctx, _ => (none, ctx)
  | fuel + 1, ctx, num_nodes_visited =>
    match heapPop ctx.priority_queue with
    | (none, pq2) =>
      (some (.error .noPath), { ctx with priority_queue := pq2 })
    | (some current_entry, pq2) =>
      let ctx2 := { ctx with priority_queue := pq2 }
      let num2 := num_nodes_visited + 1
      if current_entry.node_index = goal_index then
        match make_path_all_adjacent ctx2.width ctx2.height
            (fun i => (ctx2.node_grid i).from_parent)
            (fun i => (ctx2.node_grid i).coord)
            (ctx2.width * ctx2.height + 1) goal_index [] with
        | none => (none, ctx2)
        | some path => (some (.ok (⟨num2⟩, path)), ctx2)
      else
        let node := ctx2.node_grid current_entry.node_index
        if node.visited = ctx2.seq then
          weightedLoop grid goal goal_index directions heuristic_fn fuel
            ctx2 num2
        else
          let ctx3 := { ctx2 with
            node_grid := setNode ctx2.node_grid current_entry.node_index
              { node with visited := ctx2.seq } }
          let st := weightedRelaxAll grid goal heuristic_fn ctx3.width
            ctx3.height ctx3.seq node.coord node.cost directions
            (ctx3.node_grid, ctx3.priority_queue)
          weightedLoop grid goal goal_index directions heuristic_fn fuel
            { ctx3 with node_grid := st.1, priority_queue := st.2 } num2

/-- `weighted_search.rs` `search_general` (older generation): start
validation inline (start outside the node grid is `StartOutsideGrid`, a
solid start is always `StartSolid`, `start == goal` succeeds immediately),
initial push with priority `heuristic(start, goal)`, then an explicit
`GoalOutsideGrid` check before the loop. -/
def WeightedSearchContext.search_general (ctx : WeightedSearchContext)
    (grid : WeightedCostGrid) (start goal : Coord)
    (directions : List Direction) (heuristic_fn : Coord → Coord → Nat)
    (fuel : Nat) : Option WeightedResult × WeightedSearchContext :=
  match indexOfCoord ctx.width ctx.height start with
  | none => (some (.error .startOutsideGrid), ctx)
  | some index =>
    if grid.is_solid start then (some (.error .startSolid), ctx)
    else if start = goal then (some (.ok (⟨0⟩, [])), ctx)
    else
      let node := ctx.node_grid index
      let ctx2 : WeightedSearchContext :=
        { ctx with
          seq := ctx.seq + 1
          priority_queue := []
          node_grid := setNode ctx.node_grid index
            { node with
              from_parent := none
              seen := ctx.seq + 1
              cost := 0 } }
      let ctx3 := { ctx2 with
        priority_queue := heapPush ctx2.priority_queue
          ⟨index, heuristic_fn start goal⟩ }
      match indexOfCoord ctx3.width ctx3.height goal with
      | none => (some (.error .goalOutsideGrid), ctx3)
      | some goal_index =>
        weightedLoop grid goal goal_index directions heuristic_fn fuel
          ctx3 0

/-- Outcome of the older generation's `init` (`search.rs:109-146`):
either the initial priority entry or an early result. -/
inductive OldInitOutcome (C : Type) where
  | proceed (entry : PriorityEntry C)
  | finished (result : Except Error (OldSearchMetadata × List Direction))

/-- `search.rs` `init` (the older, configuration-free vintage, lines
109-146): a start off the grid is `StartOutsideGrid`; a start the node
store cannot index panics (`coord_to_index(start).expect("SearchContext
too small for grid")`, modelled as `none`); a solid start is always
`StartSolid`; `start == goal` succeeds immediately with the default
(zero-visit) metadata and a cleared path; otherwise advance the
generation, clear the open set, stamp the start node with zero cost and
hand back the initial entry. -/
def SearchContext.old_init {C : Type} [LinearOrder C] [Zero C]
    (ctx : SearchContext C) (is_solid : Coord → Option Bool)
    (start goal : Coord) :
    Option (SearchContext C × OldInitOutcome C) :=
  match is_solid start with
  | none => some (ctx, .finished (.error .startOutsideGrid))
  | some solid =>
    match indexOfCoord ctx.width ctx.height start with
    | none => none
    | some index =>
      if solid then some (ctx, .finished (.error .startSolid))
      else if start = goal then some (ctx, .finished (.ok (⟨0⟩, [])))
      else
        let node := ctx.node_grid index
        some
          ({ ctx with
             seq := ctx.seq + 1
             priority_queue := []
             node_grid := setNode ctx.node_grid index
               { node with
                 from_parent := none
                 seen := ctx.seq + 1
                 cost := 0 } },
           .proceed ⟨index, 0⟩)

/-- Successor loop of the older `search_general` (`search.rs:194-223`):
skip blocked or off-grid neighbours; a neighbour the node store cannot
index panics (`coord_to_index(neighbour_coord).expect(...)`, `none`
here); otherwise apply `update_node_and_priority_queue`. -/
def oldRelaxAll {C : Type} [LinearOrder C] [Add C] [Inhabited C]
    (grid : CostGrid C) (goal : Coord) (hf : Coord → Coord → C)
    (w h seq : Nat) (cc : Coord) (ccost : C) :
    List Direction → (Nat → SearchNode C) × List (PriorityEntry C) →
    Option ((Nat → SearchNode C) × List (PriorityEntry C))
  | [], st => some st
  | d :: ds, st =>
    match grid.cost (cc + d.coord) d with
    | some (.cost c) =>
      match indexOfCoord w h (cc + d.coord) with
      | none => none
      | some index =>
        let r := update_node_and_priority_queue index (ccost + c)
          (cc + d.coord) d seq hf goal (st.1 index) st.2
        oldRelaxAll grid goal hf w h seq cc ccost ds
          (setNode st.1 index r.1, r.2)
    | _ => oldRelaxAll grid goal hf w h seq cc ccost ds st

/-- Pop loop of the older `search_general` (`search.rs:176-224`): pop,
count the visit, finish with the reconstructed path when the goal index
is popped (tested before the settled check, as in the source), otherwise
settle and relax. `none` is fuel exhaustion or a panic. -/
def oldSearchLoop {C : Type} [LinearOrder C] [Add C] [Inhabited C]
    (grid : CostGrid C) (goal_index : Nat) (directions : List Direction)
    (hf : Coord → Coord → C) (goal : Coord) :
    Nat → SearchContext C → Nat →
    Option (Except Error (OldSearchMetadata × List Direction)) ×
      SearchContext C
  | 0, ctx, _ => (none, ctx)
  | fuel + 1, ctx, num =>
    match heapPop ctx.priority_queue with
    | (none, pq2) =>
      (some (.error .noPath), { ctx with priority_queue := pq2 })
    | (some current_entry, pq2) =>
      let ctx2 := { ctx with priority_queue := pq2 }
      let num2 := num + 1
      if current_entry.node_index = goal_index then
        match make_path_all_adjacent ctx2.width ctx2.height
            (fun i => (ctx2.node_grid i).from_parent)
            (fun i => (ctx2.node_grid i).coord)
            (ctx2.width * ctx2.height + 1) goal_index [] with
        | none => (none, ctx2)
        | some path => (some (.ok (⟨num2⟩, path)), ctx2)
      else
        let node := ctx2.node_grid current_entry.node_index
        if node.visited = ctx2.seq then
          oldSearchLoop grid goal_index directions hf goal fuel ctx2 num2
        else
          let ctx3 := { ctx2 with
            node_grid := setNode ctx2.node_grid current_entry.node_index
              { node with visited := ctx2.seq } }
          match oldRelaxAll grid goal hf ctx3.width ctx3.height ctx3.seq
              node.coord node.cost directions
              (ctx3.node_grid, ctx3.priority_queue) with
          | none => (none, ctx3)
          | some st =>
            oldSearchLoop grid goal_index directions hf goal fuel
              { ctx3 with node_grid := st.1, priority_queue := st.2 } num2

/-- The older generation's `search_general` (`search.rs:148-226`, shared
by `search`, the `search_*_heuristic` wrappers, and — with the octile
expansion in place of the adjacent relax but the same `init` and the same
`coord_to_index(goal).expect` — the octile
`jump_point_search_octile_distance_heuristic` of
`jump_point_search.rs:213-231`): old `init`, push the initial entry, then
look the goal up with `coord_to_index(goal).expect("SearchContext too
small for grid")` — a goal outside the node store panics (`none` here)
instead of returning an error — and run the pop loop. -/
def SearchContext.old_search_general {C : Type} [LinearOrder C] [Add C]
    [Zero C] [Inhabited C] (ctx : SearchContext C) (grid : CostGrid C)
    (start goal : Coord) (directions : List Direction)
    (hf : Coord → Coord → C) (fuel : Nat) :
    Option (Except Error (OldSearchMetadata × List Direction)) ×
      SearchContext C :=
  match ctx.old_init grid.is_solid start goal with
  | none => (none, ctx)
  | some (ctx2, .finished r) => (some r, ctx2)
  | some (ctx2, .proceed initial_entry) =>
    let ctx3 := { ctx2 with
      priority_queue := heapPush ctx2.priority_queue initial_entry }
    match indexOfCoord ctx3.width ctx3.height goal with
    | none => (none, ctx3)
    | some goal_index =>
      oldSearchLoop grid goal_index directions hf goal fuel ctx3 0

/-- Build a cost-grid oracle from per-cell entry costs exactly as the
crate's test support `TestGrid` does (at ordinal multiplier 1): `none`
cells are solid, `cost` does not depend on the entry direction, and — as
in `TestGrid::cost` — a solid cell's cost lookup answers `None`. -/
def cellsGet (cells : List (List (Option Nat))) (c : Coord) :
    Option (Option Nat) :=
  if 0 ≤ c.x ∧ 0 ≤ c.y then
    (cells.get? c.y.toNat).bind fun row => row.get? c.x.toNat
  else none

/-- The `CostGrid` oracle of a cell table. -/
def costGridOfCells (cells : List (List (Option Nat))) : CostGrid Nat where
  is_solid c := (cellsGet cells c).map Option.isNone
  cost c _d :=
    match cellsGet cells c with
    | none => none
    | some none => none
    | some (some v) => some (.cost v)

/-- A solidity-only grid oracle from a boolean cell table (`true` =
solid), as the BFS/JPS tests build them. -/
def solidGridOfCells (cells : List (List Bool)) : SolidGrid := fun c =>
  if 0 ≤ c.x ∧ 0 ≤ c.y then
    (cells.get? c.y.toNat).bind fun row => row.get? c.x.toNat
  else none

/-- A unit-step path from `a` to `b` through `grid` along directions of
`dirs`, of total cost `k`: each step enters a traversable cell and pays
the grid's entry cost. This is the semantic path-cost notion used to state
heuristic admissibility and optimality. -/
inductive IsPathCost (grid : CostGrid Nat) (dirs : List Direction) :
    Coord → Coord → Nat → Prop where
  | nil (a : Coord) : IsPathCost grid dirs a a 0
  | cons (a b : Coord) (d : Direction) (c k : Nat) (hd : d ∈ dirs)
      (hc : grid.cost (a + d.coord) d = some (.cost c))
      (hrest : IsPathCost grid dirs (a + d.coord) b k) :
      IsPathCost grid dirs a b (c + k)

/-- A heuristic is admissible toward `goal` when it never exceeds the cost
of any path to the goal. -/
def Admissible (grid : CostGrid Nat) (dirs : List Direction)
    (h : Coord → Coord → Nat) (goal : Coord) : Prop :=
  ∀ a k, IsPathCost grid dirs a goal k → h a goal ≤ k

/-- A feasible potential: zero at the goal and dropping by at most the
step cost along every traversable edge. -/
def FeasiblePotential (grid : CostGrid Nat) (dirs : List Direction)
    (phi : Coord → Nat) (goal : Coord) : Prop :=
  phi goal = 0 ∧
    ∀ a d c, d ∈ dirs → grid.cost (a + d.coord) d = some (.cost c) →
      phi a ≤ c + phi (a + d.coord)

/-- A feasible potential lower-bounds every path cost to the goal. -/
theorem FeasiblePotential.le_path_cost {grid : CostGrid Nat}
    {dirs : List Direction} {phi : Coord → Nat} {goal : Coord}
    (hphi : FeasiblePotential grid dirs phi goal) :
    ∀ a k, IsPathCost grid dirs a goal k → phi a ≤ k := by
  intro a k hpath
  induction hpath with
  | nil a => exact le_of_eq hphi.1
  | cons a b d c k hd hc hrest ih =>
    have h1 := hphi.2 a d c hd hc
    have h2 : phi (a + d.coord) ≤ k := ih hphi
    omega

/-- Any heuristic pointwise below a feasible potential is admissible. -/
theorem admissible_of_potential {grid : CostGrid Nat}
    {dirs : List Direction} {phi : Coord → Nat} {goal : Coord}
    {h : Coord → Coord → Nat} (hphi : FeasiblePotential grid dirs phi goal)
    (hle : ∀ a, h a goal ≤ phi a) : Admissible grid dirs h goal := by
  intro a k hpath
  exact le_trans (hle a) (hphi.le_path_cost a k hpath)

/-- A successful `cellsGet` lookup bounds the coordinate by the table's
dimensions (all rows of width `w`). -/
theorem cellsGet_bounds {cells : List (List (Option Nat))} {w : Nat}
    (hw : ∀ r ∈ cells, r.length = w) {c : Coord} {v : Option Nat}
    (h : cellsGet cells c = some v) :
    0 ≤ c.x ∧ c.x < (w : Int) ∧ 0 ≤ c.y ∧ c.y < (cells.length : Int) := by
  unfold cellsGet at h
  split at h
  case isFalse => exact absurd h (by simp)
  case isTrue hin =>
    rcases hrow : cells.get? c.y.toNat with _ | row
    · rw [hrow] at h
      exact absurd h (by simp)
    · rw [hrow] at h
      simp only [Option.some_bind] at h
      have hylt : c.y.toNat < cells.length := by
        by_contra hge
        rw [List.get?_eq_none.mpr (by omega)] at hrow
        exact absurd hrow (by simp)
      have hxlt : c.x.toNat < row.length := by
        by_contra hge
        rw [List.get?_eq_none.mpr (by omega)] at h
        exact absurd h (by simp)
      have hrw : row.length = w := hw row (List.get?_mem hrow)
      omega

/-- The concrete 4 × 2 grid of the admissible-heuristic counterexample:
per-cell entry costs, no solid cells. -/
def cells1 : List (List (Option Nat)) :=
  [[some 2, some 0, some 0, some 0], [some 4, some 1, some 1, some 0]]

/-- The counterexample grid oracle. -/
def grid1 : CostGrid Nat := costGridOfCells cells1

/-- Start of the counterexample query. -/
def start1 : Coord := ⟨3, 1⟩

/-- Goal of the counterexample query. -/
def goal1 : Coord := ⟨0, 1⟩

/-- The true shortest-path distances of `grid1` toward `goal1` on the grid
cells, extended by the Manhattan distance off the grid: the feasible
potential certifying that the Manhattan heuristic is admissible on
`grid1`. -/
def phi1 (c : Coord) : Nat :=
  match cellsGet [[some 4, some 5, some 5, some 5],
      [some 0, some 4, some 5, some 5]] c with
  | some (some v) => v
  | _ => manhatten_distance_nat c goal1

/-- A successful cost lookup on `grid1` goes through `cellsGet`. -/
theorem grid1_cost_cellsGet {b : Coord} {d : Direction} {k : Nat}
    (h : grid1.cost b d = some (.cost k)) :
    cellsGet cells1 b = some (some k) := by
  unfold grid1 costGridOfCells at h
  dsimp only at h
  rcases hg : cellsGet cells1 b with _ | o
  · rw [hg] at h
    exact absurd h (by simp)
  · rcases o with _ | v
    · rw [hg] at h
      exact absurd h (by simp)
    · rw [hg] at h
      simp only [Option.some.injEq, CostCell.cost.injEq] at h
      rw [h]

/-- `phi1` is a feasible potential for `grid1` toward `goal1`. -/
theorem phi1_feasible :
    FeasiblePotential grid1 directionsCardinalList phi1 goal1 := by
  constructor
  · decide
  · intro a d c hd hc
    have hcell := grid1_cost_cellsGet hc
    have hb := cellsGet_bounds (w := 4) (by decide) hcell
    have hcv : c = ((cellsGet cells1 (a + d.coord)).getD none).getD 0 := by
      rw [hcell]
      rfl
    subst hcv
    obtain ⟨ax, ay⟩ := a
    fin_cases hd <;>
      simp only [Coord.add_def, Direction.coord, cells1, List.length_cons,
        List.length_nil] at hb ⊢ <;>
      obtain ⟨h1, h2, h3, h4⟩ := hb
    all_goals
      have hax0 : -1 ≤ ax := by omega
      have hax1 : ax ≤ 4 := by omega
      have hay0 : -1 ≤ ay := by omega
      have hay1 : ay ≤ 2 := by omega
      interval_cases ax <;> interval_cases ay <;> first | omega | decide

/-- The Manhattan heuristic is pointwise below `phi1`. -/
theorem manhatten_le_phi1 :
    ∀ a, manhatten_distance_nat a goal1 ≤ phi1 a := by
  intro a
  unfold phi1
  rcases hg : cellsGet [[some 4, some 5, some 5, some 5],
      [some 0, some 4, some 5, some 5]] a with _ | o
  · exact le_refl _
  · rcases o with _ | v
    · exact le_refl _
    · have hb := cellsGet_bounds (w := 4) (by decide) hg
      have hv : v = ((cellsGet [[some 4, some 5, some 5, some 5],
          [some 0, some 4, some 5, some 5]] a).getD none).getD 0 := by
        rw [hg]
        rfl
      subst hv
      simp only [List.length_cons, List.length_nil] at hb
      obtain ⟨ax, ay⟩ := a
      obtain ⟨h1, h2, h3, h4⟩ := hb
      interval_cases ax <;> interval_cases ay <;> first | omega | decide

/-- The Manhattan heuristic used by
`astar_cardinal_manhatten_distance_heuristic` is admissible on `grid1`
toward `goal1`. -/
theorem manhatten_admissible_grid1 :
    Admissible grid1 directionsCardinalList manhatten_distance_nat goal1 :=
  admissible_of_potential phi1_feasible manhatten_le_phi1

/-- A cost-5 path of `grid1` from `start1` to `goal1`
(north, west, west, south, west). -/
theorem grid1_path5 :
    IsPathCost grid1 directionsCardinalList start1 goal1 5 := by
  have p4 : IsPathCost grid1 directionsCardinalList ⟨1, 1⟩ goal1 4 :=
    .cons ⟨1, 1⟩ goal1 .west 4 0 (by decide) (by decide) (.nil goal1)
  have p3 : IsPathCost grid1 directionsCardinalList ⟨1, 0⟩ goal1 5 :=
    .cons ⟨1, 0⟩ goal1 .south 1 4 (by decide) (by decide) p4
  have p2 : IsPathCost grid1 directionsCardinalList ⟨2, 0⟩ goal1 5 :=
    .cons ⟨2, 0⟩ goal1 .west 0 5 (by decide) (by decide) p3
  have p1 : IsPathCost grid1 directionsCardinalList ⟨3, 0⟩ goal1 5 :=
    .cons ⟨3, 0⟩ goal1 .west 0 5 (by decide) (by decide) p2
  exact .cons start1 goal1 .north 0 5 (by decide) (by decide) p1

/-- Five is the optimal path cost of `grid1` from `start1` to `goal1`. -/
theorem grid1_opt5 :
    ∀ k, IsPathCost grid1 directionsCardinalList start1 goal1 k → 5 ≤ k := by
  intro k hpath
  have h := phi1_feasible.le_path_cost start1 k hpath
  have h5 : phi1 start1 = 5 := by decide
  omega

/-- Claim C1: for every grid, start and goal for which both searches
succeed, `dijkstra` and A* with an admissible heuristic
(`astar_cardinal_manhatten_distance_heuristic` over cardinal directions)
report the same optimal path cost, and the A* query visits at most as many
nodes as the Dijkstra query. The concrete 4 × 2 grid `grid1` refutes this
claim on the code: the Manhattan heuristic is admissible toward `goal1`
(certified below by a feasible potential), both queries succeed, Dijkstra
reports the true optimal cost 5, yet A* reports cost 6 and visits 10 > 8
nodes. The cause is in the relax loop: a node already `visited` this
generation is never re-expanded, so with an admissible but inconsistent
heuristic an improved cost found after settling never propagates. -/
theorem claim_C1_code_bug :
    Admissible grid1 directionsCardinalList manhatten_distance_nat goal1 ∧
    ((SearchContext.new Nat 4 2).dijkstra grid1 start1 goal1
        directionsCardinalList ⟨true⟩ 100).1 =
      some (.ok (⟨8, 5, 5⟩, [.north, .west, .west, .south, .west])) ∧
    ((SearchContext.new Nat 4 2).astar_cardinal_manhatten_distance_heuristic
        grid1 start1 goal1 ⟨true⟩ 100).1 =
      some (.ok (⟨10, 6, 3⟩, [.west, .west, .west])) ∧
    IsPathCost grid1 directionsCardinalList start1 goal1 5 ∧
    (∀ k, IsPathCost grid1 directionsCardinalList start1 goal1 k → 5 ≤ k) ∧
    (6 : Nat) ≠ 5 ∧ ¬ ((10 : Nat) ≤ 8) :=
  ⟨manhatten_admissible_grid1, by decide, by decide, grid1_path5,
    grid1_opt5, by decide, by decide⟩

/-- The uniform unit-cost oracle over a solidity grid: every traversable
cell costs one to enter from any direction (the `TestGrid` of the crate's
tests with every open cell at cost 1), the shape of grid on which the
specification pairs jump point search with Dijkstra. -/
def uniformCostGrid (s : SolidGrid) : CostGrid Nat where
  is_solid := s
  cost c _d :=
    match s c with
    | some false => some (.cost 1)
    | _ => none

/-- The 3 × 3 uniform grid refuting claim C2: solid cells at `(0,0)` and
`(1,1)`. -/
def cells2 : List (List Bool) :=
  [[true, false, false], [false, true, false], [false, false, false]]

/-- The solidity oracle of `cells2`. -/
def grid2 : SolidGrid := solidGridOfCells cells2

/-- Claim C2: on a uniform-cost grid, cardinal jump point search succeeds
exactly when Dijkstra over the same (cardinal) direction set succeeds,
with the same cost and path length and fewer popped entries. Refuted on
the code: on `grid2` from `(1,0)` to `(0,1)`, Dijkstra finds a cost-6
path while `jump_point_search_cardinal_manhatten_distance_heuristic`
reports `NoPath`. The cause is the early return of
`has_forced_neighbour`: moving east through `(2,0)`, the `left135` cell
lies outside the grid so the function answers from the left side alone
and never sees the forced neighbour on the right (solid `right135` cell
`(1,1)` with open `right90` cell `(2,1)`), so no jump point is ever
generated and the open set stays empty. -/
theorem claim_C2_code_bug :
    ((SearchContext.new Nat 3 3).dijkstra (uniformCostGrid grid2) ⟨1, 0⟩
        ⟨0, 1⟩ directionsCardinalList ⟨true⟩ 100).1 =
      some (.ok (⟨7, 6, 6⟩,
        [.east, .south, .south, .west, .west, .north])) ∧
    ((SearchContext.new Nat 3 3).jump_point_search_cardinal_manhatten_distance_heuristic
        grid2 ⟨1, 0⟩ ⟨0, 1⟩ ⟨true⟩ 100).1 =
      some (.error .noPath) ∧
    has_forced_neighbour grid2 ⟨2, 0⟩ .east = false ∧
    isSolidOrOutside grid2 (⟨2, 0⟩ + CardinalDirection.east.right135.coord)
      = true ∧
    isSolidOrOutside grid2 (⟨2, 0⟩ + CardinalDirection.east.right90.coord)
      = false := by
  refine ⟨by decide, by decide, by decide, by decide, by decide⟩

/-- The open 2 × 1 grid of the multi-source distance-map bug. -/
def gridA : SolidGrid := solidGridOfCells [[false, false]]

/-- Claim C8: `populate_distance_map_multi` makes every origin report as
`Origin` with cost 0, reached cells report their distance from the
nearest origin, and `Origin`, `Unvisited` and `Outside` are distinct.
Refuted on the code for more than one origin: flooding the open 2 × 1
grid from origins `(0,0)` and `(1,0)`, the first origin reports as an
ordinary `Cell` of cost 1 pointing east instead of `Origin` with cost 0.
The enqueue loop advances the map's generation once per origin and keeps
a single `origin` marker, so earlier origins are left stale-stamped and
are later re-flooded from their neighbours. -/
theorem claim_C8_code_bug :
    (populate_distance_map_multi gridA [⟨0, 0⟩, ⟨1, 0⟩]
        directionsCardinalList ⟨true⟩ (DistanceMap.mk0 Nat 2 1) 100).map
      (Except.map (fun r => (r.1, r.2.get ⟨0, 0⟩, r.2.get ⟨1, 0⟩))) =
      some (.ok (⟨3⟩, .cell 1 .east, .origin)) ∧
    (DistanceMapEntry.cell 1 .east ≠ (.origin : DistanceMapEntry Nat)) ∧
    (DistanceMapEntry.cell 1 .east ≠ (.unvisited : DistanceMapEntry Nat)) := by
  refine ⟨by decide, by decide, by decide⟩

/-- The open 2 × 2 grid used for the out-of-grid goal counterexample. -/
def gridB : SolidGrid := solidGridOfCells [[false, false], [false, false]]

/-- Claim C6 as stated says a query whose goal lies outside the grid
returns the `GoalOutsideGrid` error as an ordinary result value and never
panics. Two counterexamples on the code, both with an in-bounds start and
the out-of-grid goal `(5,5)`: the cardinal jump point search returns
`VisitOutsideContext`, not `GoalOutsideGrid`; and the older
`search.rs::search_general` returns no `Result` at all — it panics in
`coord_to_index(goal).expect("SearchContext too small for grid")`
(`search.rs:170-172`, the `none` of the embedding). -/
theorem claim_C6_counterexample :
    (((SearchContext.new Nat 2 2).jump_point_search_cardinal_manhatten_distance_heuristic
        gridB ⟨0, 0⟩ ⟨5, 5⟩ ⟨true⟩ 100).1 =
      some (.error .visitOutsideContext) ∧
    Error.visitOutsideContext ≠ Error.goalOutsideGrid) ∧
    ((SearchContext.new Nat 2 2).old_search_general
        (costGridOfCells [[some 1, some 1], [some 1, some 1]])
        ⟨0, 0⟩ ⟨5, 5⟩ directionsCardinalList (fun _ _ => 0) 100).1 =
      none := by
  refine ⟨⟨by decide, by decide⟩, by decide⟩

/-- Claim C3: in the relax step, a candidate successor with tentative cost
`t` is updated exactly when its seen stamp differs from the current
generation or `t` is strictly below its recorded cost; when updated, its
`from_parent` becomes the entering direction, its seen stamp the current
generation and its cost `t`, and one entry with priority
`t + heuristic(successor, goal)` is pushed; otherwise node and open set
are unchanged. This is `update_node_and_priority_queue`, the relax step
shared by `search_general` and the jump point expansions (the in-tree
`dijkstra_predicate` inlines the same update with the zero heuristic, so
its pushed priority is the tentative cost itself). -/
theorem claim_C3_relax_update {C : Type} [LinearOrder C] [Add C]
    [Inhabited C] (index : Nat) (t : C) (neighbour_coord : Coord)
    (direction : Direction) (seq : Nat)
    (heuristic_fn : Coord → Coord → C) (goal : Coord)
    (node : SearchNode C) (pq : List (PriorityEntry C)) :
    (node.seen ≠ seq ∨ t < node.cost →
      update_node_and_priority_queue index t neighbour_coord direction seq
          heuristic_fn goal node pq =
        ({ node with from_parent := some direction, seen := seq, cost := t },
          heapPush pq ⟨index, t + heuristic_fn neighbour_coord goal⟩)) ∧
    (¬(node.seen ≠ seq ∨ t < node.cost) →
      update_node_and_priority_queue index t neighbour_coord direction seq
          heuristic_fn goal node pq = (node, pq)) := by
  constructor
  · intro h
    unfold update_node_and_priority_queue
    rw [if_pos h]
  · intro h
    unfold update_node_and_priority_queue
    rw [if_neg h]

/-- Witness for claim C3 at a concrete updated node (unseen this
generation) and a concrete untouched node (seen with a better recorded
cost). -/
theorem claim_C3_relax_update_witness :
    (update_node_and_priority_queue 0 (5 : Nat) ⟨1, 0⟩ .east 1
        (fun _ _ => 0) ⟨0, 0⟩ ⟨0, 0, ⟨1, 0⟩, none, 0⟩ [] =
      (⟨1, 0, ⟨1, 0⟩, some .east, 5⟩, heapPush [] ⟨0, 5 + 0⟩)) ∧
    (update_node_and_priority_queue 0 (5 : Nat) ⟨1, 0⟩ .east 1
        (fun _ _ => 0) ⟨0, 0⟩ ⟨1, 0, ⟨1, 0⟩, some .west, 3⟩ [] =
      (⟨1, 0, ⟨1, 0⟩, some .west, 3⟩, [])) :=
  ⟨(claim_C3_relax_update 0 5 ⟨1, 0⟩ .east 1 (fun _ _ => 0) ⟨0, 0⟩
      ⟨0, 0, ⟨1, 0⟩, none, 0⟩ []).1 (by decide),
   (claim_C3_relax_update 0 5 ⟨1, 0⟩ .east 1 (fun _ _ => 0) ⟨0, 0⟩
      ⟨1, 0, ⟨1, 0⟩, some .west, 3⟩ []).2 (by decide)⟩

/-- `relaxOne` only ever fails with `VisitOutsideContext`. -/
theorem relaxOne_error_eq {C : Type} [LinearOrder C] [Add C] [Inhabited C]
    {grid : CostGrid C} {goal : Coord} {hf : Coord → Coord → C}
    {w h seq : Nat} {cc : Coord} {cost : C}
    {st : (Nat → SearchNode C) × List (PriorityEntry C)} {d : Direction}
    {e : Error}
    (he : relaxOne grid goal hf w h seq cc cost st d = .error e) :
    e = .visitOutsideContext := by
  unfold relaxOne at he
  dsimp only at he
  split at he
  · split at he
    · injection he with h1
      exact h1.symm
    · simp at he
  · simp at he

/-- `relaxAll` only ever fails with `VisitOutsideContext`. -/
theorem relaxAll_error_eq {C : Type} [LinearOrder C] [Add C] [Inhabited C]
    {grid : CostGrid C} {goal : Coord} {hf : Coord → Coord → C}
    {w h seq : Nat} {cc : Coord} {cost : C} :
    ∀ {ds : List Direction}
      {st : (Nat → SearchNode C) × List (PriorityEntry C)} {e : Error},
      relaxAll grid goal hf w h seq cc cost ds st = .error e →
      e = .visitOutsideContext := by
  intro ds
  induction ds with
  | nil =>
    intro st e he
    simp [relaxAll] at he
  | cons d ds ih =>
    intro st e he
    unfold relaxAll at he
    split at he
    · rename_i e2 hr
      injection he with h1
      subst h1
      exact relaxOne_error_eq hr
    · exact ih he

/-- The pop/settle/relax loop never reports a start-validation error. -/
theorem searchLoop_no_start_error {C : Type} [LinearOrder C] [Add C]
    [Inhabited C] (grid : CostGrid C) (predicate : Coord → Bool)
    (dirs : List Direction) (hf : Coord → Coord → C) (goal : Coord) :
    ∀ (fuel : Nat) (ctx : SearchContext C) (num : Nat),
      (searchLoop grid predicate dirs hf goal fuel ctx num).1 ≠
        some (.error .startSolid) ∧
      (searchLoop grid predicate dirs hf goal fuel ctx num).1 ≠
        some (.error .startOutsideGrid) := by
  intro fuel
  induction fuel with
  | zero =>
    intro ctx num
    exact ⟨by simp [searchLoop], by simp [searchLoop]⟩
  | succ n ih =>
    intro ctx num
    unfold searchLoop
    split
    · exact ⟨by intro hcontra; simp at hcontra, by intro hcontra; simp at hcontra⟩
    · dsimp only
      split
      · exact ih _ _
      · split
        · split
          · exact ⟨by intro hcontra; simp at hcontra, by intro hcontra; simp at hcontra⟩
          · exact ⟨by intro hcontra; simp at hcontra, by intro hcontra; simp at hcontra⟩
        · split
          · rename_i e hr
            have he := relaxAll_error_eq hr
            subst he
            exact ⟨by intro hcontra; simp at hcontra, by intro hcontra; simp at hcontra⟩
          · exact ih _ _

/-- A finished neighbour scan of the BFS never reports a start-validation
error. -/
theorem bfsScan_no_start_error (grid : SolidGrid)
    (predicate : Coord → Bool) (cc : Coord) (num2 nd : Nat) :
    ∀ (ds : List Direction) (ctx : BfsContext) (trace : List Nat)
      (r : Option (SearchResult Nat)) (ctx2 : BfsContext)
      (trace2 : List Nat),
      bfsScan grid predicate cc num2 nd ds ctx trace =
        .finished r ctx2 trace2 →
      r ≠ some (.error .startSolid) ∧ r ≠ some (.error .startOutsideGrid) := by
  intro ds
  induction ds with
  | nil =>
    intro ctx trace r ctx2 trace2 hr
    simp [bfsScan] at hr
  | cons d ds ih =>
    intro ctx trace r ctx2 trace2 hr
    unfold bfsScan at hr
    dsimp only at hr
    split at hr
    · split at hr
      · injection hr with h1 h2 h3
        subst h1
        exact ⟨by intro hcontra; simp at hcontra, by intro hcontra; simp at hcontra⟩
      · split at hr
        · split at hr
          · injection hr with h1 h2 h3
            subst h1
            exact ⟨by intro hcontra; simp at hcontra, by intro hcontra; simp at hcontra⟩
          · injection hr with h1 h2 h3
            subst h1
            exact ⟨by intro hcontra; simp at hcontra, by intro hcontra; simp at hcontra⟩
        · exact ih _ _ _ _ _ hr
    · exact ih _ _ _ _ _ hr

/-- The BFS pop/scan loop never reports a start-validation error. -/
theorem bfsLoop_no_start_error (grid : SolidGrid)
    (predicate : Coord → Bool) (dirs : List Direction) :
    ∀ (fuel : Nat) (ctx : BfsContext) (num : Nat) (trace : List Nat),
      (bfsLoop grid predicate dirs fuel ctx num trace).1 ≠
        some (.error .startSolid) ∧
      (bfsLoop grid predicate dirs fuel ctx num trace).1 ≠
        some (.error .startOutsideGrid) := by
  intro fuel
  induction fuel with
  | zero =>
    intro ctx num trace
    exact ⟨by simp [bfsLoop], by simp [bfsLoop]⟩
  | succ n ih =>
    intro ctx num trace
    unfold bfsLoop
    split
    · exact ⟨by intro hcontra; simp at hcontra, by intro hcontra; simp at hcontra⟩
    · dsimp only
      split
      · rename_i r ctx3 trace2 hscan
        exact bfsScan_no_start_error grid predicate _ _ _ _ _ _ _ _ _ hscan
      · exact ih _ _ _

/-- Claim C4: for every search (`search_general`, hence `dijkstra` and the
A* entry points) and BFS query: a start the grid reports outside yields
`StartOutsideGrid`; a solid start with a configuration forbidding it
yields `StartSolid`; under the default configuration
(`allow_solid_start = true`) a solid start never produces `StartSolid`;
and a start already satisfying the goal predicate succeeds immediately
with an empty path and all-zero metadata. -/
theorem claim_C4_init {C : Type} [LinearOrder C] [Add C] [Zero C]
    [Inhabited C] (ctx : SearchContext C) (grid : CostGrid C)
    (start goal : Coord) (dirs : List Direction)
    (hf : Coord → Coord → C) (config : SearchConfig) (fuel : Nat)
    (bctx : BfsContext) (sgrid : SolidGrid) (predicate : Coord → Bool) :
    (grid.is_solid start = none →
      (ctx.search_general grid start goal dirs hf config fuel).1 =
        some (.error .startOutsideGrid)) ∧
    (grid.is_solid start = some true → config.allow_solid_start = false →
      (ctx.search_general grid start goal dirs hf config fuel).1 =
        some (.error .startSolid)) ∧
    (∀ s, grid.is_solid start = some s →
      (ctx.search_general grid start goal dirs hf ⟨true⟩ fuel).1 ≠
        some (.error .startSolid)) ∧
    (∀ s i, grid.is_solid start = some s →
      (s = true → config.allow_solid_start = true) →
      indexOfCoord ctx.width ctx.height start = some i → start = goal →
      (ctx.search_general grid start goal dirs hf config fuel).1 =
        some (.ok (⟨0, 0, 0⟩, []))) ∧
    (sgrid start = none →
      (bctx.bfs_predicate sgrid start predicate dirs config fuel).1 =
        some (.error .startOutsideGrid)) ∧
    (sgrid start = some true → config.allow_solid_start = false →
      (bctx.bfs_predicate sgrid start predicate dirs config fuel).1 =
        some (.error .startSolid)) ∧
    (∀ s, sgrid start = some s →
      (bctx.bfs_predicate sgrid start predicate dirs ⟨true⟩ fuel).1 ≠
        some (.error .startSolid)) ∧
    (∀ s i, sgrid start = some s →
      (s = true → config.allow_solid_start = true) →
      indexOfCoord bctx.width bctx.height start = some i →
      predicate start = true →
      (bctx.bfs_predicate sgrid start predicate dirs config fuel).1 =
        some (.ok (⟨0, 0, 0⟩, []))) := by
  refine ⟨?_, ?_, ?_, ?_, ?_, ?_, ?_, ?_⟩
  · intro h
    simp [SearchContext.search_general, SearchContext.init, h]
  · intro h hcfg
    simp [SearchContext.search_general, SearchContext.init, h, hcfg]
  · intro s h
    unfold SearchContext.search_general SearchContext.init
    rw [h]
    dsimp only
    rw [if_neg (by simp)]
    rcases hidx : indexOfCoord ctx.width ctx.height start with _ | i
    · intro hcontra
      simp at hcontra
    · dsimp only
      by_cases hg : start = goal
      · rw [if_pos (by simp [hg])]
        intro hcontra
        simp at hcontra
      · rw [if_neg (by simp [hg])]
        exact (searchLoop_no_start_error _ _ _ _ _ _ _ _).1
  · intro s i h hallow hidx hgoal
    unfold SearchContext.search_general SearchContext.init
    rw [h]
    dsimp only
    rw [if_neg (by rcases s with _ | _ <;> simp_all), hidx]
    dsimp only
    rw [if_pos (by simp [hgoal])]
  · intro h
    simp [BfsContext.bfs_predicate, h]
  · intro h hcfg
    simp [BfsContext.bfs_predicate, h, hcfg]
  · intro s h
    unfold BfsContext.bfs_predicate
    rw [h]
    dsimp only
    rw [if_neg (by simp)]
    rcases hidx : indexOfCoord bctx.width bctx.height start with _ | i
    · intro hcontra
      simp at hcontra
    · dsimp only
      by_cases hp : predicate start = true
      · rw [if_pos hp]
        intro hcontra
        simp at hcontra
      · rw [if_neg hp]
        exact (bfsLoop_no_start_error _ _ _ _ _ _ _).1
  · intro s i h hallow hidx hpred
    unfold BfsContext.bfs_predicate
    rw [h]
    dsimp only
    rw [if_neg (by rcases s with _ | _ <;> simp_all), hidx]
    dsimp only
    rw [if_pos hpred]

/-- Witness for claim C4: the four search conjuncts and four BFS
conjuncts discharged on concrete 1 × 1 / 2 × 1 grids. -/
theorem claim_C4_init_witness :
    (((SearchContext.new Nat 1 1).search_general
        (costGridOfCells [[some 1]]) ⟨4, 4⟩ ⟨0, 0⟩ directionsCardinalList
        (fun _ _ => 0) ⟨true⟩ 9).1 = some (.error .startOutsideGrid)) ∧
    (((SearchContext.new Nat 1 1).search_general
        (costGridOfCells [[none]]) ⟨0, 0⟩ ⟨0, 0⟩ directionsCardinalList
        (fun _ _ => 0) ⟨false⟩ 9).1 = some (.error .startSolid)) ∧
    (((SearchContext.new Nat 1 1).search_general
        (costGridOfCells [[none]]) ⟨0, 0⟩ ⟨0, 0⟩ directionsCardinalList
        (fun _ _ => 0) ⟨true⟩ 9).1 ≠ some (.error .startSolid)) ∧
    (((SearchContext.new Nat 1 1).search_general
        (costGridOfCells [[some 1]]) ⟨0, 0⟩ ⟨0, 0⟩ directionsCardinalList
        (fun _ _ => 0) ⟨true⟩ 9).1 = some (.ok (⟨0, 0, 0⟩, []))) ∧
    (((BfsContext.new 1 1).bfs_predicate (solidGridOfCells [[false]])
        ⟨4, 4⟩ (fun c => c = ⟨0, 0⟩) directionsCardinalList ⟨true⟩ 9).1 =
      some (.error .startOutsideGrid)) ∧
    (((BfsContext.new 1 1).bfs_predicate (solidGridOfCells [[true]])
        ⟨0, 0⟩ (fun c => c = ⟨0, 0⟩) directionsCardinalList ⟨false⟩ 9).1 =
      some (.error .startSolid)) ∧
    (((BfsContext.new 1 1).bfs_predicate (solidGridOfCells [[true]])
        ⟨0, 0⟩ (fun c => c = ⟨0, 0⟩) directionsCardinalList ⟨true⟩ 9).1 ≠
      some (.error .startSolid)) ∧
    (((BfsContext.new 1 1).bfs_predicate (solidGridOfCells [[false]])
        ⟨0, 0⟩ (fun c => c = ⟨0, 0⟩) directionsCardinalList ⟨true⟩ 9).1 =
      some (.ok (⟨0, 0, 0⟩, []))) := by
  obtain ⟨h1, h2, h3, h4, h5, h6, h7, h8⟩ := claim_C4_init
    (SearchContext.new Nat 1 1) (costGridOfCells [[some 1]]) ⟨4, 4⟩ ⟨0, 0⟩
    directionsCardinalList (fun _ _ => 0) ⟨true⟩ 9 (BfsContext.new 1 1)
    (solidGridOfCells [[false]]) (fun c => c = ⟨0, 0⟩)
  refine ⟨h1 (by decide), ?_, ?_, ?_, ?_, ?_, ?_, ?_⟩
  · exact (claim_C4_init (SearchContext.new Nat 1 1)
      (costGridOfCells [[none]]) ⟨0, 0⟩ ⟨0, 0⟩ directionsCardinalList
      (fun _ _ => 0) ⟨false⟩ 9 (BfsContext.new 1 1)
      (solidGridOfCells [[false]]) (fun c => c = ⟨0, 0⟩)).2.1 (by decide)
      (by decide)
  · exact (claim_C4_init (SearchContext.new Nat 1 1)
      (costGridOfCells [[none]]) ⟨0, 0⟩ ⟨0, 0⟩ directionsCardinalList
      (fun _ _ => 0) ⟨true⟩ 9 (BfsContext.new 1 1)
      (solidGridOfCells [[false]]) (fun c => c = ⟨0, 0⟩)).2.2.1 true
      (by decide)
  · exact (claim_C4_init (SearchContext.new Nat 1 1)
      (costGridOfCells [[some 1]]) ⟨0, 0⟩ ⟨0, 0⟩ directionsCardinalList
      (fun _ _ => 0) ⟨true⟩ 9 (BfsContext.new 1 1)
      (solidGridOfCells [[false]]) (fun c => c = ⟨0, 0⟩)).2.2.2.1 false 0
      (by decide) (by decide) (by decide) (by decide)
  · exact (claim_C4_init (SearchContext.new Nat 1 1)
      (costGridOfCells [[some 1]]) ⟨4, 4⟩ ⟨0, 0⟩ directionsCardinalList
      (fun _ _ => 0) ⟨true⟩ 9 (BfsContext.new 1 1)
      (solidGridOfCells [[false]]) (fun c => c = ⟨0, 0⟩)).2.2.2.2.1
      (by decide)
  · exact (claim_C4_init (SearchContext.new Nat 1 1)
      (costGridOfCells [[some 1]]) ⟨0, 0⟩ ⟨0, 0⟩ directionsCardinalList
      (fun _ _ => 0) ⟨false⟩ 9 (BfsContext.new 1 1)
      (solidGridOfCells [[true]]) (fun c => c = ⟨0, 0⟩)).2.2.2.2.2.1
      (by decide) (by decide)
  · exact (claim_C4_init (SearchContext.new Nat 1 1)
      (costGridOfCells [[some 1]]) ⟨0, 0⟩ ⟨0, 0⟩ directionsCardinalList
      (fun _ _ => 0) ⟨true⟩ 9 (BfsContext.new 1 1)
      (solidGridOfCells [[true]]) (fun c => c = ⟨0, 0⟩)).2.2.2.2.2.2.1 true
      (by decide)
  · exact (claim_C4_init (SearchContext.new Nat 1 1)
      (costGridOfCells [[some 1]]) ⟨0, 0⟩ ⟨0, 0⟩ directionsCardinalList
      (fun _ _ => 0) ⟨true⟩ 9 (BfsContext.new 1 1)
      (solidGridOfCells [[false]]) (fun c => c = ⟨0, 0⟩)).2.2.2.2.2.2.2
      false 0 (by decide) (by decide) (by decide) (by decide)

/-- Claim C6 amended: for a query whose goal lies outside the grid (with
a valid, permitted start), the engines that return a `Result` surface the
failure as an ordinary returned error value — the older
`weighted_search.rs::search_general` returns `GoalOutsideGrid`, and the
current-generation cardinal jump point search, which looks the goal up
with `index_of_coord(goal).ok_or(Error::VisitOutsideContext)`, returns
`VisitOutsideContext` — but the claim-cited older
`search.rs::search_general` (shared by its heuristic wrappers and the
octile jump point search) returns no error at all: it panics in
`coord_to_index(goal).expect("SearchContext too small for grid")`, the
`none` of the embedding. -/
theorem claim_C6_amended :
    (∀ (ctx : WeightedSearchContext) (grid : WeightedCostGrid)
      (start goal : Coord) (dirs : List Direction)
      (hf : Coord → Coord → Nat) (fuel : Nat) (i : Nat),
      indexOfCoord ctx.width ctx.height start = some i →
      grid.is_solid start = false →
      indexOfCoord ctx.width ctx.height goal = none →
      (ctx.search_general grid start goal dirs hf fuel).1 =
        some (.error .goalOutsideGrid)) ∧
    (∀ (ctx : SearchContext Nat) (grid : SolidGrid) (start goal : Coord)
      (config : SearchConfig) (fuel : Nat) (i : Nat) (s : Bool),
      grid start = some s → (s = true → config.allow_solid_start = true) →
      indexOfCoord ctx.width ctx.height start = some i →
      indexOfCoord ctx.width ctx.height goal = none →
      (ctx.jump_point_search_cardinal_manhatten_distance_heuristic grid
          start goal config fuel).1 = some (.error .visitOutsideContext)) ∧
    (∀ (ctx : SearchContext Nat) (grid : CostGrid Nat) (start goal : Coord)
      (dirs : List Direction) (hf : Coord → Coord → Nat) (fuel : Nat)
      (i : Nat),
      grid.is_solid start = some false →
      indexOfCoord ctx.width ctx.height start = some i →
      indexOfCoord ctx.width ctx.height goal = none →
      (ctx.old_search_general grid start goal dirs hf fuel).1 = none) := by
  refine ⟨?_, ?_, ?_⟩
  · intro ctx grid start goal dirs hf fuel i hidx hsolid hgoal
    have hne : start ≠ goal := by
      intro he
      rw [he, hgoal] at hidx
      exact absurd hidx (by simp)
    unfold WeightedSearchContext.search_general
    rw [hidx]
    dsimp only
    rw [if_neg (by simp [hsolid]), if_neg (by simp [hne]), hgoal]
  · intro ctx grid start goal config fuel i s hsolid hallow hidx hgoal
    have hne : start ≠ goal := by
      intro he
      rw [he, hgoal] at hidx
      exact absurd hidx (by simp)
    unfold SearchContext.jump_point_search_cardinal_manhatten_distance_heuristic
      SearchContext.init
    rw [hsolid]
    dsimp only
    rw [if_neg (by rcases s with _ | _ <;> simp_all), hidx]
    dsimp only
    rw [if_neg (by simp [hne])]
    dsimp only
    rw [hgoal]
  · intro ctx grid start goal dirs hf fuel i hsolid hidx hgoal
    have hne : start ≠ goal := by
      intro he
      rw [he, hgoal] at hidx
      exact absurd hidx (by simp)
    unfold SearchContext.old_search_general SearchContext.old_init
    rw [hsolid, hidx]
    dsimp only
    rw [if_neg (by simp), if_neg hne]
    dsimp only
    rw [hgoal]

/-- Witness for the amended claim C6: a 2 × 2 weighted search, a 2 × 2
cardinal jump point search and a 2 × 2 old-generation search, each with
the out-of-grid goal `(5,5)`. -/
theorem claim_C6_amended_witness :
    (((WeightedSearchContext.new 2 2).search_general
        ⟨fun _ => false, fun _ _ => some 1⟩ ⟨0, 0⟩ ⟨5, 5⟩
        directionsCardinalList (fun _ _ => 0) 9).1 =
      some (.error .goalOutsideGrid)) ∧
    (((SearchContext.new Nat 2 2).jump_point_search_cardinal_manhatten_distance_heuristic
        gridB ⟨0, 0⟩ ⟨5, 5⟩ ⟨true⟩ 9).1 =
      some (.error .visitOutsideContext)) ∧
    (((SearchContext.new Nat 2 2).old_search_general
        (costGridOfCells [[some 1, some 1], [some 1, some 1]])
        ⟨0, 0⟩ ⟨5, 5⟩ directionsCardinalList (fun _ _ => 0) 9).1 =
      none) :=
  ⟨claim_C6_amended.1 (WeightedSearchContext.new 2 2)
      ⟨fun _ => false, fun _ _ => some 1⟩ ⟨0, 0⟩ ⟨5, 5⟩
      directionsCardinalList (fun _ _ => 0) 9 0 (by decide) (by decide)
      (by decide),
   claim_C6_amended.2.1 (SearchContext.new Nat 2 2) gridB ⟨0, 0⟩ ⟨5, 5⟩
      ⟨true⟩ 9 0 false (by decide) (by decide) (by decide) (by decide),
   claim_C6_amended.2.2 (SearchContext.new Nat 2 2)
      (costGridOfCells [[some 1, some 1], [some 1, some 1]]) ⟨0, 0⟩
      ⟨5, 5⟩ directionsCardinalList (fun _ _ => 0) 9 0 (by decide)
      (by decide) (by decide)⟩

/-- An in-bounds lookup yields an index below `width * height`. -/
theorem indexOfCoord_lt {w h : Nat} {c : Coord} {i : Nat}
    (hi : indexOfCoord w h c = some i) : i < w * h := by
  unfold indexOfCoord at hi
  split at hi
  · rename_i hc
    obtain ⟨h1, h2, h3, h4⟩ := hc
    injection hi with hi
    subst hi
    have hx : c.x.toNat < w := by omega
    have hy : c.y.toNat < h := by omega
    calc c.y.toNat * w + c.x.toNat < c.y.toNat * w + w :=
          Nat.add_lt_add_left hx _
      _ = (c.y.toNat + 1) * w := by ring
      _ ≤ h * w := Nat.mul_le_mul_right w hy
      _ = w * h := Nat.mul_comm h w
  · exact absurd hi (by simp)

/-- Push-trace invariant of a running BFS query: the trace of pushed
indices has no duplicates, every traced index is in bounds and stamped
with the current generation, and every stamped in-bounds index has been
traced. -/
def BfsInv (ctx : BfsContext) (trace : List Nat) : Prop :=
  trace.Nodup ∧
  (∀ i ∈ trace, i < ctx.width * ctx.height ∧
    (ctx.node_grid i).seen = ctx.seq) ∧
  (∀ i, i < ctx.width * ctx.height → (ctx.node_grid i).seen = ctx.seq →
    i ∈ trace)

/-- The neighbour scan of `bfs_predicate` preserves the push-trace
invariant and the context's dimensions and generation. -/
theorem bfsScan_inv (grid : SolidGrid) (predicate : Coord → Bool)
    (cc : Coord) (num2 nd : Nat) :
    ∀ (ds : List Direction) (ctx : BfsContext) (trace : List Nat),
      BfsInv ctx trace →
      (∀ r ctx2 trace2,
        bfsScan grid predicate cc num2 nd ds ctx trace =
          .finished r ctx2 trace2 →
        BfsInv ctx2 trace2) ∧
      (∀ ctx2 trace2,
        bfsScan grid predicate cc num2 nd ds ctx trace =
          .next ctx2 trace2 →
        BfsInv ctx2 trace2) := by
  intro ds
  induction ds with
  | nil =>
    intro ctx trace hinv
    constructor
    · intro r ctx2 trace2 hr
      simp [bfsScan] at hr
    · intro ctx2 trace2 hr
      simp only [bfsScan, BfsScan.next.injEq] at hr
      rw [← hr.1, ← hr.2]
      exact hinv
  | cons d ds ih =>
    intro ctx trace hinv
    have hstep : ∀ st : BfsContext × List Nat,
        (st = (ctx, trace) ∨
          (∃ index, indexOfCoord ctx.width ctx.height (cc + d.coord) =
              some index ∧
            (ctx.node_grid index).seen ≠ ctx.seq ∧
            st = ({ ctx with
                node_grid := setBfsNode ctx.node_grid index
                  { ctx.node_grid index with
                    seen := ctx.seq
                    from_parent := some d }
                queue := ctx.queue ++ [⟨index, nd⟩] },
              trace ++ [index]))) →
        BfsInv st.1 st.2 := by
      intro st hst
      rcases hst with hst | ⟨index, hidx, hseen, hst⟩
      · rw [hst]
        exact hinv
      · rw [hst]
        obtain ⟨hnodup, hmem, hstamp⟩ := hinv
        have hnotmem : index ∉ trace := by
          intro hmem2
          exact hseen (hmem index hmem2).2
        refine ⟨?_, ?_, ?_⟩
        · simpa [List.nodup_append] using ⟨hnodup, fun he => hnotmem he⟩
        · intro i hi
          rcases List.mem_append.mp hi with hi | hi
          · obtain ⟨hlt, hs⟩ := hmem i hi
            refine ⟨hlt, ?_⟩
            dsimp only [setBfsNode]
            rw [if_neg (by intro he; rw [he] at hi; exact hnotmem hi)]
            exact hs
          · have : i = index := by simpa using hi
            subst this
            refine ⟨indexOfCoord_lt hidx, ?_⟩
            dsimp only [setBfsNode]
            rw [if_pos rfl]
        · intro i hlt hs
          dsimp only [setBfsNode] at hs
          by_cases he : i = index
          · subst he
            simp
          · rw [if_neg he] at hs
            exact List.mem_append.mpr (Or.inl (hstamp i hlt hs))
    constructor
    · intro r ctx2 trace2 hr
      unfold bfsScan at hr
      dsimp only at hr
      split at hr
      · rename_i hopen
        rcases hidx : indexOfCoord ctx.width ctx.height (cc + d.coord)
            with _ | index
        · rw [hidx] at hr
          injection hr with h1 h2 h3
          rw [← h2, ← h3]
          exact hinv
        · rw [hidx] at hr
          dsimp only at hr
          by_cases hseen : (ctx.node_grid index).seen ≠ ctx.seq
          · rw [if_pos hseen] at hr
            have hinv2 := hstep _ (Or.inr ⟨index, hidx, hseen, rfl⟩)
            split at hr
            · split at hr
              · injection hr with h1 h2 h3
                rw [← h2, ← h3]
                exact hinv2
              · injection hr with h1 h2 h3
                rw [← h2, ← h3]
                exact hinv2
            · exact (ih _ _ hinv2).1 _ _ _ hr
          · rw [if_neg hseen] at hr
            have hinv2 := hstep (ctx, trace) (Or.inl rfl)
            split at hr
            · split at hr
              · injection hr with h1 h2 h3
                rw [← h2, ← h3]
                exact hinv2
              · injection hr with h1 h2 h3
                rw [← h2, ← h3]
                exact hinv2
            · exact (ih _ _ hinv2).1 _ _ _ hr
      · exact (ih _ _ hinv).1 _ _ _ hr
    · intro ctx2 trace2 hr
      unfold bfsScan at hr
      dsimp only at hr
      split at hr
      · rename_i hopen
        rcases hidx : indexOfCoord ctx.width ctx.height (cc + d.coord)
            with _ | index
        · rw [hidx] at hr
          exact absurd hr (by simp)
        · rw [hidx] at hr
          dsimp only at hr
          by_cases hseen : (ctx.node_grid index).seen ≠ ctx.seq
          · rw [if_pos hseen] at hr
            have hinv2 := hstep _ (Or.inr ⟨index, hidx, hseen, rfl⟩)
            split at hr
            · split at hr
              · exact absurd hr (by simp)
              · exact absurd hr (by simp)
            · exact (ih _ _ hinv2).2 _ _ hr
          · rw [if_neg hseen] at hr
            have hinv2 := hstep (ctx, trace) (Or.inl rfl)
            split at hr
            · split at hr
              · exact absurd hr (by simp)
              · exact absurd hr (by simp)
            · exact (ih _ _ hinv2).2 _ _ hr
      · exact (ih _ _ hinv).2 _ _ hr

/-- The BFS pop/scan loop preserves the push-trace invariant. -/
theorem bfsLoop_inv (grid : SolidGrid) (predicate : Coord → Bool)
    (dirs : List Direction) :
    ∀ (fuel : Nat) (ctx : BfsContext) (num : Nat) (trace : List Nat),
      BfsInv ctx trace →
      BfsInv (bfsLoop grid predicate dirs fuel ctx num trace).2.1
        (bfsLoop grid predicate dirs fuel ctx num trace).2.2 := by
  intro fuel
  induction fuel with
  | zero =>
    intro ctx num trace hinv
    exact hinv
  | succ n ih =>
    intro ctx num trace hinv
    unfold bfsLoop
    split
    · exact hinv
    · rename_i current_entry rest hq
      dsimp only
      have hinv2 : BfsInv { ctx with queue := rest } trace := hinv
      split
      · rename_i r ctx3 trace2 hscan
        exact (bfsScan_inv grid predicate _ _ _ dirs _ _ hinv2).1 _ _ _
          hscan
      · rename_i ctx3 trace2 hscan
        exact ih _ _ _
          ((bfsScan_inv grid predicate _ _ _ dirs _ _ hinv2).2 _ _ hscan)

/-- The stamped-and-enqueued step shared by the BFS neighbour scans
preserves the push-trace invariant. -/
theorem bfsStampStep_inv {ctx : BfsContext} {trace : List Nat}
    {ncoord : Coord} {index nd : Nat} {d : Direction}
    (hinv : BfsInv ctx trace)
    (hidx : indexOfCoord ctx.width ctx.height ncoord = some index)
    (hseen : (ctx.node_grid index).seen ≠ ctx.seq) :
    BfsInv
      { ctx with
        node_grid := setBfsNode ctx.node_grid index
          { ctx.node_grid index with
            seen := ctx.seq
            from_parent := some d }
        queue := ctx.queue ++ [⟨index, nd⟩] }
      (trace ++ [index]) := by
  obtain ⟨hnodup, hmem, hstamp⟩ := hinv
  have hnotmem : index ∉ trace := by
    intro hmem2
    exact hseen (hmem index hmem2).2
  refine ⟨?_, ?_, ?_⟩
  · simpa [List.nodup_append] using ⟨hnodup, fun he => hnotmem he⟩
  · intro i hi
    rcases List.mem_append.mp hi with hi | hi
    · obtain ⟨hlt, hs⟩ := hmem i hi
      refine ⟨hlt, ?_⟩
      dsimp only [setBfsNode]
      rw [if_neg (by intro he; rw [he] at hi; exact hnotmem hi)]
      exact hs
    · have : i = index := by simpa using hi
      subst this
      refine ⟨indexOfCoord_lt hidx, ?_⟩
      dsimp only [setBfsNode]
      rw [if_pos rfl]
  · intro i hlt hs
    dsimp only [setBfsNode] at hs
    by_cases he : i = index
    · subst he
      simp
    · rw [if_neg he] at hs
      exact List.mem_append.mpr (Or.inl (hstamp i hlt hs))

/-- The neighbour scan of `bfs_best` preserves the push-trace invariant. -/
theorem bfsBestScan_inv (grid : SolidGrid) (score : Coord → Option Int)
    (cc : Coord) (nd : Nat) :
    ∀ (ds : List Direction) (ctx : BfsContext) (bm : BestMap)
      (trace : List Nat),
      BfsInv ctx trace →
      ∀ ctx2 bm2 trace2,
        bfsBestScan grid score cc nd ds ctx bm trace =
          .ok (ctx2, bm2, trace2) →
        BfsInv ctx2 trace2 := by
  intro ds
  induction ds with
  | nil =>
    intro ctx bm trace hinv ctx2 bm2 trace2 hr
    simp only [bfsBestScan, Except.ok.injEq, Prod.mk.injEq] at hr
    rw [← hr.1, ← hr.2.2]
    exact hinv
  | cons d ds ih =>
    intro ctx bm trace hinv ctx2 bm2 trace2 hr
    unfold bfsBestScan at hr
    dsimp only at hr
    split at hr
    · rcases hidx : indexOfCoord ctx.width ctx.height (cc + d.coord)
          with _ | index
      · rw [hidx] at hr
        exact absurd hr (by simp)
      · rw [hidx] at hr
        dsimp only at hr
        by_cases hseen : (ctx.node_grid index).seen ≠ ctx.seq
        · rw [if_pos hseen] at hr
          exact ih _ _ _ (bfsStampStep_inv hinv hidx hseen) _ _ _ hr
        · rw [if_neg hseen] at hr
          exact ih _ _ _ hinv _ _ _ hr
    · exact ih _ _ _ hinv _ _ _ hr

/-- The depth-bounded flood loop of `bfs_best` preserves the push-trace
invariant on every returned state. -/
theorem bfsBestLoop_inv (grid : SolidGrid) (score : Coord → Option Int)
    (dirs : List Direction) (max_depth : Nat) :
    ∀ (fuel : Nat) (ctx : BfsContext) (bm : BestMap) (num : Nat)
      (trace : List Nat),
      BfsInv ctx trace →
      ∀ out, bfsBestLoop grid score dirs max_depth fuel ctx bm num trace =
        some out → BfsInv out.2.1 out.2.2 := by
  intro fuel
  induction fuel with
  | zero =>
    intro ctx bm num trace hinv out hout
    simp [bfsBestLoop] at hout
  | succ n ih =>
    intro ctx bm num trace hinv out hout
    unfold bfsBestLoop at hout
    split at hout
    · injection hout with h1
      rw [← h1]
      exact hinv
    · rename_i current_entry rest hq
      dsimp only at hout
      have hinv2 : BfsInv { ctx with queue := rest } trace := hinv
      split at hout
      · exact ih _ _ _ _ hinv2 _ hout
      · split at hout
        · injection hout with h1
          rw [← h1]
          exact hinv2
        · rename_i st hscan
          exact ih _ _ _ _
            (bfsBestScan_inv grid score _ _ dirs _ _ _ hinv2 _ _ _ hscan)
            _ hout

/-- Claim C10: during a single BFS query (`bfs_predicate`, `bfs` or
`bfs_best`, on a context whose stamps do not exceed its generation, as
holds for every context the library can produce), every node index is
pushed onto the FIFO queue at most once: the ghost push trace has no
duplicates. A cell is stamped exactly when it is pushed (both happen in
the same guarded branch), so a stamped cell is never re-stamped, its
`from_parent` is never overwritten, and the first `from_parent` and depth
recorded for a cell are final for the whole query. -/
theorem claim_C10_bfs_single_push (bctx : BfsContext) (grid : SolidGrid)
    (start : Coord) (predicate : Coord → Bool) (score : Coord → Option Int)
    (dirs : List Direction) (config : SearchConfig)
    (max_depth fuel : Nat)
    (hstamps : ∀ i, i < bctx.width * bctx.height →
      (bctx.node_grid i).seen ≤ bctx.seq) :
    (bctx.bfs_predicate grid start predicate dirs config fuel).2.2.Nodup ∧
    (bctx.bfs_best grid start score dirs config max_depth fuel).2.2.Nodup := by
  have hinit : ∀ index, indexOfCoord bctx.width bctx.height start =
      some index →
      BfsInv
        { bctx with
          seq := bctx.seq + 1
          queue := [⟨index, 0⟩]
          node_grid := setBfsNode bctx.node_grid index
            { bctx.node_grid index with
              seen := bctx.seq + 1
              from_parent := none } }
        [index] := by
    intro index hidx
    refine ⟨by simp, ?_, ?_⟩
    · intro i hi
      have : i = index := by simpa using hi
      subst this
      refine ⟨indexOfCoord_lt hidx, ?_⟩
      dsimp only [setBfsNode]
      rw [if_pos rfl]
    · intro i hlt hs
      dsimp only [setBfsNode] at hs
      by_cases he : i = index
      · subst he
        simp
      · rw [if_neg he] at hs
        have := hstamps i hlt
        omega
  constructor
  · unfold BfsContext.bfs_predicate
    rcases hs : grid start with _ | s
    · simp
    · dsimp only
      split
      · simp
      · rcases hidx : indexOfCoord bctx.width bctx.height start
            with _ | index
        · simp
        · dsimp only
          split
          · simp
          · exact (bfsLoop_inv grid predicate dirs fuel _ 0 [index]
              (hinit index hidx)).1
  · unfold BfsContext.bfs_best
    rcases hs : grid start with _ | s
    · simp
    · dsimp only
      split
      · simp
      · rcases hidx : indexOfCoord bctx.width bctx.height start
            with _ | index
        · simp
        · dsimp only
          split
          · simp
          · rename_i e ctx3 trace heq
            exact (bfsBestLoop_inv grid score dirs max_depth fuel _ _ 0
              [index] (hinit index hidx) _ heq).1
          · rename_i num bm ctx3 trace heq
            have hout := (bfsBestLoop_inv grid score dirs max_depth fuel _ _
              0 [index] (hinit index hidx) _ heq).1
            split
            · exact hout
            · split
              · exact hout
              · exact hout

/-- Witness for claim C10 on a concrete 3 × 3 query (the stamp hypothesis
discharged on the fresh context). -/
theorem claim_C10_bfs_single_push_witness :
    ((BfsContext.new 3 3).bfs_predicate
      (solidGridOfCells [[false, false, false], [false, true, false],
        [false, false, false]]) ⟨0, 0⟩ (fun c => c = ⟨2, 2⟩)
      directionsCardinalList ⟨true⟩ 99).2.2.Nodup ∧
    ((BfsContext.new 3 3).bfs_best
      (solidGridOfCells [[false, false, false], [false, true, false],
        [false, false, false]]) ⟨0, 0⟩ (fun c => some (c.x + c.y))
      directionsCardinalList ⟨true⟩ 99 99).2.2.Nodup :=
  claim_C10_bfs_single_push (BfsContext.new 3 3)
    (solidGridOfCells [[false, false, false], [false, true, false],
      [false, false, false]]) ⟨0, 0⟩ (fun c => c = ⟨2, 2⟩)
    (fun c => some (c.x + c.y)) directionsCardinalList ⟨true⟩ 99 99
    (by decide)

/-- `indexToCoord` inverts `indexOfCoord` on in-bounds coordinates. -/
theorem indexToCoord_indexOfCoord {w h : Nat} {c : Coord} {i : Nat}
    (hi : indexOfCoord w h c = some i) : indexToCoord w i = c := by
  unfold indexOfCoord at hi
  split at hi
  · rename_i hc
    obtain ⟨h1, h2, h3, h4⟩ := hc
    injection hi with hi
    subst hi
    have hx : c.x.toNat < w := by omega
    have hw : 0 < w := by omega
    have hmod : (c.y.toNat * w + c.x.toNat) % w = c.x.toNat := by
      rw [Nat.add_comm, Nat.add_mul_mod_self_right]
      exact Nat.mod_eq_of_lt hx
    have hdiv : (c.y.toNat * w + c.x.toNat) / w = c.y.toNat := by
      rw [Nat.add_comm, Nat.add_mul_div_right _ _ hw,
        Nat.div_eq_of_lt hx, Nat.zero_add]
    have hx' : (c.x.toNat : Int) = c.x := Int.toNat_of_nonneg h1
    have hy' : (c.y.toNat : Int) = c.y := Int.toNat_of_nonneg h3
    unfold indexToCoord
    rw [hmod, hdiv, hx', hy']
  · exact absurd hi (by simp)

/-- The accumulator only grows along `make_path_all_adjacent`. -/
theorem make_path_all_adjacent_length_le (w h : Nat)
    (fp : Nat → Option Direction) (co : Nat → Coord) :
    ∀ (fuel index : Nat) (acc p : List Direction),
      make_path_all_adjacent w h fp co fuel index acc = some p →
      acc.length ≤ p.length := by
  intro fuel
  induction fuel with
  | zero =>
    intro index acc p hp
    simp [make_path_all_adjacent] at hp
  | succ f ih =>
    intro index acc p hp
    simp only [make_path_all_adjacent] at hp
    split at hp
    · injection hp with hp
      subst hp
      exact le_refl _
    · split at hp
      · exact absurd hp (by simp)
      · have := ih _ _ _ hp
        simp at this
        omega

/-- An empty reconstructed path means the terminal node has no parent
link. -/
theorem make_path_all_adjacent_nil (w h : Nat)
    (fp : Nat → Option Direction) (co : Nat → Coord)
    (fuel index : Nat) (p : List Direction)
    (hp : make_path_all_adjacent w h fp co (fuel + 1) index [] = some p)
    (hnil : p = []) : fp index = none := by
  subst hnil
  simp only [make_path_all_adjacent] at hp
  split at hp
  · rename_i hfp
    exact hfp
  · split at hp
    · exact absurd hp (by simp)
    · have := make_path_all_adjacent_length_le w h fp co _ _ _ _ hp
      simp at this

/-- Any predicate holding for the sifted element and all array elements
holds for every element after the sift-up (the hole position stays in
range, so every hole read hits the array). -/
theorem siftUp_pred {C : Type} [LinearOrder C] [Inhabited C]
    (P : PriorityEntry C → Prop) (elem : PriorityEntry C) :
    ∀ (steps : Nat) (l : List (PriorityEntry C)) (pos : Nat),
      pos < l.length → (∀ y ∈ l, P y) → P elem →
      ∀ y ∈ siftUp elem steps l pos, P y := by
  intro steps
  induction steps with
  | zero =>
    intro l pos hpos hl he y hy
    simp only [siftUp] at hy
    rcases List.mem_or_eq_of_mem_set hy with hy | hy
    · exact hl y hy
    · subst hy
      exact he
  | succ s ih =>
    intro l pos hpos hl he y hy
    simp only [siftUp] at hy
    by_cases h0 : pos = 0
    · rw [if_pos h0] at hy
      rcases List.mem_or_eq_of_mem_set hy with hy | hy
      · exact hl y hy
      · subst hy
        exact he
    · rw [if_neg h0] at hy
      have hparent : (pos - 1) / 2 < l.length := lt_trans (by omega) hpos
      have hp : P (l.getD ((pos - 1) / 2) default) := by
        rw [List.getD_eq_getElem l default hparent]
        exact hl _ (List.getElem_mem hparent)
      by_cases hle : heapLe elem (l.getD ((pos - 1) / 2) default)
      · rw [if_pos hle] at hy
        rcases List.mem_or_eq_of_mem_set hy with hy | hy
        · exact hl y hy
        · subst hy
          exact he
      · rw [if_neg hle] at hy
        refine ih (l.set pos (l.getD ((pos - 1) / 2) default))
          ((pos - 1) / 2) (by simpa using hparent) ?_ he y hy
        intro z hz
        rcases List.mem_or_eq_of_mem_set hz with hz | hz
        · exact hl z hz
        · subst hz
          exact hp

/-- `heapPush` preserves an elementwise predicate. -/
theorem heapPush_pred {C : Type} [LinearOrder C] [Inhabited C]
    (P : PriorityEntry C → Prop) (l : List (PriorityEntry C))
    (x : PriorityEntry C) (hl : ∀ y ∈ l, P y) (hx : P x) :
    ∀ y ∈ heapPush l x, P y := by
  unfold heapPush
  refine siftUp_pred P x l.length (l ++ [x]) l.length (by simp) ?_ hx
  intro y hy
  rcases List.mem_append.mp hy with hy | hy
  · exact hl y hy
  · have : y = x := by simpa using hy
    subst this
    exact hx

/-- The hole walk of `sift_down_to_bottom` preserves an elementwise
predicate, keeps the array length, and leaves the hole inside the heap
whenever it started there. -/
theorem siftDownGo_pred {C : Type} [LinearOrder C] [Inhabited C]
    (P : PriorityEntry C → Prop) :
    ∀ (steps : Nat) (l : List (PriorityEntry C)) (pos child stop : Nat),
      stop ≤ l.length → (∀ y ∈ l, P y) →
      (∀ y ∈ (siftDownGo steps l pos child stop).1, P y) ∧
      (siftDownGo steps l pos child stop).1.length = l.length ∧
      (pos < stop → (siftDownGo steps l pos child stop).2 < stop) := by
  intro steps
  induction steps with
  | zero =>
    intro l pos child stop hstop hl
    simp only [siftDownGo]
    exact ⟨hl, by simp, fun hh => hh⟩
  | succ s ih =>
    intro l pos child stop hstop hl
    simp only [siftDownGo]
    by_cases h2 : child + 2 ≤ stop
    · rw [if_pos h2]
      by_cases hc : heapLe (l.getD child default) (l.getD (child + 1) default)
      · have hcond : (if heapLe (l.getD child default)
            (l.getD (child + 1) default) then child + 1 else child) =
            child + 1 := if_pos hc
        rw [hcond]
        have hin : child + 1 < l.length := by omega
        have hP : P (l.getD (child + 1) default) := by
          rw [List.getD_eq_getElem l default hin]
          exact hl _ (List.getElem_mem hin)
        have hmem : ∀ y ∈ l.set pos (l.getD (child + 1) default), P y := by
          intro z hz
          rcases List.mem_or_eq_of_mem_set hz with hz | hz
          · exact hl z hz
          · subst hz
            exact hP
        obtain ⟨hm, hlen, hpos⟩ := ih (l.set pos (l.getD (child + 1) default))
          (child + 1) (2 * (child + 1) + 1) stop (by simpa using hstop) hmem
        refine ⟨hm, by rw [hlen]; simp, fun _ => hpos (by omega)⟩
      · have hcond : (if heapLe (l.getD child default)
            (l.getD (child + 1) default) then child + 1 else child) =
            child := if_neg hc
        rw [hcond]
        have hin : child < l.length := by omega
        have hP : P (l.getD child default) := by
          rw [List.getD_eq_getElem l default hin]
          exact hl _ (List.getElem_mem hin)
        have hmem : ∀ y ∈ l.set pos (l.getD child default), P y := by
          intro z hz
          rcases List.mem_or_eq_of_mem_set hz with hz | hz
          · exact hl z hz
          · subst hz
            exact hP
        obtain ⟨hm, hlen, hpos⟩ := ih (l.set pos (l.getD child default))
          child (2 * child + 1) stop (by simpa using hstop) hmem
        refine ⟨hm, by rw [hlen]; simp, fun _ => hpos (by omega)⟩
    · rw [if_neg h2]
      by_cases h1 : child + 1 = stop
      · rw [if_pos h1]
        have hin : child < l.length := by omega
        refine ⟨?_, by simp, fun _ => by omega⟩
        intro z hz
        rcases List.mem_or_eq_of_mem_set hz with hz | hz
        · exact hl z hz
        · subst hz
          rw [List.getD_eq_getElem l default hin]
          exact hl _ (List.getElem_mem hin)
      · rw [if_neg h1]
        exact ⟨hl, by simp, fun hh => hh⟩

/-- `sift_down_to_bottom` on a non-empty heap preserves an elementwise
predicate. -/
theorem siftDownToBottom_pred {C : Type} [LinearOrder C] [Inhabited C]
    (P : PriorityEntry C → Prop) (elem : PriorityEntry C)
    (l : List (PriorityEntry C)) (hne : l ≠ [])
    (hl : ∀ y ∈ l, P y) (he : P elem) :
    ∀ y ∈ siftDownToBottom elem l, P y := by
  unfold siftDownToBottom
  dsimp only
  obtain ⟨hm, hlen, hpos⟩ :=
    siftDownGo_pred P (l.length + 1) l 0 1 l.length (le_refl _) hl
  refine siftUp_pred P elem _ _ _ ?_ hm he
  rw [hlen]
  exact hpos (List.length_pos.mpr hne)

/-- `heapPop` preserves an elementwise predicate: the popped entry and all
remaining entries come from the original heap. -/
theorem heapPop_pred {C : Type} [LinearOrder C] [Inhabited C]
    (P : PriorityEntry C → Prop) (l : List (PriorityEntry C))
    (hl : ∀ y ∈ l, P y) :
    (∀ e, (heapPop l).1 = some e → P e) ∧ (∀ y ∈ (heapPop l).2, P y) := by
  unfold heapPop
  split
  · exact ⟨fun e he => by simp at he, hl⟩
  · rename_i item heq
    have hne : l ≠ [] := by
      intro hcontra
      subst hcontra
      simp at heq
    have hitem : item ∈ l := by
      obtain ⟨hne2, hx⟩ := List.mem_getLast?_eq_getLast
        (show item ∈ l.getLast? from by rw [heq]; rfl)
      subst hx
      exact List.getLast_mem hne2
    have hrest : ∀ y ∈ l.dropLast, P y := fun y hy =>
      hl y ((List.dropLast_sublist l).subset hy)
    by_cases hemp : l.dropLast.isEmpty
    · rw [if_pos hemp]
      refine ⟨fun e he => ?_, hrest⟩
      injection he with he
      subst he
      exact hl item hitem
    · rw [if_neg hemp]
      constructor
      · intro e he
        injection he with he
        subst he
        have h0 : 0 < l.dropLast.length := by
          rcases hd : l.dropLast with _ | _
          · rw [hd] at hemp
            simp at hemp
          · simp [hd]
        rw [List.getD_eq_getElem _ default h0]
        exact hrest _ (List.getElem_mem h0)
      · refine siftDownToBottom_pred P item l.dropLast ?_ hrest
          (hl item hitem)
        intro hcontra
        rw [hcontra] at hemp
        simp at hemp

/-- Invariant of a running `search_general` query used for the empty-path
claim: an in-bounds node stamped in the current generation whose parent
link is `none` sits at the start coordinate, and every open-set entry
points at an in-bounds node stamped in the current generation. -/
def StartLinkInv {C : Type} (start : Coord) (seq w h : Nat)
    (g : Nat → SearchNode C) (pq : List (PriorityEntry C)) : Prop :=
  (∀ i, i < w * h → (g i).seen = seq → (g i).from_parent = none →
    (g i).coord = start) ∧
  (∀ e ∈ pq, e.node_index < w * h ∧ (g e.node_index).seen = seq)

/-- One relaxation step preserves `StartLinkInv`: a freshly stamped
successor always records the parent direction it was reached by. -/
theorem relaxOne_startLinkInv {C : Type} [LinearOrder C] [Add C]
    [Inhabited C] (grid : CostGrid C) (goal : Coord)
    (hf : Coord → Coord → C) (w h seq : Nat) (cc : Coord) (cost : C)
    (st st2 : (Nat → SearchNode C) × List (PriorityEntry C))
    (d : Direction) (start : Coord)
    (hinv : StartLinkInv start seq w h st.1 st.2)
    (hstep : relaxOne grid goal hf w h seq cc cost st d = .ok st2) :
    StartLinkInv start seq w h st2.1 st2.2 := by
  unfold relaxOne at hstep
  dsimp only at hstep
  split at hstep
  · rename_i c hcost
    split at hstep
    · exact absurd hstep (by simp)
    · rename_i index hidx
      injection hstep with hstep
      subst hstep
      unfold update_node_and_priority_queue
      split
      · dsimp only
        constructor
        · intro i hlt hseen hfp
          dsimp only [setNode] at hseen hfp ⊢
          by_cases hi : i = index
          · rw [if_pos hi] at hfp
            simp at hfp
          · rw [if_neg hi] at hseen hfp ⊢
            exact hinv.1 i hlt hseen hfp
        · refine heapPush_pred _ _ _ ?_ ?_
          · intro y hy
            obtain ⟨hylt, hyseen⟩ := hinv.2 y hy
            refine ⟨hylt, ?_⟩
            dsimp only [setNode]
            by_cases hyi : y.node_index = index
            · rw [if_pos hyi]
            · rw [if_neg hyi]
              exact hyseen
          · refine ⟨indexOfCoord_lt hidx, ?_⟩
            dsimp only [setNode]
            rw [if_pos rfl]
      · dsimp only
        have hsame : ∀ j, setNode st.1 index (st.1 index) j = st.1 j := by
          intro j
          dsimp only [setNode]
          split
          · rename_i hj
            rw [hj]
          · rfl
        constructor
        · intro i hlt hseen hfp
          rw [hsame] at hseen hfp ⊢
          exact hinv.1 i hlt hseen hfp
        · intro e he
          obtain ⟨helt, heseen⟩ := hinv.2 e he
          rw [hsame]
          exact ⟨helt, heseen⟩
  · injection hstep with hstep
    subst hstep
    exact hinv

/-- The full neighbour relaxation preserves `StartLinkInv`. -/
theorem relaxAll_startLinkInv {C : Type} [LinearOrder C] [Add C]
    [Inhabited C] (grid : CostGrid C) (goal : Coord)
    (hf : Coord → Coord → C) (w h seq : Nat) (cc : Coord) (cost : C)
    (start : Coord) :
    ∀ (ds : List Direction)
      (st st2 : (Nat → SearchNode C) × List (PriorityEntry C)),
      StartLinkInv start seq w h st.1 st.2 →
      relaxAll grid goal hf w h seq cc cost ds st = .ok st2 →
      StartLinkInv start seq w h st2.1 st2.2 := by
  intro ds
  induction ds with
  | nil =>
    intro st st2 hinv hstep
    simp only [relaxAll] at hstep
    injection hstep with hstep
    subst hstep
    exact hinv
  | cons d ds ih =>
    intro st st2 hinv hstep
    simp only [relaxAll] at hstep
    split at hstep
    · exact absurd hstep (by simp)
    · rename_i st3 hone
      exact ih st3 st2 (relaxOne_startLinkInv grid goal hf w h seq cc cost
        st st3 d start hinv hone) hstep

/-- If the relax loop of `search_general` succeeds with an empty path from
a state satisfying `StartLinkInv`, the start coordinate itself satisfies
the goal predicate: the settled goal node has no parent link, so it is the
start node. -/
theorem searchLoop_zero_path {C : Type} [LinearOrder C] [Add C]
    [Inhabited C] (grid : CostGrid C) (predicate : Coord → Bool)
    (dirs : List Direction) (hf : Coord → Coord → C) (goal start : Coord) :
    ∀ (fuel : Nat) (ctx : SearchContext C) (num : Nat)
      (md : SearchMetadata C) (path : List Direction),
      StartLinkInv start ctx.seq ctx.width ctx.height ctx.node_grid
        ctx.priority_queue →
      (searchLoop grid predicate dirs hf goal fuel ctx num).1 =
        some (.ok (md, path)) →
      path = [] → predicate start = true := by
  intro fuel
  induction fuel with
  | zero =>
    intro ctx num md path hinv hres hp
    simp [searchLoop] at hres
  | succ f ih =>
    intro ctx num md path hinv hres hp
    rw [searchLoop] at hres
    split at hres
    · simp at hres
    · rename_i current_entry pq2 hpop
      have hpopped := heapPop_pred
        (fun e => e.node_index < ctx.width * ctx.height ∧
          (ctx.node_grid e.node_index).seen = ctx.seq)
        ctx.priority_queue hinv.2
      rw [hpop] at hpopped
      obtain ⟨hce_lt, hce_seen⟩ := hpopped.1 current_entry rfl
      have hpq2 : ∀ e ∈ pq2, e.node_index < ctx.width * ctx.height ∧
          (ctx.node_grid e.node_index).seen = ctx.seq := hpopped.2
      dsimp only at hres
      split at hres
      · exact ih { ctx with priority_queue := pq2 } _ md path
          ⟨hinv.1, hpq2⟩ hres hp
      · split at hres
        · rename_i hpred
          split at hres
          · simp at hres
          · rename_i path2 hmk
            have hpath2 : path2 = path := by
              simp at hres
              exact hres.2
            subst hpath2
            have hfp := make_path_all_adjacent_nil _ _ _ _ _ _ _ hmk hp
            dsimp only [setNode] at hfp
            rw [if_pos rfl] at hfp
            dsimp only at hfp
            have hcoord := hinv.1 current_entry.node_index hce_lt hce_seen hfp
            rw [hcoord] at hpred
            exact hpred
        · split at hres
          · simp at hres
          · rename_i st hrelax
            refine ih _ _ md path ?_ hres hp
            refine relaxAll_startLinkInv grid goal hf ctx.width ctx.height
              ctx.seq _ _ start dirs _ st ?_ hrelax
            constructor
            · intro i hlt hseen hfp
              dsimp only [setNode] at hseen hfp ⊢
              by_cases hi : i = current_entry.node_index
              · rw [if_pos hi] at hseen hfp ⊢
                exact hinv.1 current_entry.node_index hce_lt hseen hfp
              · rw [if_neg hi] at hseen hfp ⊢
                exact hinv.1 i hlt hseen hfp
            · intro e he
              obtain ⟨helt, heseen⟩ := hpq2 e he
              refine ⟨helt, ?_⟩
              dsimp only [setNode]
              by_cases hei : e.node_index = current_entry.node_index
              · rw [if_pos hei]
                exact hce_seen
              · rw [if_neg hei]
                exact heseen

/-- Invariant of a running `bfs_predicate` query used for the empty-path
claim: an in-bounds node stamped in the current generation with no parent
link is the start node, and node coordinates agree with the row-major
layout. -/
def BfsStartInv (start : Coord) (ctx : BfsContext) : Prop :=
  (∀ i, i < ctx.width * ctx.height → (ctx.node_grid i).seen = ctx.seq →
    (ctx.node_grid i).from_parent = none → (ctx.node_grid i).coord = start) ∧
  (∀ i, i < ctx.width * ctx.height →
    (ctx.node_grid i).coord = indexToCoord ctx.width i)

/-- The BFS neighbour scan preserves `BfsStartInv`, and a successful
finish with an empty path forces the start to satisfy the predicate (the
path's terminal node has no parent link, so it is the start node). -/
theorem bfsScan_zero_path (grid : SolidGrid) (predicate : Coord → Bool)
    (cc : Coord) (num2 nd : Nat) (start : Coord) :
    ∀ (ds : List Direction) (ctx : BfsContext) (trace : List Nat),
      BfsStartInv start ctx →
      (∀ (md : SearchMetadata Nat) (path : List Direction)
        (ctx2 : BfsContext) (trace2 : List Nat),
        bfsScan grid predicate cc num2 nd ds ctx trace =
          .finished (some (.ok (md, path))) ctx2 trace2 →
        path = [] → predicate start = true) ∧
      (∀ (ctx2 : BfsContext) (trace2 : List Nat),
        bfsScan grid predicate cc num2 nd ds ctx trace =
          .next ctx2 trace2 →
        BfsStartInv start ctx2) := by
  intro ds
  induction ds with
  | nil =>
    intro ctx trace hinv
    constructor
    · intro md path ctx2 trace2 hr
      simp [bfsScan] at hr
    · intro ctx2 trace2 hr
      simp only [bfsScan, BfsScan.next.injEq] at hr
      rw [← hr.1]
      exact hinv
  | cons d ds ih =>
    intro ctx trace hinv
    have hstamp_inv : ∀ index,
        indexOfCoord ctx.width ctx.height (cc + d.coord) = some index →
        BfsStartInv start
          { ctx with
            node_grid := setBfsNode ctx.node_grid index
              { ctx.node_grid index with
                seen := ctx.seq
                from_parent := some d }
            queue := ctx.queue ++ [⟨index, nd⟩] } := by
      intro index hidx
      obtain ⟨hsi, hcc⟩ := hinv
      constructor
      · intro i hlt hseen hfp
        dsimp only [setBfsNode] at hseen hfp ⊢
        by_cases hi : i = index
        · subst hi
          rw [if_pos rfl] at hfp
          simp at hfp
        · rw [if_neg hi] at hseen hfp ⊢
          exact hsi i hlt hseen hfp
      · intro i hlt
        dsimp only [setBfsNode]
        by_cases hi : i = index
        · subst hi
          rw [if_pos rfl]
          exact hcc i hlt
        · rw [if_neg hi]
          exact hcc i hlt
    constructor
    · intro md path ctx2 trace2 hr hpath
      unfold bfsScan at hr
      dsimp only at hr
      split at hr
      · rename_i hopen
        rcases hidx : indexOfCoord ctx.width ctx.height (cc + d.coord)
            with _ | index
        · rw [hidx] at hr
          exact absurd hr (by simp)
        · rw [hidx] at hr
          dsimp only at hr
          by_cases hseen : (ctx.node_grid index).seen ≠ ctx.seq
          · rw [if_pos hseen] at hr
            split at hr
            · rename_i hpred
              split at hr
              · exact absurd hr (by simp)
              · rename_i path2 hmk
                injection hr with h1 h2 h3
                have hpath2 : path2 = [] := by
                  have h1' := h1
                  simp at h1'
                  rw [h1'.2, hpath]
                have hfp := make_path_all_adjacent_nil _ _ _ _ _ _ _ hmk
                  hpath2
                simp [setBfsNode] at hfp
            · exact (ih _ _ (hstamp_inv index hidx)).1 md path ctx2 trace2
                hr hpath
          · rw [if_neg hseen] at hr
            split at hr
            · rename_i hpred
              split at hr
              · exact absurd hr (by simp)
              · rename_i path2 hmk
                injection hr with h1 h2 h3
                have hpath2 : path2 = [] := by
                  have h1' := h1
                  simp at h1'
                  rw [h1'.2, hpath]
                have hfp := make_path_all_adjacent_nil _ _ _ _ _ _ _ hmk
                  hpath2
                have hseen2 : (ctx.node_grid index).seen = ctx.seq := by
                  by_contra hcontra
                  exact hseen hcontra
                have hcoord := hinv.1 index (indexOfCoord_lt hidx) hseen2 hfp
                have hcc2 : (ctx.node_grid index).coord = cc + d.coord :=
                  (hinv.2 index (indexOfCoord_lt hidx)).trans
                    (indexToCoord_indexOfCoord hidx)
                rw [← hcc2, hcoord] at hpred
                exact hpred
            · exact (ih _ _ hinv).1 md path ctx2 trace2 hr hpath
      · exact (ih _ _ hinv).1 md path ctx2 trace2 hr hpath
    · intro ctx2 trace2 hr
      unfold bfsScan at hr
      dsimp only at hr
      split at hr
      · rename_i hopen
        rcases hidx : indexOfCoord ctx.width ctx.height (cc + d.coord)
            with _ | index
        · rw [hidx] at hr
          exact absurd hr (by simp)
        · rw [hidx] at hr
          dsimp only at hr
          by_cases hseen : (ctx.node_grid index).seen ≠ ctx.seq
          · rw [if_pos hseen] at hr
            split at hr
            · split at hr
              · exact absurd hr (by simp)
              · exact absurd hr (by simp)
            · exact (ih _ _ (hstamp_inv index hidx)).2 ctx2 trace2 hr
          · rw [if_neg hseen] at hr
            split at hr
            · split at hr
              · exact absurd hr (by simp)
              · exact absurd hr (by simp)
            · exact (ih _ _ hinv).2 ctx2 trace2 hr
      · exact (ih _ _ hinv).2 ctx2 trace2 hr

/-- If the BFS flood succeeds with an empty path from a state satisfying
`BfsStartInv`, the start coordinate itself satisfies the predicate. -/
theorem bfsLoop_zero_path (grid : SolidGrid) (predicate : Coord → Bool)
    (dirs : List Direction) (start : Coord) :
    ∀ (fuel : Nat) (ctx : BfsContext) (num : Nat) (trace : List Nat)
      (md : SearchMetadata Nat) (path : List Direction),
      BfsStartInv start ctx →
      (bfsLoop grid predicate dirs fuel ctx num trace).1 =
        some (.ok (md, path)) →
      path = [] → predicate start = true := by
  intro fuel
  induction fuel with
  | zero =>
    intro ctx num trace md path hinv hres hpath
    simp [bfsLoop] at hres
  | succ n ih =>
    intro ctx num trace md path hinv hres hpath
    rw [bfsLoop] at hres
    split at hres
    · simp at hres
    · rename_i current_entry rest hq
      dsimp only at hres
      have hinv2 : BfsStartInv start { ctx with queue := rest } := hinv
      split at hres
      · rename_i r ctx3 trace2 hscan
        dsimp only at hres
        subst hres
        exact (bfsScan_zero_path grid predicate _ _ _ start dirs _ _
          hinv2).1 md path ctx3 trace2 hscan hpath
      · rename_i ctx3 trace2 hscan
        exact ih ctx3 _ trace2 md path
          ((bfsScan_zero_path grid predicate _ _ _ start dirs _ _
            hinv2).2 ctx3 trace2 hscan) hres hpath

/-- Claim C5: searching from a permitted in-bounds start coordinate to
itself succeeds immediately with cost 0, path length 0, 0 nodes visited
and an empty path, for both `search_general` and `bfs`; conversely, on a
well-formed context (stamps at most the current generation, row-major
node coordinates) any successful query returns a path of length 0 exactly
when the start equals the goal. -/
theorem claim_C5_zero_length_iff {C : Type} [LinearOrder C] [Add C]
    [Zero C] [Inhabited C] (ctx : SearchContext C) (grid : CostGrid C)
    (s : Coord) (dirs : List Direction) (hf : Coord → Coord → C)
    (config : SearchConfig) (fuel : Nat) (bctx : BfsContext)
    (sgrid : SolidGrid) (start goal : Coord) (md : SearchMetadata C)
    (mdb : SearchMetadata Nat) (path pathb : List Direction) :
    (∀ sol i, grid.is_solid s = some sol →
      (sol = true → config.allow_solid_start = true) →
      indexOfCoord ctx.width ctx.height s = some i →
      (ctx.search_general grid s s dirs hf config fuel).1 =
        some (.ok (⟨0, 0, 0⟩, []))) ∧
    (∀ sol i, sgrid s = some sol →
      (sol = true → config.allow_solid_start = true) →
      indexOfCoord bctx.width bctx.height s = some i →
      (bctx.bfs sgrid s s dirs config fuel).1 =
        some (.ok (⟨0, 0, 0⟩, []))) ∧
    ((∀ i, i < ctx.width * ctx.height → (ctx.node_grid i).seen ≤ ctx.seq) →
      (∀ i, i < ctx.width * ctx.height →
        (ctx.node_grid i).coord = indexToCoord ctx.width i) →
      (ctx.search_general grid start goal dirs hf config fuel).1 =
        some (.ok (md, path)) →
      (path.length = 0 ↔ start = goal)) ∧
    ((∀ i, i < bctx.width * bctx.height →
        (bctx.node_grid i).seen ≤ bctx.seq) →
      (∀ i, i < bctx.width * bctx.height →
        (bctx.node_grid i).coord = indexToCoord bctx.width i) →
      (bctx.bfs sgrid start goal dirs config fuel).1 =
        some (.ok (mdb, pathb)) →
      (pathb.length = 0 ↔ start = goal)) := by
  refine ⟨?_, ?_, ?_, ?_⟩
  · intro sol i h hallow hidx
    unfold SearchContext.search_general SearchContext.init
    rw [h]
    dsimp only
    rw [if_neg (by rcases sol with _ | _ <;> simp_all), hidx]
    dsimp only
    rw [if_pos (by simp)]
  · intro sol i h hallow hidx
    unfold BfsContext.bfs BfsContext.bfs_predicate
    rw [h]
    dsimp only
    rw [if_neg (by rcases sol with _ | _ <;> simp_all), hidx]
    dsimp only
    rw [if_pos (by simp)]
  · intro hstamps hcoord hres
    unfold SearchContext.search_general SearchContext.init at hres
    rcases hsol : grid.is_solid start with _ | sol
    · rw [hsol] at hres
      simp at hres
    · rw [hsol] at hres
      dsimp only at hres
      by_cases hb : sol = true ∧ ¬config.allow_solid_start = true
      · rw [if_pos hb] at hres
        simp at hres
      · rw [if_neg hb] at hres
        rcases hidx2 : indexOfCoord ctx.width ctx.height start with _ | index
        · rw [hidx2] at hres
          simp at hres
        · rw [hidx2] at hres
          dsimp only at hres
          by_cases hg : start = goal
          · rw [if_pos (by simp [hg])] at hres
            simp at hres
            refine ⟨fun _ => hg, fun _ => ?_⟩
            rw [hres.2]
            rfl
          · rw [if_neg (by simp [hg])] at hres
            dsimp only at hres
            constructor
            · intro hlen
              have hpath := List.length_eq_zero.mp hlen
              have hconc := searchLoop_zero_path grid _ dirs hf goal start
                fuel _ 0 md path ?_ hres hpath
              · exact of_decide_eq_true hconc
              constructor
              · intro i hlt hseen hfp
                dsimp only [setNode] at hseen hfp ⊢
                by_cases hi : i = index
                · subst hi
                  rw [if_pos rfl]
                  exact (hcoord i (indexOfCoord_lt hidx2)).trans
                    (indexToCoord_indexOfCoord hidx2)
                · rw [if_neg hi] at hseen
                  have := hstamps i hlt
                  omega
              · refine heapPush_pred _ [] _ (by intro y hy; simp at hy) ?_
                refine ⟨indexOfCoord_lt hidx2, ?_⟩
                dsimp only [setNode]
                rw [if_pos rfl]
            · intro hg2
              exact absurd hg2 hg
  · intro hstamps hcoord hres
    unfold BfsContext.bfs BfsContext.bfs_predicate at hres
    rcases hsol : sgrid start with _ | sol
    · rw [hsol] at hres
      simp at hres
    · rw [hsol] at hres
      dsimp only at hres
      by_cases hb : sol = true ∧ ¬config.allow_solid_start = true
      · rw [if_pos hb] at hres
        simp at hres
      · rw [if_neg hb] at hres
        rcases hidx2 : indexOfCoord bctx.width bctx.height start
            with _ | index
        · rw [hidx2] at hres
          simp at hres
        · rw [hidx2] at hres
          dsimp only at hres
          by_cases hg : start = goal
          · rw [if_pos (by simp [hg])] at hres
            simp at hres
            refine ⟨fun _ => hg, fun _ => ?_⟩
            rw [hres.2]
            rfl
          · rw [if_neg (by simp [hg])] at hres
            constructor
            · intro hlen
              have hpath := List.length_eq_zero.mp hlen
              have hconc := bfsLoop_zero_path sgrid _ dirs start fuel _ 0
                [index] mdb pathb ?_ hres hpath
              · exact of_decide_eq_true hconc
              constructor
              · intro i hlt hseen hfp
                dsimp only [setBfsNode] at hseen hfp ⊢
                by_cases hi : i = index
                · subst hi
                  rw [if_pos rfl]
                  exact (hcoord i (indexOfCoord_lt hidx2)).trans
                    (indexToCoord_indexOfCoord hidx2)
                · rw [if_neg hi] at hseen
                  have := hstamps i hlt
                  omega
              · intro i hlt
                dsimp only [setBfsNode]
                by_cases hi : i = index
                · subst hi
                  rw [if_pos rfl]
                  exact hcoord i hlt
                · rw [if_neg hi]
                  exact hcoord i hlt
            · intro hg2
              exact absurd hg2 hg

/-- Witness for claim C5 on concrete 2 × 1 queries: the trivial
start-equals-goal searches succeed with empty paths, and the successful
non-trivial runs (path `[east]`) have length 1, matching the iff. -/
theorem claim_C5_zero_length_iff_witness :
    ((SearchContext.new Nat 2 1).search_general
      (costGridOfCells [[some 1, some 1]]) ⟨0, 0⟩ ⟨0, 0⟩
      directionsCardinalList (fun _ _ => 0) ⟨true⟩ 9).1 =
      some (.ok (⟨0, 0, 0⟩, [])) ∧
    ((BfsContext.new 2 1).bfs (solidGridOfCells [[false, false]])
      ⟨0, 0⟩ ⟨0, 0⟩ directionsCardinalList ⟨true⟩ 9).1 =
      some (.ok (⟨0, 0, 0⟩, [])) ∧
    (([Direction.east].length = 0) ↔ (⟨0, 0⟩ : Coord) = ⟨1, 0⟩) ∧
    (([Direction.east].length = 0) ↔ (⟨0, 0⟩ : Coord) = ⟨1, 0⟩) := by
  obtain ⟨h1, h2, h3, h4⟩ := claim_C5_zero_length_iff
    (SearchContext.new Nat 2 1) (costGridOfCells [[some 1, some 1]])
    ⟨0, 0⟩ directionsCardinalList (fun _ _ => 0) ⟨true⟩ 9
    (BfsContext.new 2 1) (solidGridOfCells [[false, false]])
    ⟨0, 0⟩ ⟨1, 0⟩ ⟨2, 1, 1⟩ ⟨1, 1, 1⟩ [Direction.east] [Direction.east]
  refine ⟨h1 false 0 (by decide) (by decide) (by decide),
    h2 false 0 (by decide) (by decide) (by decide),
    h3 (by decide) (by decide) (by decide),
    h4 (by decide) (by decide) (by decide)⟩

/-- Replay a direction sequence step by step from a coordinate. -/
def pathReplay (start : Coord) (path : List Direction) : Coord :=
  path.foldl (fun c d => c + d.coord) start

/-- Stepping opposite to a direction and then along it is a round trip. -/
theorem opposite_coord_cancel (a : Coord) (d : Direction) :
    a + d.opposite.coord + d.coord = a := by
  rcases a with ⟨x, y⟩
  cases d <;> simp [Direction.opposite, Direction.coord, Coord.add_def,
    Coord.mk.injEq]

/-- The inner re-walk of `make_path_jump_points` ends on a stamped stored
node, and replaying the extended accumulator from its coordinate equals
replaying the original accumulator from the cell one step beyond the walk
start (each re-emitted direction cancels one opposite step). -/
theorem makePathJumpWalk_replay (w h : Nat) (g : Nat → SearchNode Nat)
    (seq : Nat) (fp : Direction)
    (hcc : ∀ i, i < w * h → (g i).coord = indexToCoord w i) :
    ∀ (fuel : Nat) (c : Coord) (acc : List Direction)
      (n2 : SearchNode Nat) (acc2 : List Direction),
      makePathJumpWalk w h g seq fp.opposite.coord fp fuel c acc =
        some (n2, acc2) →
      (∃ j, j < w * h ∧ n2 = g j ∧ (g j).seen = seq) ∧
      pathReplay n2.coord acc2 = pathReplay (c + fp.opposite.coord) acc := by
  intro fuel
  induction fuel with
  | zero =>
    intro c acc n2 acc2 hw
    simp [makePathJumpWalk] at hw
  | succ f ih =>
    intro c acc n2 acc2 hw
    rw [makePathJumpWalk] at hw
    split at hw
    · simp at hw
    · rename_i j hj
      split at hw
      · rename_i hseen
        injection hw with hw
        rw [Prod.mk.injEq] at hw
        obtain ⟨hw1, hw2⟩ := hw
        subst hw1
        subst hw2
        refine ⟨⟨j, indexOfCoord_lt hj, rfl, hseen⟩, ?_⟩
        rw [hcc j (indexOfCoord_lt hj), indexToCoord_indexOfCoord hj]
      · rename_i hseen
        obtain ⟨hok, hrep⟩ := ih _ _ _ _ hw
        refine ⟨hok, ?_⟩
        rw [hrep]
        have hcons : pathReplay (c + fp.opposite.coord + fp.opposite.coord)
            (fp :: acc) =
            pathReplay (c + fp.opposite.coord + fp.opposite.coord + fp.coord)
              acc := rfl
        rw [hcons, opposite_coord_cancel]

/-- The outer loop of `make_path_jump_points`: replaying the reconstructed
path from the start coordinate equals replaying the accumulator from the
current node's coordinate (so the whole path replays from start to the
reconstruction's origin). -/
theorem make_path_jump_points_go_replay (w h : Nat)
    (g : Nat → SearchNode Nat) (seq : Nat) (start : Coord)
    (hcc : ∀ i, i < w * h → (g i).coord = indexToCoord w i)
    (hss : ∀ i, i < w * h → (g i).seen = seq →
      (g i).from_parent = none → (g i).coord = start) :
    ∀ (fuel : Nat) (node : SearchNode Nat) (acc out : List Direction),
      (∃ j, j < w * h ∧ node = g j ∧ (g j).seen = seq) →
      make_path_jump_points_go w h g seq fuel node acc = some out →
      pathReplay start out = pathReplay node.coord acc := by
  intro fuel
  induction fuel with
  | zero =>
    intro node acc out hok hgo
    simp [make_path_jump_points_go] at hgo
  | succ f ih =>
    intro node acc out hok hgo
    rw [make_path_jump_points_go] at hgo
    split at hgo
    · rename_i hfp
      injection hgo with hgo
      subst hgo
      obtain ⟨j, hj, hnode, hseen⟩ := hok
      subst hnode
      rw [hss j hj hseen hfp]
    · rename_i fp hfp
      split at hgo
      · simp at hgo
      · rename_i n2 acc2 hwalk
        obtain ⟨hok2, hrep⟩ := makePathJumpWalk_replay w h g seq fp hcc f
          node.coord (fp :: acc) n2 acc2 hwalk
        rw [ih n2 acc2 out hok2 hgo, hrep]
        have hcons : pathReplay (node.coord + fp.opposite.coord)
            (fp :: acc) =
            pathReplay (node.coord + fp.opposite.coord + fp.coord) acc := rfl
        rw [hcons, opposite_coord_cancel]

/-- A reconstructed jump point path, replayed from the start coordinate,
ends at the goal coordinate (given the store invariants of a finished
search: row-major coordinates, a stamped goal node, and parentless stamped
nodes only at the start). -/
theorem make_path_jump_points_replay (w h : Nat)
    (g : Nat → SearchNode Nat) (seq : Nat) (start goal : Coord) (gi : Nat)
    (out : List Direction) (fuel : Nat)
    (hcc : ∀ i, i < w * h → (g i).coord = indexToCoord w i)
    (hss : ∀ i, i < w * h → (g i).seen = seq →
      (g i).from_parent = none → (g i).coord = start)
    (hgi : indexOfCoord w h goal = some gi)
    (hseen : (g gi).seen = seq)
    (hmk : make_path_jump_points w h g goal seq fuel = some out) :
    pathReplay start out = goal := by
  unfold make_path_jump_points at hmk
  rw [hgi] at hmk
  have hrep := make_path_jump_points_go_replay w h g seq start hcc hss fuel
    (g gi) [] out ⟨gi, indexOfCoord_lt hgi, rfl, hseen⟩ hmk
  exact hrep.trans ((hcc gi (indexOfCoord_lt hgi)).trans
    (indexToCoord_indexOfCoord hgi))

/-- Invariant of a running cardinal jump point search: the `StartLinkInv`
of the relax engine together with row-major node coordinates. -/
def JpsInv (start : Coord) (ctx : SearchContext Nat) : Prop :=
  StartLinkInv start ctx.seq ctx.width ctx.height ctx.node_grid
    ctx.priority_queue ∧
  (∀ i, i < ctx.width * ctx.height →
    (ctx.node_grid i).coord = indexToCoord ctx.width i)

/-- `see_successor` preserves `JpsInv` and the context footprint. -/
theorem see_successor_jpsInv (ctx ctx2 : SearchContext Nat) (cost : Nat)
    (sc : Coord) (d : Direction) (hf : Coord → Coord → Nat) (goal : Coord)
    (start : Coord) (hinv : JpsInv start ctx)
    (hs : ctx.see_successor cost sc d hf goal = .ok ctx2) :
    JpsInv start ctx2 ∧ ctx2.width = ctx.width ∧ ctx2.height = ctx.height ∧
      ctx2.seq = ctx.seq := by
  unfold SearchContext.see_successor at hs
  split at hs
  · exact absurd hs (by simp)
  · rename_i index hidx
    injection hs with hs
    subst hs
    refine ⟨⟨?_, ?_⟩, rfl, rfl, rfl⟩
    · dsimp only
      unfold update_node_and_priority_queue
      split
      · dsimp only
        constructor
        · intro i hlt hseen hfp
          dsimp only [setNode] at hseen hfp ⊢
          by_cases hi : i = index
          · rw [if_pos hi] at hfp
            simp at hfp
          · rw [if_neg hi] at hseen hfp ⊢
            exact hinv.1.1 i hlt hseen hfp
        · refine heapPush_pred _ _ _ ?_ ?_
          · intro y hy
            obtain ⟨hylt, hyseen⟩ := hinv.1.2 y hy
            refine ⟨hylt, ?_⟩
            dsimp only [setNode]
            by_cases hyi : y.node_index = index
            · rw [if_pos hyi]
            · rw [if_neg hyi]
              exact hyseen
          · refine ⟨indexOfCoord_lt hidx, ?_⟩
            dsimp only [setNode]
            rw [if_pos rfl]
      · dsimp only
        have hsame : ∀ j,
            setNode ctx.node_grid index (ctx.node_grid index) j =
              ctx.node_grid j := by
          intro j
          dsimp only [setNode]
          split
          · rename_i hj
            rw [hj]
          · rfl
        constructor
        · intro i hlt hseen hfp
          rw [hsame] at hseen hfp ⊢
          exact hinv.1.1 i hlt hseen hfp
        · intro e he
          obtain ⟨helt, heseen⟩ := hinv.1.2 e he
          rw [hsame]
          exact ⟨helt, heseen⟩
    · intro i hlt
      dsimp only
      unfold update_node_and_priority_queue
      split
      · dsimp only [setNode]
        by_cases hi : i = index
        · rw [if_pos hi, hi]
          exact hinv.2 index (hi ▸ hlt)
        · rw [if_neg hi]
          exact hinv.2 i hlt
      · dsimp only [setNode]
        by_cases hi : i = index
        · rw [if_pos hi, hi]
          exact hinv.2 index (hi ▸ hlt)
        · rw [if_neg hi]
          exact hinv.2 i hlt

/-- `expand` preserves `JpsInv` and the context footprint. -/
theorem expand_jpsInv (ctx ctx2 : SearchContext Nat) (grid : SolidGrid)
    (cc : Coord) (cost : Nat) (d : CardinalDirection) (goal : Coord)
    (jf : Nat) (start : Coord) (hinv : JpsInv start ctx)
    (hs : ctx.expand grid cc cost d goal jf = some (.ok ctx2)) :
    JpsInv start ctx2 ∧ ctx2.width = ctx.width ∧ ctx2.height = ctx.height ∧
      ctx2.seq = ctx.seq := by
  unfold SearchContext.expand at hs
  split at hs
  · simp at hs
  · injection hs with hs
    injection hs with hs
    subst hs
    exact ⟨hinv, rfl, rfl, rfl⟩
  · rename_i sc k hjump
    injection hs with hs
    exact see_successor_jpsInv ctx ctx2 _ sc _ _ goal start hinv hs

/-- `expandList` preserves `JpsInv` and the context footprint. -/
theorem expandList_jpsInv (grid : SolidGrid) (cc : Coord) (cost : Nat)
    (goal : Coord) (jf : Nat) (start : Coord) :
    ∀ (ds : List CardinalDirection) (ctx ctx2 : SearchContext Nat),
      JpsInv start ctx →
      ctx.expandList grid cc cost goal jf ds = some (.ok ctx2) →
      JpsInv start ctx2 ∧ ctx2.width = ctx.width ∧
        ctx2.height = ctx.height ∧ ctx2.seq = ctx.seq := by
  intro ds
  induction ds with
  | nil =>
    intro ctx ctx2 hinv hs
    simp only [SearchContext.expandList] at hs
    injection hs with hs
    injection hs with hs
    subst hs
    exact ⟨hinv, rfl, rfl, rfl⟩
  | cons d ds ih =>
    intro ctx ctx2 hinv hs
    simp only [SearchContext.expandList] at hs
    split at hs
    · simp at hs
    · simp at hs
    · rename_i ctx3 hexp
      obtain ⟨hinv3, hw3, hh3, hq3⟩ := expand_jpsInv ctx ctx3 grid cc cost d
        goal jf start hinv hexp
      obtain ⟨hinv2, hw2, hh2, hq2⟩ := ih ctx3 ctx2 hinv3 hs
      exact ⟨hinv2, hw2.trans hw3, hh2.trans hh3, hq2.trans hq3⟩

/-- If the cardinal jump point search loop succeeds, the returned path
replays from the start coordinate to the goal coordinate. -/
theorem jpsLoop_replay (grid : SolidGrid) (goal : Coord) (goal_index : Nat)
    (start : Coord) :
    ∀ (fuel : Nat) (ctx : SearchContext Nat) (num : Nat)
      (md : SearchMetadata Nat) (path : List Direction),
      JpsInv start ctx →
      indexOfCoord ctx.width ctx.height goal = some goal_index →
      (jpsCardinalLoop grid goal goal_index fuel ctx num).1 =
        some (.ok (md, path)) →
      pathReplay start path = goal := by
  intro fuel
  induction fuel with
  | zero =>
    intro ctx num md path hinv hgoal hres
    simp [jpsCardinalLoop] at hres
  | succ f ih =>
    intro ctx num md path hinv hgoal hres
    rw [jpsCardinalLoop] at hres
    split at hres
    · simp at hres
    · rename_i current_entry pq2 hpop
      have hpopped := heapPop_pred
        (fun e => e.node_index < ctx.width * ctx.height ∧
          (ctx.node_grid e.node_index).seen = ctx.seq)
        ctx.priority_queue hinv.1.2
      rw [hpop] at hpopped
      obtain ⟨hce_lt, hce_seen⟩ := hpopped.1 current_entry rfl
      have hpq2 : ∀ e ∈ pq2, e.node_index < ctx.width * ctx.height ∧
          (ctx.node_grid e.node_index).seen = ctx.seq := hpopped.2
      dsimp only at hres
      split at hres
      · rename_i hhit
        split at hres
        · simp at hres
        · rename_i path2 hmk
          simp at hres
          obtain ⟨hmd, hpath⟩ := hres
          subst hpath
          refine make_path_jump_points_replay ctx.width ctx.height
            ctx.node_grid ctx.seq start goal goal_index path2 _
            hinv.2 hinv.1.1 hgoal ?_ hmk
          rw [← hhit]
          exact hce_seen
      · split at hres
        · exact ih { ctx with priority_queue := pq2 } _ md path
            ⟨⟨hinv.1.1, hpq2⟩, hinv.2⟩ hgoal hres
        · split at hres
          · simp at hres
          · rename_i d8 hfp
            split at hres
            · simp at hres
            · rename_i direction hcard
              split at hres
              · simp at hres
              · simp at hres
              · rename_i ctx4 hexp
                have hinv3 : JpsInv start
                    { ctx with
                      priority_queue := pq2
                      node_grid := setNode ctx.node_grid
                        current_entry.node_index
                        { ctx.node_grid current_entry.node_index with
                          visited := ctx.seq } } := by
                  refine ⟨⟨?_, ?_⟩, ?_⟩
                  · intro i hlt hseen hfp2
                    dsimp only [setNode] at hseen hfp2 ⊢
                    by_cases hi : i = current_entry.node_index
                    · rw [if_pos hi] at hseen hfp2 ⊢
                      exact hinv.1.1 current_entry.node_index hce_lt hseen
                        hfp2
                    · rw [if_neg hi] at hseen hfp2 ⊢
                      exact hinv.1.1 i hlt hseen hfp2
                  · intro e he
                    obtain ⟨helt, heseen⟩ := hpq2 e he
                    refine ⟨helt, ?_⟩
                    dsimp only [setNode]
                    by_cases hei : e.node_index = current_entry.node_index
                    · rw [if_pos hei]
                      exact hce_seen
                    · rw [if_neg hei]
                      exact heseen
                  · intro i hlt
                    dsimp only [setNode]
                    by_cases hi : i = current_entry.node_index
                    · rw [if_pos hi, hi]
                      exact hinv.2 current_entry.node_index (hi ▸ hlt)
                    · rw [if_neg hi]
                      exact hinv.2 i hlt
                obtain ⟨hinv4, hw4, hh4, hq4⟩ := expandList_jpsInv grid _ _
                  goal _ start _ _ ctx4 hinv3 hexp
                refine ih ctx4 _ md path hinv4 ?_ hres
                rw [hw4, hh4]
                exact hgoal

/-- Claim C7: on a well-formed context (stamps at most the current
generation, row-major node coordinates), every successful cardinal jump
point search returns a direction sequence that, replayed step by step from
the start coordinate, ends at the goal coordinate (the reconstruction
re-walks unit steps toward each parent, re-emitting the link direction
once per cell until the first node stamped in the current generation, and
stops at the parentless start node). -/
theorem claim_C7_jps_path_replay (ctx : SearchContext Nat)
    (grid : SolidGrid) (start goal : Coord) (config : SearchConfig)
    (fuel : Nat) (md : SearchMetadata Nat) (path : List Direction)
    (hstamps : ∀ i, i < ctx.width * ctx.height →
      (ctx.node_grid i).seen ≤ ctx.seq)
    (hcoord : ∀ i, i < ctx.width * ctx.height →
      (ctx.node_grid i).coord = indexToCoord ctx.width i)
    (hres : (ctx.jump_point_search_cardinal_manhatten_distance_heuristic
      grid start goal config fuel).1 = some (.ok (md, path))) :
    pathReplay start path = goal := by
  unfold SearchContext.jump_point_search_cardinal_manhatten_distance_heuristic
    SearchContext.init at hres
  rcases hsol : grid start with _ | sol
  · rw [hsol] at hres
    simp at hres
  · rw [hsol] at hres
    dsimp only at hres
    by_cases hb : sol = true ∧ ¬config.allow_solid_start = true
    · rw [if_pos hb] at hres
      simp at hres
    · rw [if_neg hb] at hres
      rcases hidx : indexOfCoord ctx.width ctx.height start with _ | sindex
      · rw [hidx] at hres
        simp at hres
      · rw [hidx] at hres
        dsimp only at hres
        by_cases hg : start = goal
        · rw [if_pos (by simp [hg])] at hres
          simp at hres
          rw [hres.2]
          exact hg
        · rw [if_neg (by simp [hg])] at hres
          dsimp only at hres
          rcases hgi : indexOfCoord ctx.width ctx.height goal
              with _ | goal_index
          · rw [hgi] at hres
            simp at hres
          · rw [hgi] at hres
            dsimp only at hres
            split at hres
            · simp at hres
            · simp at hres
            · rename_i ctx3 hexp
              have hinit : JpsInv start
                  { ctx with
                    seq := ctx.seq + 1
                    priority_queue := []
                    node_grid := setNode ctx.node_grid sindex
                      { ctx.node_grid sindex with
                        from_parent := none
                        seen := ctx.seq + 1
                        cost := 0 } } := by
                refine ⟨⟨?_, ?_⟩, ?_⟩
                · intro i hlt hseen hfp
                  dsimp only [setNode] at hseen hfp ⊢
                  by_cases hi : i = sindex
                  · rw [if_pos hi]
                    exact (hcoord sindex (indexOfCoord_lt hidx)).trans
                      (indexToCoord_indexOfCoord hidx)
                  · rw [if_neg hi] at hseen
                    have := hstamps i hlt
                    omega
                · intro e he
                  simp at he
                · intro i hlt
                  dsimp only [setNode]
                  by_cases hi : i = sindex
                  · rw [if_pos hi, hi]
                    exact hcoord sindex (hi ▸ hlt)
                  · rw [if_neg hi]
                    exact hcoord i hlt
              obtain ⟨hinv3, hw3, hh3, hq3⟩ := expandList_jpsInv grid _ _
                goal _ start _ _ ctx3 hinit hexp
              refine jpsLoop_replay grid goal goal_index start fuel ctx3 0
                md path hinv3 ?_ hres
              rw [hw3, hh3]
              exact hgi

/-- Witness for claim C7: a successful jump point search on an open 3 × 3
grid from the corner (0,0) to (2,2) returns the path
`[east, east, south, south]`, which replays to the goal. -/
theorem claim_C7_jps_path_replay_witness :
    pathReplay ⟨0, 0⟩ [Direction.east, Direction.east, Direction.south,
      Direction.south] = (⟨2, 2⟩ : Coord) :=
  claim_C7_jps_path_replay (SearchContext.new Nat 3 3)
    (solidGridOfCells [[false, false, false], [false, false, false],
      [false, false, false]]) ⟨0, 0⟩ ⟨2, 2⟩ ⟨true⟩ 20 ⟨3, 4, 4⟩
    [Direction.east, Direction.east, Direction.south, Direction.south]
    (by decide) (by decide) (by decide)

/-- `indexOfCoord` inverts `indexToCoord` on in-bounds indices. -/
theorem indexOfCoord_indexToCoord {w h i : Nat} (hi : i < w * h) :
    indexOfCoord w h (indexToCoord w i) = some i := by
  have hw : 0 < w := by
    by_contra hcontra
    have : w = 0 := by omega
    subst this
    simp at hi
  have hx : i % w < w := Nat.mod_lt i hw
  have hy : i / w < h := Nat.div_lt_of_lt_mul (by omega)
  unfold indexOfCoord indexToCoord
  rw [if_pos]
  · simp only [Option.some.injEq, Int.toNat_natCast]
    rw [Nat.mul_comm]
    exact Nat.div_add_mod i w
  · refine ⟨Int.natCast_nonneg _, ?_, Int.natCast_nonneg _, ?_⟩
    · show ((i % w : Nat) : Int) < (w : Int)
      exact_mod_cast hx
    · show ((i / w : Nat) : Int) < (h : Int)
      exact_mod_cast hy

/-- Stepping along a direction and then opposite to it is a round trip. -/
theorem coord_opposite_cancel (a : Coord) (d : Direction) :
    a + d.coord + d.opposite.coord = a := by
  rcases a with ⟨x, y⟩
  cases d <;> simp [Direction.opposite, Direction.coord, Coord.add_def,
    Coord.mk.injEq]

/-- Pairwise relation between the node-store/open-set states of the same
query running on a used context (left, at generation `seqL`) and on a
fresh context (right, at generation `seqR`): equal open sets, row-major
coordinates on both sides, stamps agree up to the respective generation,
and the generation-stamped payload (`cost`, `from_parent`) agrees. -/
def StIso {C : Type} (w h seqL seqR : Nat)
    (stL stR : (Nat → SearchNode C) × List (PriorityEntry C)) : Prop :=
  stR.2 = stL.2 ∧
  (∀ i, i < w * h →
    (stL.1 i).coord = indexToCoord w i ∧
    (stR.1 i).coord = indexToCoord w i ∧
    ((stL.1 i).seen = seqL ↔ (stR.1 i).seen = seqR) ∧
    ((stL.1 i).visited = seqL ↔ (stR.1 i).visited = seqR) ∧
    ((stL.1 i).seen = seqL →
      (stL.1 i).cost = (stR.1 i).cost ∧
      (stL.1 i).from_parent = (stR.1 i).from_parent))

/-- Every open-set entry points at an in-bounds node stamped in the
current generation. -/
def PqStamped {C : Type} (w h seq : Nat) (g : Nat → SearchNode C)
    (pq : List (PriorityEntry C)) : Prop :=
  ∀ e ∈ pq, e.node_index < w * h ∧ (g e.node_index).seen = seq

/-- Every stamped node's parent link leads (one opposite unit step) to an
in-bounds node stamped in the current generation. -/
def PCInv {C : Type} (w h seq : Nat) (g : Nat → SearchNode C) : Prop :=
  ∀ i, i < w * h → (g i).seen = seq → ∀ d, (g i).from_parent = some d →
    ∃ j, indexOfCoord w h ((g i).coord + d.opposite.coord) = some j ∧
      (g j).seen = seq

/-- Path reconstruction reads only generation-stamped data: two stores
related by `StIso` (with the parent-chain invariant on the left)
reconstruct identical paths from any stamped in-bounds node. -/
theorem make_path_agree {C : Type} (w h seqL seqR : Nat)
    (gL gR : Nat → SearchNode C)
    (hiso : ∀ i, i < w * h →
      (gL i).coord = indexToCoord w i ∧
      (gR i).coord = indexToCoord w i ∧
      ((gL i).seen = seqL ↔ (gR i).seen = seqR) ∧
      ((gL i).seen = seqL → (gL i).from_parent = (gR i).from_parent))
    (hpc : PCInv w h seqL gL) :
    ∀ (fuel index : Nat) (acc : List Direction), index < w * h →
      (gL index).seen = seqL →
      make_path_all_adjacent w h (fun i => (gL i).from_parent)
        (fun i => (gL i).coord) fuel index acc =
      make_path_all_adjacent w h (fun i => (gR i).from_parent)
        (fun i => (gR i).coord) fuel index acc := by
  intro fuel
  induction fuel with
  | zero =>
    intro index acc hlt hseen
    rfl
  | succ f ih =>
    intro index acc hlt hseen
    obtain ⟨hcoL, hcoR, hseeniff, hfp⟩ := hiso index hlt
    rw [make_path_all_adjacent, make_path_all_adjacent]
    rw [← hfp hseen]
    rcases hfpi : (gL index).from_parent with _ | d
    · rfl
    · dsimp only
      rw [hcoR, ← hcoL]
      obtain ⟨j, hj, hjseen⟩ := hpc index hlt hseen d hfpi
      rw [hj]
      exact ih j (d :: acc) (indexOfCoord_lt hj) hjseen

/-- Point update, read back at the written index. -/
theorem setNode_same {C : Type} (g : Nat → SearchNode C) (i : Nat)
    (n : SearchNode C) : setNode g i n i = n := by
  dsimp only [setNode]
  rw [if_pos rfl]

/-- Point update, read back elsewhere. -/
theorem setNode_other {C : Type} (g : Nat → SearchNode C) (i j : Nat)
    (n : SearchNode C) (h : j ≠ i) : setNode g i n j = g j := by
  dsimp only [setNode]
  rw [if_neg h]

/-- Overwriting a cell with its own value changes nothing. -/
theorem setNode_self {C : Type} (g : Nat → SearchNode C) (i j : Nat) :
    setNode g i (g i) j = g j := by
  dsimp only [setNode]
  split
  · rename_i hj
    rw [hj]
  · rfl

/-- The relax write (`update_node_and_priority_queue`) acts identically on
two `StIso`-related states: the guard reads `cost` only behind a stamp
check, so both runs take the same branch, write the same payload and push
the same entry; the step preserves `StIso`, the stamped open set, the
parent-chain invariant and existing stamps. -/
theorem update_iso {C : Type} [LinearOrder C] [Add C] [Inhabited C]
    (w h index : Nat) (cst : C) (nc : Coord) (d : Direction)
    (seqL seqR : Nat) (hf : Coord → Coord → C) (goal : Coord)
    (stL stR : (Nat → SearchNode C) × List (PriorityEntry C))
    (hiso : StIso w h seqL seqR stL stR)
    (hpq : PqStamped w h seqL stL.1 stL.2)
    (hpc : PCInv w h seqL stL.1)
    (hlt : index < w * h)
    (hncoord : indexToCoord w index = nc)
    (hpar : ∃ j, indexOfCoord w h (nc + d.opposite.coord) = some j ∧
      (stL.1 j).seen = seqL) :
    StIso w h seqL seqR
      (setNode stL.1 index (update_node_and_priority_queue index cst nc d
        seqL hf goal (stL.1 index) stL.2).1,
       (update_node_and_priority_queue index cst nc d seqL hf goal
        (stL.1 index) stL.2).2)
      (setNode stR.1 index (update_node_and_priority_queue index cst nc d
        seqR hf goal (stR.1 index) stR.2).1,
       (update_node_and_priority_queue index cst nc d seqR hf goal
        (stR.1 index) stR.2).2) ∧
    PqStamped w h seqL
      (setNode stL.1 index (update_node_and_priority_queue index cst nc d
        seqL hf goal (stL.1 index) stL.2).1)
      (update_node_and_priority_queue index cst nc d seqL hf goal
        (stL.1 index) stL.2).2 ∧
    PCInv w h seqL
      (setNode stL.1 index (update_node_and_priority_queue index cst nc d
        seqL hf goal (stL.1 index) stL.2).1) ∧
    (∀ i, (stL.1 i).seen = seqL →
      ((setNode stL.1 index (update_node_and_priority_queue index cst nc d
        seqL hf goal (stL.1 index) stL.2).1) i).seen = seqL) := by
  obtain ⟨hpqeq, hiso2⟩ := hiso
  obtain ⟨hcoL, hcoR, hsiff, hviff, hpay⟩ := hiso2 index hlt
  have hcondiff : ((stR.1 index).seen ≠ seqR ∨ (stR.1 index).cost > cst) ↔
      ((stL.1 index).seen ≠ seqL ∨ (stL.1 index).cost > cst) := by
    by_cases hs : (stL.1 index).seen = seqL
    · have hsR : (stR.1 index).seen = seqR := hsiff.mp hs
      have hcosteq := (hpay hs).1
      constructor
      · rintro (hne | hgt)
        · exact absurd hsR hne
        · exact Or.inr (by rw [hcosteq]; exact hgt)
      · rintro (hne | hgt)
        · exact absurd hs hne
        · exact Or.inr (by rw [← hcosteq]; exact hgt)
    · have hsR : ¬(stR.1 index).seen = seqR := fun hh => hs (hsiff.mpr hh)
      exact ⟨fun _ => Or.inl hs, fun _ => Or.inl hsR⟩
  unfold update_node_and_priority_queue
  by_cases hcond : (stL.1 index).seen ≠ seqL ∨ (stL.1 index).cost > cst
  · rw [if_pos hcond, if_pos (hcondiff.mpr hcond)]
    refine ⟨⟨?_, ?_⟩, ?_, ?_, ?_⟩
    · dsimp only
      rw [hpqeq]
    · intro i hi
      dsimp only
      by_cases hii : i = index
      · subst hii
        rw [setNode_same, setNode_same]
        exact ⟨hcoL, hcoR, by simp, hviff, fun _ => ⟨rfl, rfl⟩⟩
      · rw [setNode_other _ _ _ _ hii, setNode_other _ _ _ _ hii]
        exact hiso2 i hi
    · intro e he
      dsimp only at he ⊢
      refine heapPush_pred
        (fun y => y.node_index < w * h ∧
          (setNode stL.1 index
            ⟨seqL, (stL.1 index).visited, (stL.1 index).coord, some d, cst⟩
            y.node_index).seen = seqL)
        stL.2 _ ?_ ?_ e he
      · intro y hy
        obtain ⟨hylt, hyseen⟩ := hpq y hy
        refine ⟨hylt, ?_⟩
        by_cases hyi : y.node_index = index
        · rw [hyi, setNode_same]
        · rw [setNode_other _ _ _ _ hyi]
          exact hyseen
      · refine ⟨hlt, ?_⟩
        rw [setNode_same]
    · intro i hi hseen d2 hfp2
      dsimp only at hseen hfp2 ⊢
      by_cases hii : i = index
      · subst hii
        rw [setNode_same] at hfp2 ⊢
        have hd2 : d2 = d := by
          have := hfp2
          simp at this
          exact this.symm
        subst hd2
        obtain ⟨j, hj, hjs⟩ := hpar
        refine ⟨j, ?_, ?_⟩
        · show indexOfCoord w h ((stL.1 i).coord + d2.opposite.coord) =
            some j
          rw [hcoL, hncoord]
          exact hj
        · by_cases hji : j = i
          · rw [hji, setNode_same]
          · rw [setNode_other _ _ _ _ hji]
            exact hjs
      · rw [setNode_other _ _ _ _ hii] at hfp2 ⊢
        have hseen2 : (stL.1 i).seen = seqL := by
          rw [setNode_other _ _ _ _ hii] at hseen
          exact hseen
        obtain ⟨j, hj, hjs⟩ := hpc i hi hseen2 d2 hfp2
        refine ⟨j, hj, ?_⟩
        by_cases hji : j = index
        · rw [hji, setNode_same]
        · rw [setNode_other _ _ _ _ hji]
          exact hjs
    · intro i hseen
      dsimp only
      by_cases hii : i = index
      · rw [hii, setNode_same]
      · rw [setNode_other _ _ _ _ hii]
        exact hseen
  · rw [if_neg hcond, if_neg (fun hh => hcond (hcondiff.mp hh))]
    refine ⟨⟨?_, ?_⟩, ?_, ?_, ?_⟩
    · dsimp only
      exact hpqeq
    · intro i hi
      dsimp only
      rw [setNode_self, setNode_self]
      exact hiso2 i hi
    · intro e he
      dsimp only at he ⊢
      obtain ⟨helt, heseen⟩ := hpq e he
      rw [setNode_self]
      exact ⟨helt, heseen⟩
    · intro i hi hseen d2 hfp2
      dsimp only at hseen hfp2 ⊢
      rw [setNode_self] at hseen hfp2 ⊢
      obtain ⟨j, hj, hjs⟩ := hpc i hi hseen d2 hfp2
      refine ⟨j, hj, ?_⟩
      rw [setNode_self]
      exact hjs
    · intro i hseen
      dsimp only
      rw [setNode_self]
      exact hseen

/-- One relaxation behaves identically on two `StIso`-related states: it
fails with the same error or succeeds with related states (and never
unstamps a node). -/
theorem relaxOne_iso {C : Type} [LinearOrder C] [Add C] [Inhabited C]
    (grid : CostGrid C) (goal : Coord) (hf : Coord → Coord → C)
    (w h seqL seqR : Nat) (cc : Coord) (cost : C)
    (stL stR : (Nat → SearchNode C) × List (PriorityEntry C))
    (d : Direction) (pidx : Nat)
    (hiso : StIso w h seqL seqR stL stR)
    (hpq : PqStamped w h seqL stL.1 stL.2)
    (hpc : PCInv w h seqL stL.1)
    (hcc : indexOfCoord w h cc = some pidx)
    (hpseen : (stL.1 pidx).seen = seqL) :
    (∀ e, relaxOne grid goal hf w h seqL cc cost stL d = .error e →
      relaxOne grid goal hf w h seqR cc cost stR d = .error e) ∧
    (∀ stL2, relaxOne grid goal hf w h seqL cc cost stL d = .ok stL2 →
      ∃ stR2, relaxOne grid goal hf w h seqR cc cost stR d = .ok stR2 ∧
        StIso w h seqL seqR stL2 stR2 ∧
        PqStamped w h seqL stL2.1 stL2.2 ∧
        PCInv w h seqL stL2.1 ∧
        (∀ i, (stL.1 i).seen = seqL → (stL2.1 i).seen = seqL)) := by
  rcases hcost : grid.cost (cc + d.coord) d with _ | cell
  · constructor
    · intro e he
      simp [relaxOne, hcost] at he
    · intro stL2 hok
      simp only [relaxOne, hcost] at hok ⊢
      injection hok with hok
      subst hok
      exact ⟨stR, rfl, hiso, hpq, hpc, fun i hi => hi⟩
  · rcases cell with _ | cst0
    · constructor
      · intro e he
        simp [relaxOne, hcost] at he
      · intro stL2 hok
        simp only [relaxOne, hcost] at hok ⊢
        injection hok with hok
        subst hok
        exact ⟨stR, rfl, hiso, hpq, hpc, fun i hi => hi⟩
    · rcases hidx2 : indexOfCoord w h (cc + d.coord) with _ | index
      · constructor
        · intro e he
          simp only [relaxOne, hcost, hidx2] at he ⊢
          exact he
        · intro stL2 hok
          simp only [relaxOne, hcost, hidx2] at hok
          exact absurd hok (by simp)
      · constructor
        · intro e he
          simp only [relaxOne, hcost, hidx2] at he
          exact absurd he (by simp)
        · intro stL2 hok
          simp only [relaxOne, hcost, hidx2] at hok ⊢
          injection hok with hok
          subst hok
          have hpar : ∃ j,
              indexOfCoord w h (cc + d.coord + d.opposite.coord) = some j ∧
                (stL.1 j).seen = seqL := by
            refine ⟨pidx, ?_, hpseen⟩
            rw [coord_opposite_cancel]
            exact hcc
          obtain ⟨hiso2, hpq2, hpc2, hmono⟩ := update_iso w h index
            (cost + cst0) (cc + d.coord) d seqL seqR hf goal stL stR hiso
            hpq hpc (indexOfCoord_lt hidx2)
            (indexToCoord_indexOfCoord hidx2) hpar
          exact ⟨_, rfl, hiso2, hpq2, hpc2, fun i hi => hmono i hi⟩

/-- Sequential relaxation over a direction list behaves identically on two
`StIso`-related states. -/
theorem relaxAll_iso {C : Type} [LinearOrder C] [Add C] [Inhabited C]
    (grid : CostGrid C) (goal : Coord) (hf : Coord → Coord → C)
    (w h seqL seqR : Nat) (cc : Coord) (cost : C) (pidx : Nat)
    (hcc : indexOfCoord w h cc = some pidx) :
    ∀ (ds : List Direction)
      (stL stR : (Nat → SearchNode C) × List (PriorityEntry C)),
      StIso w h seqL seqR stL stR →
      PqStamped w h seqL stL.1 stL.2 →
      PCInv w h seqL stL.1 →
      (stL.1 pidx).seen = seqL →
      (∀ e, relaxAll grid goal hf w h seqL cc cost ds stL = .error e →
        relaxAll grid goal hf w h seqR cc cost ds stR = .error e) ∧
      (∀ stL2, relaxAll grid goal hf w h seqL cc cost ds stL = .ok stL2 →
        ∃ stR2, relaxAll grid goal hf w h seqR cc cost ds stR = .ok stR2 ∧
          StIso w h seqL seqR stL2 stR2 ∧
          PqStamped w h seqL stL2.1 stL2.2 ∧
          PCInv w h seqL stL2.1) := by
  intro ds
  induction ds with
  | nil =>
    intro stL stR hiso hpq hpc hpseen
    constructor
    · intro e he
      simp [relaxAll] at he
    · intro stL2 hok
      simp only [relaxAll] at hok ⊢
      injection hok with hok
      subst hok
      exact ⟨stR, rfl, hiso, hpq, hpc⟩
  | cons d ds ih =>
    intro stL stR hiso hpq hpc hpseen
    obtain ⟨hone_err, hone_ok⟩ := relaxOne_iso grid goal hf w h seqL seqR
      cc cost stL stR d pidx hiso hpq hpc hcc hpseen
    constructor
    · intro e he
      rw [relaxAll] at he ⊢
      split at he
      · rename_i e2 herr
        injection he with he
        subst he
        rw [hone_err e2 herr]
      · rename_i stL3 hok3
        obtain ⟨stR3, hRok, hiso3, hpq3, hpc3, hmono3⟩ := hone_ok stL3 hok3
        rw [hRok]
        exact (ih stL3 stR3 hiso3 hpq3 hpc3 (hmono3 pidx hpseen)).1 e he
    · intro stL2 hok
      rw [relaxAll] at hok ⊢
      split at hok
      · simp at hok
      · rename_i stL3 hok3
        obtain ⟨stR3, hRok, hiso3, hpq3, hpc3, hmono3⟩ := hone_ok stL3 hok3
        rw [hRok]
        exact (ih stL3 stR3 hiso3 hpq3 hpc3 (hmono3 pidx hpseen)).2 stL2 hok

/-- Generation isolation of the relax loop: the same query produces the
same visible result (error or success, metadata and path) on two
`StIso`-related contexts — every `cost`/`from_parent` read happens behind
a stamp check, so stale data never influences the run. -/
theorem searchLoop_iso {C : Type} [LinearOrder C] [Add C] [Inhabited C]
    (grid : CostGrid C) (predicate : Coord → Bool) (dirs : List Direction)
    (hf : Coord → Coord → C) (goal : Coord) :
    ∀ (fuel : Nat) (ctxL ctxR : SearchContext C) (num : Nat),
      ctxR.width = ctxL.width → ctxR.height = ctxL.height →
      StIso ctxL.width ctxL.height ctxL.seq ctxR.seq
        (ctxL.node_grid, ctxL.priority_queue)
        (ctxR.node_grid, ctxR.priority_queue) →
      PqStamped ctxL.width ctxL.height ctxL.seq ctxL.node_grid
        ctxL.priority_queue →
      PCInv ctxL.width ctxL.height ctxL.seq ctxL.node_grid →
      (searchLoop grid predicate dirs hf goal fuel ctxL num).1 =
        (searchLoop grid predicate dirs hf goal fuel ctxR num).1 := by
  intro fuel
  induction fuel with
  | zero =>
    intro ctxL ctxR num hw hh hiso hpq hpc
    rfl
  | succ f ih =>
    intro ctxL ctxR num hw hh hiso hpq hpc
    obtain ⟨hpqeq, hiso2⟩ := hiso
    rw [searchLoop, searchLoop, hw, hh]
    have hpqe : ctxR.priority_queue = ctxL.priority_queue := hpqeq
    rw [hpqe]
    split
    · rfl
    · rename_i ce pq2 hpop
      have hpopped := heapPop_pred
        (fun e => e.node_index < ctxL.width * ctxL.height ∧
          (ctxL.node_grid e.node_index).seen = ctxL.seq)
        ctxL.priority_queue hpq
      rw [hpop] at hpopped
      obtain ⟨hce_lt, hce_seen⟩ := hpopped.1 ce rfl
      have hpq2 : PqStamped ctxL.width ctxL.height ctxL.seq ctxL.node_grid
          pq2 := hpopped.2
      obtain ⟨hcoL, hcoR, hsiff, hviff, hpay⟩ := hiso2 ce.node_index hce_lt
      dsimp only
      by_cases hvis : (ctxL.node_grid ce.node_index).visited = ctxL.seq
      · rw [if_pos hvis, if_pos (hviff.mp hvis)]
        exact ih _ _ (num + 1) rfl rfl ⟨rfl, hiso2⟩ hpq2 hpc
      · rw [if_neg hvis, if_neg (fun hh2 => hvis (hviff.mpr hh2))]
        have hagree : ∀ i, i < ctxL.width * ctxL.height →
            ((setNode ctxL.node_grid ce.node_index
              ⟨(ctxL.node_grid ce.node_index).seen, ctxL.seq, (ctxL.node_grid ce.node_index).coord, (ctxL.node_grid ce.node_index).from_parent, (ctxL.node_grid ce.node_index).cost⟩ i).coord = indexToCoord ctxL.width i ∧
            (setNode ctxR.node_grid ce.node_index
              ⟨(ctxR.node_grid ce.node_index).seen, ctxR.seq, (ctxR.node_grid ce.node_index).coord, (ctxR.node_grid ce.node_index).from_parent, (ctxR.node_grid ce.node_index).cost⟩ i).coord = indexToCoord ctxL.width i ∧
            ((setNode ctxL.node_grid ce.node_index
              ⟨(ctxL.node_grid ce.node_index).seen, ctxL.seq, (ctxL.node_grid ce.node_index).coord, (ctxL.node_grid ce.node_index).from_parent, (ctxL.node_grid ce.node_index).cost⟩ i).seen = ctxL.seq ↔
              (setNode ctxR.node_grid ce.node_index
                ⟨(ctxR.node_grid ce.node_index).seen, ctxR.seq, (ctxR.node_grid ce.node_index).coord, (ctxR.node_grid ce.node_index).from_parent, (ctxR.node_grid ce.node_index).cost⟩ i).seen = ctxR.seq) ∧
            ((setNode ctxL.node_grid ce.node_index
              ⟨(ctxL.node_grid ce.node_index).seen, ctxL.seq, (ctxL.node_grid ce.node_index).coord, (ctxL.node_grid ce.node_index).from_parent, (ctxL.node_grid ce.node_index).cost⟩ i).visited = ctxL.seq ↔
              (setNode ctxR.node_grid ce.node_index
                ⟨(ctxR.node_grid ce.node_index).seen, ctxR.seq, (ctxR.node_grid ce.node_index).coord, (ctxR.node_grid ce.node_index).from_parent, (ctxR.node_grid ce.node_index).cost⟩ i).visited = ctxR.seq) ∧
            ((setNode ctxL.node_grid ce.node_index
              ⟨(ctxL.node_grid ce.node_index).seen, ctxL.seq, (ctxL.node_grid ce.node_index).coord, (ctxL.node_grid ce.node_index).from_parent, (ctxL.node_grid ce.node_index).cost⟩ i).seen = ctxL.seq →
              (setNode ctxL.node_grid ce.node_index
                ⟨(ctxL.node_grid ce.node_index).seen, ctxL.seq, (ctxL.node_grid ce.node_index).coord, (ctxL.node_grid ce.node_index).from_parent, (ctxL.node_grid ce.node_index).cost⟩ i).cost =
                (setNode ctxR.node_grid ce.node_index
                  ⟨(ctxR.node_grid ce.node_index).seen, ctxR.seq, (ctxR.node_grid ce.node_index).coord, (ctxR.node_grid ce.node_index).from_parent, (ctxR.node_grid ce.node_index).cost⟩ i).cost ∧
              (setNode ctxL.node_grid ce.node_index
                ⟨(ctxL.node_grid ce.node_index).seen, ctxL.seq, (ctxL.node_grid ce.node_index).coord, (ctxL.node_grid ce.node_index).from_parent, (ctxL.node_grid ce.node_index).cost⟩ i).from_parent =
                (setNode ctxR.node_grid ce.node_index
                  ⟨(ctxR.node_grid ce.node_index).seen, ctxR.seq, (ctxR.node_grid ce.node_index).coord, (ctxR.node_grid ce.node_index).from_parent, (ctxR.node_grid ce.node_index).cost⟩ i).from_parent)) := by
          intro i hi
          obtain ⟨hcoL2, hcoR2, hsiff2, hviff2, hpay2⟩ := hiso2 i hi
          by_cases hii : i = ce.node_index
          · rw [hii, setNode_same, setNode_same]
            refine ⟨hcoL, hcoR, hsiff, by simp, fun hs => hpay hs⟩
          · rw [setNode_other _ _ _ _ hii, setNode_other _ _ _ _ hii]
            exact ⟨hcoL2, hcoR2, hsiff2, hviff2, hpay2⟩
        have hpc3 : PCInv ctxL.width ctxL.height ctxL.seq
            (setNode ctxL.node_grid ce.node_index
              ⟨(ctxL.node_grid ce.node_index).seen, ctxL.seq, (ctxL.node_grid ce.node_index).coord, (ctxL.node_grid ce.node_index).from_parent, (ctxL.node_grid ce.node_index).cost⟩) := by
          intro i hi hseen d2 hfp2
          by_cases hii : i = ce.node_index
          · rw [hii, setNode_same] at hseen hfp2 ⊢
            obtain ⟨j, hj, hjs⟩ := hpc ce.node_index hce_lt hseen d2 hfp2
            refine ⟨j, hj, ?_⟩
            by_cases hji : j = ce.node_index
            · rw [hji] at hjs
              rw [hji, setNode_same]
              exact hjs
            · rw [setNode_other _ _ _ _ hji]
              exact hjs
          · rw [setNode_other _ _ _ _ hii] at hseen hfp2 ⊢
            obtain ⟨j, hj, hjs⟩ := hpc i hi hseen d2 hfp2
            refine ⟨j, hj, ?_⟩
            by_cases hji : j = ce.node_index
            · rw [hji] at hjs
              rw [hji, setNode_same]
              exact hjs
            · rw [setNode_other _ _ _ _ hji]
              exact hjs
        have hpq3 : PqStamped ctxL.width ctxL.height ctxL.seq
            (setNode ctxL.node_grid ce.node_index
              ⟨(ctxL.node_grid ce.node_index).seen, ctxL.seq, (ctxL.node_grid ce.node_index).coord, (ctxL.node_grid ce.node_index).from_parent, (ctxL.node_grid ce.node_index).cost⟩) pq2 := by
          intro e he
          obtain ⟨helt, heseen⟩ := hpq2 e he
          refine ⟨helt, ?_⟩
          by_cases hei : e.node_index = ce.node_index
          · rw [hei, setNode_same]
            exact hce_seen
          · rw [setNode_other _ _ _ _ hei]
            exact heseen
        have hpredR : predicate (ctxR.node_grid ce.node_index).coord =
            predicate (ctxL.node_grid ce.node_index).coord := by
          rw [hcoR, ← hcoL]
        by_cases hpred : predicate (ctxL.node_grid ce.node_index).coord =
            true
        · rw [if_pos hpred, if_pos (by rw [hpredR]; exact hpred)]
          have hmk := make_path_agree ctxL.width ctxL.height ctxL.seq
            ctxR.seq
            (setNode ctxL.node_grid ce.node_index
              ⟨(ctxL.node_grid ce.node_index).seen, ctxL.seq, (ctxL.node_grid ce.node_index).coord, (ctxL.node_grid ce.node_index).from_parent, (ctxL.node_grid ce.node_index).cost⟩)
            (setNode ctxR.node_grid ce.node_index
              ⟨(ctxR.node_grid ce.node_index).seen, ctxR.seq, (ctxR.node_grid ce.node_index).coord, (ctxR.node_grid ce.node_index).from_parent, (ctxR.node_grid ce.node_index).cost⟩)
            (fun i hi => ⟨(hagree i hi).1, (hagree i hi).2.1,
              (hagree i hi).2.2.1,
              fun hs => ((hagree i hi).2.2.2.2 hs).2⟩)
            hpc3 (ctxL.width * ctxL.height + 1) ce.node_index []
            hce_lt (by rw [setNode_same]; exact hce_seen)
          rw [← hmk]
          rcases hmp : make_path_all_adjacent ctxL.width ctxL.height
              (fun i => ((setNode ctxL.node_grid ce.node_index
                ⟨(ctxL.node_grid ce.node_index).seen, ctxL.seq, (ctxL.node_grid ce.node_index).coord, (ctxL.node_grid ce.node_index).from_parent, (ctxL.node_grid ce.node_index).cost⟩) i).from_parent)
              (fun i => ((setNode ctxL.node_grid ce.node_index
                ⟨(ctxL.node_grid ce.node_index).seen, ctxL.seq, (ctxL.node_grid ce.node_index).coord, (ctxL.node_grid ce.node_index).from_parent, (ctxL.node_grid ce.node_index).cost⟩) i).coord)
              (ctxL.width * ctxL.height + 1) ce.node_index []
              with _ | path
          · rfl
          · dsimp only
            have hpay2 : (ctxL.node_grid ce.node_index).cost =
                (ctxR.node_grid ce.node_index).cost := (hpay hce_seen).1
            rw [hpay2]
        · rw [if_neg hpred, if_neg (by rw [hpredR]; exact hpred)]
          have hccL : indexOfCoord ctxL.width ctxL.height
              (ctxL.node_grid ce.node_index).coord = some ce.node_index := by
            rw [hcoL]
            exact indexOfCoord_indexToCoord hce_lt
          have hra := relaxAll_iso grid goal hf ctxL.width ctxL.height
            ctxL.seq ctxR.seq (ctxL.node_grid ce.node_index).coord
            (ctxL.node_grid ce.node_index).cost ce.node_index hccL dirs
            (setNode ctxL.node_grid ce.node_index
              ⟨(ctxL.node_grid ce.node_index).seen, ctxL.seq, (ctxL.node_grid ce.node_index).coord, (ctxL.node_grid ce.node_index).from_parent, (ctxL.node_grid ce.node_index).cost⟩,
              pq2)
            (setNode ctxR.node_grid ce.node_index
              ⟨(ctxR.node_grid ce.node_index).seen, ctxR.seq, (ctxR.node_grid ce.node_index).coord, (ctxR.node_grid ce.node_index).from_parent, (ctxR.node_grid ce.node_index).cost⟩,
              pq2)
            ⟨rfl, hagree⟩ hpq3 hpc3
            (by dsimp only; rw [setNode_same]; exact hce_seen)
          have hcoRL : (ctxR.node_grid ce.node_index).coord =
              (ctxL.node_grid ce.node_index).coord := hcoR.trans hcoL.symm
          have hcostRL : (ctxR.node_grid ce.node_index).cost =
              (ctxL.node_grid ce.node_index).cost := ((hpay hce_seen).1).symm
          have hReq : relaxAll grid goal hf ctxL.width ctxL.height ctxR.seq
              (ctxR.node_grid ce.node_index).coord
              (ctxR.node_grid ce.node_index).cost dirs
              (setNode ctxR.node_grid ce.node_index
                ⟨(ctxR.node_grid ce.node_index).seen, ctxR.seq, (ctxR.node_grid ce.node_index).coord, (ctxR.node_grid ce.node_index).from_parent, (ctxR.node_grid ce.node_index).cost⟩,
                pq2) =
              relaxAll grid goal hf ctxL.width ctxL.height ctxR.seq
              (ctxL.node_grid ce.node_index).coord
              (ctxL.node_grid ce.node_index).cost dirs
              (setNode ctxR.node_grid ce.node_index
                ⟨(ctxR.node_grid ce.node_index).seen, ctxR.seq, (ctxR.node_grid ce.node_index).coord, (ctxR.node_grid ce.node_index).from_parent, (ctxR.node_grid ce.node_index).cost⟩,
                pq2) := by
            rw [hcoRL, hcostRL]
          rw [hReq]
          rcases hrel : relaxAll grid goal hf ctxL.width ctxL.height
              ctxL.seq (ctxL.node_grid ce.node_index).coord
              (ctxL.node_grid ce.node_index).cost dirs
              (setNode ctxL.node_grid ce.node_index
                ⟨(ctxL.node_grid ce.node_index).seen, ctxL.seq, (ctxL.node_grid ce.node_index).coord, (ctxL.node_grid ce.node_index).from_parent, (ctxL.node_grid ce.node_index).cost⟩,
                pq2) with e | stL2
          · rw [hra.1 e hrel]
          · obtain ⟨stR2, hRok, hiso4, hpq4, hpc4⟩ := hra.2 stL2 hrel
            rw [hRok]
            dsimp only
            exact ih _ _ (num + 1) rfl rfl hiso4 hpq4 hpc4

/-- Well-formedness of a reusable context between queries: every stamp is
at most the current generation and node coordinates are row-major. A fresh
context is well formed, and (shown below) every query preserves it. -/
def WellFormedCtx {C : Type} (ctx : SearchContext C) : Prop :=
  ∀ i, i < ctx.width * ctx.height →
    (ctx.node_grid i).seen ≤ ctx.seq ∧
    (ctx.node_grid i).visited ≤ ctx.seq ∧
    (ctx.node_grid i).coord = indexToCoord ctx.width i

/-- One relaxation never writes a stamp beyond the current generation and
never moves a node. -/
theorem relaxOne_wf {C : Type} [LinearOrder C] [Add C] [Inhabited C]
    (grid : CostGrid C) (goal : Coord) (hf : Coord → Coord → C)
    (w h seq : Nat) (cc : Coord) (cost : C)
    (st st2 : (Nat → SearchNode C) × List (PriorityEntry C)) (d : Direction)
    (hwf : ∀ i, i < w * h → (st.1 i).seen ≤ seq ∧ (st.1 i).visited ≤ seq ∧
      (st.1 i).coord = indexToCoord w i)
    (hok : relaxOne grid goal hf w h seq cc cost st d = .ok st2) :
    ∀ i, i < w * h → (st2.1 i).seen ≤ seq ∧ (st2.1 i).visited ≤ seq ∧
      (st2.1 i).coord = indexToCoord w i := by
  unfold relaxOne at hok
  dsimp only at hok
  split at hok
  · split at hok
    · exact absurd hok (by simp)
    · rename_i index hidx
      injection hok with hok
      subst hok
      intro i hi
      dsimp only
      unfold update_node_and_priority_queue
      split
      · dsimp only
        by_cases hii : i = index
        · rw [hii, setNode_same]
          obtain ⟨h1, h2, h3⟩ := hwf index (indexOfCoord_lt hidx)
          exact ⟨le_refl _, h2, hii ▸ h3⟩
        · rw [setNode_other _ _ _ _ hii]
          exact hwf i hi
      · dsimp only
        rw [setNode_self]
        exact hwf i hi
  · injection hok with hok
    subst hok
    exact hwf

/-- Sequential relaxation never writes a stamp beyond the current
generation and never moves a node. -/
theorem relaxAll_wf {C : Type} [LinearOrder C] [Add C] [Inhabited C]
    (grid : CostGrid C) (goal : Coord) (hf : Coord → Coord → C)
    (w h seq : Nat) (cc : Coord) (cost : C) :
    ∀ (ds : List Direction)
      (st st2 : (Nat → SearchNode C) × List (PriorityEntry C)),
      (∀ i, i < w * h → (st.1 i).seen ≤ seq ∧ (st.1 i).visited ≤ seq ∧
        (st.1 i).coord = indexToCoord w i) →
      relaxAll grid goal hf w h seq cc cost ds st = .ok st2 →
      ∀ i, i < w * h → (st2.1 i).seen ≤ seq ∧ (st2.1 i).visited ≤ seq ∧
        (st2.1 i).coord = indexToCoord w i := by
  intro ds
  induction ds with
  | nil =>
    intro st st2 hwf hok
    simp only [relaxAll] at hok
    injection hok with hok
    subst hok
    exact hwf
  | cons d ds ih =>
    intro st st2 hwf hok
    simp only [relaxAll] at hok
    split at hok
    · exact absurd hok (by simp)
    · rename_i st3 hone
      exact ih st3 st2 (relaxOne_wf grid goal hf w h seq cc cost st st3 d
        hwf hone) hok

/-- The relax loop keeps the context footprint and generation, and keeps
the store well formed (stamps at most the generation, row-major
coordinates). -/
theorem searchLoop_wf {C : Type} [LinearOrder C] [Add C] [Inhabited C]
    (grid : CostGrid C) (predicate : Coord → Bool) (dirs : List Direction)
    (hf : Coord → Coord → C) (goal : Coord) :
    ∀ (fuel : Nat) (ctx : SearchContext C) (num : Nat),
      (∀ i, i < ctx.width * ctx.height → (ctx.node_grid i).seen ≤ ctx.seq ∧
        (ctx.node_grid i).visited ≤ ctx.seq ∧
        (ctx.node_grid i).coord = indexToCoord ctx.width i) →
      (searchLoop grid predicate dirs hf goal fuel ctx num).2.width =
        ctx.width ∧
      (searchLoop grid predicate dirs hf goal fuel ctx num).2.height =
        ctx.height ∧
      (searchLoop grid predicate dirs hf goal fuel ctx num).2.seq =
        ctx.seq ∧
      (∀ i, i < ctx.width * ctx.height →
        ((searchLoop grid predicate dirs hf goal fuel ctx
          num).2.node_grid i).seen ≤ ctx.seq ∧
        ((searchLoop grid predicate dirs hf goal fuel ctx
          num).2.node_grid i).visited ≤ ctx.seq ∧
        ((searchLoop grid predicate dirs hf goal fuel ctx
          num).2.node_grid i).coord = indexToCoord ctx.width i) := by
  intro fuel
  induction fuel with
  | zero =>
    intro ctx num hwf
    exact ⟨rfl, rfl, rfl, hwf⟩
  | succ f ih =>
    intro ctx num hwf
    rw [searchLoop]
    split
    · exact ⟨rfl, rfl, rfl, hwf⟩
    · rename_i ce pq2 hpop
      dsimp only
      split
      · exact ih _ (num + 1) hwf
      · have hwf3 : ∀ i, i < ctx.width * ctx.height →
            ((setNode ctx.node_grid ce.node_index
              ⟨(ctx.node_grid ce.node_index).seen, ctx.seq, (ctx.node_grid ce.node_index).coord, (ctx.node_grid ce.node_index).from_parent, (ctx.node_grid ce.node_index).cost⟩) i).seen ≤ ctx.seq ∧
            ((setNode ctx.node_grid ce.node_index
              ⟨(ctx.node_grid ce.node_index).seen, ctx.seq, (ctx.node_grid ce.node_index).coord, (ctx.node_grid ce.node_index).from_parent, (ctx.node_grid ce.node_index).cost⟩) i).visited ≤ ctx.seq ∧
            ((setNode ctx.node_grid ce.node_index
              ⟨(ctx.node_grid ce.node_index).seen, ctx.seq, (ctx.node_grid ce.node_index).coord, (ctx.node_grid ce.node_index).from_parent, (ctx.node_grid ce.node_index).cost⟩) i).coord = indexToCoord ctx.width i := by
          intro i hi
          obtain ⟨h1, h2, h3⟩ := hwf i hi
          by_cases hii : i = ce.node_index
          · rw [hii, setNode_same]
            obtain ⟨h4, h5, h6⟩ :=
              hwf i hi
            refine ⟨?_, le_refl _, ?_⟩
            · rw [← hii]
              exact h1
            · rw [← hii]
              exact h3
          · rw [setNode_other _ _ _ _ hii]
            exact ⟨h1, h2, h3⟩
        split
        · split
          · exact ⟨rfl, rfl, rfl, hwf3⟩
          · exact ⟨rfl, rfl, rfl, hwf3⟩
        · split
          · exact ⟨rfl, rfl, rfl, hwf3⟩
          · rename_i st hrel
            exact ih _ (num + 1)
              (relaxAll_wf grid goal hf ctx.width ctx.height ctx.seq _ _
                dirs _ st hwf3 hrel)

/-- Claim C9 (generation isolation): on a well-formed context (stamps at
most the current generation, row-major coordinates — true of a fresh
context and preserved by every query, giving the second conjunct), a query
returns exactly the result it would return on a freshly constructed
context of the same footprint: node `cost`/`from_parent` are only read
behind a `seen == seq` check, so state left by earlier queries never
influences a later one. -/
theorem claim_C9_generation_isolation {C : Type} [LinearOrder C] [Add C]
    [Zero C] [Inhabited C] (ctx : SearchContext C) (grid : CostGrid C)
    (start goal : Coord) (dirs : List Direction) (hf : Coord → Coord → C)
    (config : SearchConfig) (fuel : Nat) (hwf : WellFormedCtx ctx) :
    (ctx.search_general grid start goal dirs hf config fuel).1 =
      ((SearchContext.new C ctx.width ctx.height).search_general grid
        start goal dirs hf config fuel).1 ∧
    WellFormedCtx (ctx.search_general grid start goal dirs hf config
      fuel).2 := by
  constructor
  · unfold SearchContext.search_general SearchContext.init
      SearchContext.new
    rcases hsol : grid.is_solid start with _ | sol
    · rfl
    · dsimp only
      by_cases hb : sol = true ∧ ¬config.allow_solid_start = true
      · rw [if_pos hb, if_pos hb]
      · rw [if_neg hb, if_neg hb]
        rcases hidx : indexOfCoord ctx.width ctx.height start with _ | index
        · rfl
        · dsimp only
          by_cases hg : start = goal
          · rw [if_pos (by simp [hg]), if_pos (by simp [hg])]
          · rw [if_neg (by simp [hg]), if_neg (by simp [hg])]
            dsimp only
            refine searchLoop_iso grid _ dirs hf goal fuel _ _ 0 rfl rfl
              ⟨rfl, ?_⟩ ?_ ?_
            · intro i hi
              dsimp only
              by_cases hii : i = index
              · rw [hii, setNode_same, setNode_same]
                refine ⟨(hwf index (indexOfCoord_lt hidx)).2.2, rfl,
                  by simp, ?_, fun _ => ⟨rfl, rfl⟩⟩
                constructor
                · intro hv
                  have hv2 : (ctx.node_grid index).visited = ctx.seq + 1 :=
                    hv
                  have := (hwf index (indexOfCoord_lt hidx)).2.1
                  omega
                · intro hv
                  simp [SearchNode.ofCoord] at hv
              · rw [setNode_other _ _ _ _ hii, setNode_other _ _ _ _ hii]
                obtain ⟨h1, h2, h3⟩ := hwf i hi
                refine ⟨h3, rfl, ?_, ?_, ?_⟩
                · constructor
                  · intro hs
                    omega
                  · intro hs
                    simp [SearchNode.ofCoord] at hs
                · constructor
                  · intro hv
                    omega
                  · intro hv
                    simp [SearchNode.ofCoord] at hv
                · intro hs
                  omega
            · intro e he
              dsimp only at he
              refine heapPush_pred
                (fun y => y.node_index < ctx.width * ctx.height ∧
                  ((setNode ctx.node_grid index
                    ⟨ctx.seq + 1, (ctx.node_grid index).visited, (ctx.node_grid index).coord, none, 0⟩) y.node_index).seen = ctx.seq + 1)
                [] _ (by intro y hy; simp at hy) ?_ e he
              refine ⟨indexOfCoord_lt hidx, ?_⟩
              rw [setNode_same]
            · intro i hi hseen d hfp
              dsimp only at hseen hfp
              by_cases hii : i = index
              · rw [hii, setNode_same] at hfp
                simp at hfp
              · rw [setNode_other _ _ _ _ hii] at hseen
                have := (hwf i hi).1
                omega
  · unfold SearchContext.search_general SearchContext.init
    rcases hsol : grid.is_solid start with _ | sol
    · exact hwf
    · dsimp only
      by_cases hb : sol = true ∧ ¬config.allow_solid_start = true
      · rw [if_pos hb]
        exact hwf
      · rw [if_neg hb]
        rcases hidx : indexOfCoord ctx.width ctx.height start with _ | index
        · exact hwf
        · dsimp only
          by_cases hg : start = goal
          · rw [if_pos (by simp [hg])]
            exact hwf
          · rw [if_neg (by simp [hg])]
            dsimp only
            have hwf3 : ∀ i, i < ctx.width * ctx.height →
                ((setNode ctx.node_grid index
                  ⟨ctx.seq + 1, (ctx.node_grid index).visited, (ctx.node_grid index).coord, none, 0⟩) i).seen ≤ ctx.seq + 1 ∧
                ((setNode ctx.node_grid index
                  ⟨ctx.seq + 1, (ctx.node_grid index).visited, (ctx.node_grid index).coord, none, 0⟩) i).visited ≤ ctx.seq + 1 ∧
                ((setNode ctx.node_grid index
                  ⟨ctx.seq + 1, (ctx.node_grid index).visited, (ctx.node_grid index).coord, none, 0⟩) i).coord = indexToCoord ctx.width i := by
              intro i hi
              obtain ⟨h1, h2, h3⟩ := hwf i hi
              by_cases hii : i = index
              · rw [hii, setNode_same]
                refine ⟨le_refl _, ?_, ?_⟩
                · show (ctx.node_grid index).visited ≤ ctx.seq + 1
                  have := (hwf index (indexOfCoord_lt hidx)).2.1
                  omega
                · rw [← hii]
                  exact h3
              · rw [setNode_other _ _ _ _ hii]
                exact ⟨by omega, by omega, h3⟩
            obtain ⟨hW, hH, hS, hG⟩ := searchLoop_wf grid _ dirs hf goal
              fuel
              { ctx with
                seq := ctx.seq + 1
                priority_queue := heapPush []
                  ⟨index, 0⟩
                node_grid := setNode ctx.node_grid index
                  ⟨ctx.seq + 1, (ctx.node_grid index).visited, (ctx.node_grid index).coord, none, 0⟩ }
              0 hwf3
            intro i hi
            rw [hW, hH] at hi
            obtain ⟨h1, h2, h3⟩ := hG i hi
            rw [hW, hS]
            exact ⟨h1, h2, h3⟩

/-- Witness for claim C9: the context left behind by a first query on a
2 × 2 grid is well formed, and a second query on it returns exactly the
fresh-context result. -/
theorem claim_C9_generation_isolation_witness :
    ((((SearchContext.new Nat 2 2).search_general
        (costGridOfCells [[some 1, some 1], [some 1, some 1]])
        ⟨0, 0⟩ ⟨1, 1⟩ directionsCardinalList (fun _ _ => 0) ⟨true⟩
        9).2).search_general
      (costGridOfCells [[some 1, some 1], [some 1, some 1]])
      ⟨1, 0⟩ ⟨0, 1⟩ directionsCardinalList (fun _ _ => 0) ⟨true⟩ 9).1 =
      ((SearchContext.new Nat
        (((SearchContext.new Nat 2 2).search_general
          (costGridOfCells [[some 1, some 1], [some 1, some 1]])
          ⟨0, 0⟩ ⟨1, 1⟩ directionsCardinalList (fun _ _ => 0) ⟨true⟩
          9).2).width
        (((SearchContext.new Nat 2 2).search_general
          (costGridOfCells [[some 1, some 1], [some 1, some 1]])
          ⟨0, 0⟩ ⟨1, 1⟩ directionsCardinalList (fun _ _ => 0) ⟨true⟩
          9).2).height).search_general
        (costGridOfCells [[some 1, some 1], [some 1, some 1]])
        ⟨1, 0⟩ ⟨0, 1⟩ directionsCardinalList (fun _ _ => 0) ⟨true⟩ 9).1 ∧
    WellFormedCtx ((((SearchContext.new Nat 2 2).search_general
        (costGridOfCells [[some 1, some 1], [some 1, some 1]])
        ⟨0, 0⟩ ⟨1, 1⟩ directionsCardinalList (fun _ _ => 0) ⟨true⟩
        9).2).search_general
      (costGridOfCells [[some 1, some 1], [some 1, some 1]])
      ⟨1, 0⟩ ⟨0, 1⟩ directionsCardinalList (fun _ _ => 0) ⟨true⟩ 9).2 :=
  claim_C9_generation_isolation
    (((SearchContext.new Nat 2 2).search_general
      (costGridOfCells [[some 1, some 1], [some 1, some 1]])
      ⟨0, 0⟩ ⟨1, 1⟩ directionsCardinalList (fun _ _ => 0) ⟨true⟩ 9).2)
    (costGridOfCells [[some 1, some 1], [some 1, some 1]])
    ⟨1, 0⟩ ⟨0, 1⟩ directionsCardinalList (fun _ _ => 0) ⟨true⟩ 9
    (by unfold WellFormedCtx; decide)

end GridSearch
